import Mathlib

/-!
PPS-Client controller: a shallow embedding and its verified properties

The definitions below transcribe the controller functions of
`src/client/pps-client.cpp`, the ordered list of `src/client/pps-files.cpp`
and the declarations of `src/client/pps-client.h`.

Modelling conventions
* `int` and `unsigned int` objects are `Int` and `Nat`.  All counters of the
  program count seconds or microseconds within one second, so they stay far
  inside the 32-bit range; no wrap-around is modelled.
* `double` objects are exact rationals (`double := ℚ`): every finite double is a
  rational number and the comparisons, sums and products of the program are
  taken exactly.  `(int)x` is truncation toward zero, `fabs` is `|x|`.
* The process-wide `struct G g` and the file-scope objects `rawErrorAvg`,
  `rawErr`, `writeJitterDistrib` and `writeErrorDistrib` form one record `G`.
* Every `adjtimex(&g.t3)` call appends the request found in `g.t3` to the
  field `sysLog`; the values the kernel writes back into the request are not
  modelled.  Log messages and the files written for display are left out.
* Array accesses go through `arrGet` and `arrSet`: a read outside the array
  yields the zero element and a write outside the array is dropped.  The
  indices that `List::binaryInsert` and `List::insert` access are listed, in
  order, by `OrderedList.binaryInsert.accesses`, which follows the branches of
  the two methods; the statements about insertion into the list establish that
  these indices lie within the array, or exhibit the one that does not.
* The conditions of `if` statements on the controller state are Boolean
  expressions, as in the source: `&&`, `||`, `!` and `!=` are the C operators
  and `decide` turns a comparison into its truth value.
-/

namespace PPSClient

/-! ## Constants of `pps-client.h` -/

abbrev double : Type := ℚ

def USECS_PER_SEC : Int := 1000000
def SECS_PER_MINUTE : Int := 60
def SECS_PER_10_MIN : Int := 600
def SECS_PER_HOUR : Int := 3600
def PER_MINUTE : double := 1 / (SECS_PER_MINUTE : double)
def SETTLE_TIME : Int := 2 * SECS_PER_10_MIN
def INV_GAIN_1 : Int := 1
def INV_GAIN_0 : Int := 4
def INTEGRAL_GAIN : double := 63212 / 100000
def ZERO_OFFSET_RPI3 : Int := 7
def ZERO_OFFSET_RPI4 : Int := 4
def OFFSETFIFO_LEN : Nat := 80
def NUM_INTEGRALS : Int := 10
def PER_NUM_INTEGRALS : double := 1 / (NUM_INTEGRALS : double)
def ADJTIMEX_SCALE : double := 65536
def RAW_ERROR_ZERO : Int := 20
def RAW_ERROR_DECAY : double := 98851 / 100000
def INTERRUPT_LOST : Int := 15
def MAX_SPIKES : Int := 60
def MAX_SPIKE_LEVEL : Int := 1000000
def CLK_CHANGED_LEVEL : Int := 1000
def LARGE_SPIKE : Int := 80
def NOISE_ACCUM_RATE : double := 1 / 10
def NOISE_LEVEL_MIN : Int := 4
def SLEW_LEN : Int := 10
def SLEW_MAX : Int := 300
def ERROR_DISTRIB_LEN : Int := 121
def JITTER_DISTRIB_LEN : Int := 181
def HARD_LIMIT_NONE : Int := 32768
def HARD_LIMIT_1024 : Int := 1024
def HARD_LIMIT_4 : Int := 4
def HARD_LIMIT_1 : Int := 1

/-! Mode and status bits of `<sys/timex.h>` (Linux values). -/

def ADJ_FREQUENCY : Int := 2
def ADJ_STATUS : Int := 16
def ADJ_SETOFFSET : Int := 256
def ADJ_OFFSET_SINGLESHOT : Int := 32769
def STA_PLL : Int := 1

/-! ## Helpers for C arithmetic and arrays -/

/-- The conversion `(int)x` of a double: truncation toward zero. -/
def toInt (x : double) : Int := if 0 ≤ x then ⌊x⌋ else ⌈x⌉

/-- The C library function `round`: nearest integer, halves away from zero. -/
def cround (x : double) : Int := if 0 ≤ x then ⌊x + 1 / 2⌋ else ⌈x - 1 / 2⌉

/-- Array read `a[i]`. -/
def arrGet {α : Type} [Inhabited α] (a : List α) (i : Int) : α :=
  if i < 0 then default else a.getD i.toNat default

/-- Array write `a[i] = v`. -/
def arrSet {α : Type} (a : List α) (i : Int) (v : α) : List α :=
  if i < 0 then a else a.set i.toNat v

/-! ## Data structures -/

/-- The `struct timeval` argument of the controller. -/
structure timeval where
  tv_sec : Int
  tv_usec : Int
deriving DecidableEq

/-- The fields of `struct timex` that the program assigns. -/
structure timex where
  modes : Int
  offset : Int
  freq : Int
  status : Int
  time_tv_sec : Int
  time_tv_usec : Int
deriving DecidableEq

/-- The request left by `memset(&g.t3, 0, sizeof(struct timex))`. -/
def timex.zero : timex :=
  { modes := 0, offset := 0, freq := 0, status := 0, time_tv_sec := 0, time_tv_usec := 0 }

/-- A system request made by the controller. -/
inductive SysCall where
  | adjtimex (t : timex)
  | stopTimesyncd
deriving DecidableEq

/-- The `struct intPair` of the ordered list. -/
structure intPair where
  val : Int
  nVals : Int
deriving DecidableEq

instance : Inhabited intPair := ⟨⟨0, 0⟩⟩

/-- The `class List` of `pps-client.h`: an ordered list of values with
multiplicities, stored in an array `lst` of `size` elements. -/
structure OrderedList where
  ln : Int
  size : Int
  count : Int
  lst : List intPair
deriving DecidableEq

/-- The controller state: `struct G` together with the file-scope objects
`rawErrorAvg`, `rawErr`, `writeJitterDistrib`, `writeErrorDistrib` and the
record `sysLog` of requests made to the system. -/
structure G where
  nCores : Int
  useCore : Int
  cpuVersion : Int
  isVerbose : Bool
  seq_num : Nat
  ppsTimestamp : Int
  isControlling : Bool
  activeCount : Nat
  interruptReceived : Bool
  interruptLost : Bool
  interruptLossCount : Int
  t_now : Int
  t_count : Int
  t_mono_now : double
  t_mono_last : double
  zeroOffset : Int
  noiseLevel : double
  ppsPhase : Int
  rawError : Int
  rawErrorDistrib : List double
  ppsCount : Nat
  nDelaySpikes : Int
  isDelaySpike : Bool
  minSustainedDelay : Int
  clockChanged : Bool
  slewAccum : double
  slewAccum_cnt : Int
  avgSlew : double
  slewIsLow : Bool
  zeroError : Int
  hardLimit : Int
  clampAbsolute : Bool
  invProportionalGain : Int
  timeCorrection : Int
  t3 : timex
  avgCorrection : double
  correctionFifo : List Int
  correctionFifoCount : Int
  correctionAccum : Int
  integral : List double
  avgIntegral : double
  integralCount : Int
  correctionFifo_idx : Int
  integralGain : double
  integralTimeCorrection : double
  freqOffset : double
  doNISTsettime : Bool
  nistTimeUpdated : Bool
  consensusTimeError : Int
  doSerialsettime : Bool
  serialTimeUpdated : Bool
  serialTimeError : Int
  startingFromRestore : Int
  exit_requested : Bool
  exitOnLostPPS : Bool
  exit_loop : Bool
  blockDetectClockChange : Int
  recIndex : Int
  recIndex2 : Int
  pps_t_sec : Int
  pps_t_usec : Int
  intervalCount : Int
  jitter : Int
  seq_numRec : List Int
  lastFreqOffset : double
  freqOffsetSum : double
  freqOffsetDiff : List double
  jitterDistrib : List Int
  jitterCount : Int
  errorDistrib : List Int
  errorCount : Int
  freqOffsetRec2 : List double
  offsetRec : List Int
  rawErrorAvg : double
  rawErr : OrderedList
  writeJitterDistrib : Bool
  writeErrorDistrib : Bool
  sysLog : List SysCall

/-- The system call `adjtimex(&g.t3)`: the request in `g.t3` is recorded. -/
def adjtimex (g : G) : G :=
  { g with sysLog := g.sysLog ++ [SysCall.adjtimex g.t3] }

/-! ## The ordered list (`pps-files.cpp`, `pps-client.h`) -/

/-- The loop `for (int i = 0; i < size; i++)` of `List::clear`. -/
def OrderedList.clearLoop (lst : List intPair) : Nat → Int → List intPair
  | 0, _ => lst
  | n + 1, i => OrderedList.clearLoop (arrSet lst i ⟨0, 0⟩) n (i + 1)

/-- The method `List::clear`. -/
def OrderedList.clear (l : OrderedList) : OrderedList :=
  { l with lst := OrderedList.clearLoop l.lst l.size.toNat 0, ln := 0, count := 0 }

/-- The constructor `List(int sz)`. -/
def OrderedList.new (sz : Int) : OrderedList :=
  OrderedList.clear { ln := 0, size := sz, count := 0, lst := List.replicate sz.toNat ⟨0, 0⟩ }

/-- The loop `for (int i = ln; i >= idx; i--) lst[i+1] = lst[i]` of
`List::insert`; the first argument bounds the number of iterations.  Its first
iteration writes `lst[ln + 1]`: for `ln = size - 1` that element lies outside
the array of the source, and `arrSet` drops the write. -/
def OrderedList.shiftLoop (idx : Int) : Nat → Int → List intPair → List intPair
  | 0, _, lst => lst
  | n + 1, i, lst =>
    if i ≥ idx then OrderedList.shiftLoop idx n (i - 1) (arrSet lst (i + 1) (arrGet lst i))
    else lst

/-- The private method `List::insert`.  For `ln + 1 < size` every element it
accesses lies within the array and the definition is the method of the source;
for `ln = size - 1` the source writes past the array, which has no defined
outcome, and the definition leaves the array as the dropped write does.  The
indices accessed are those of `OrderedList.insert.accesses`. -/
def OrderedList.insert (l : OrderedList) (idx : Int) (val : Int) : OrderedList :=
  let lst := OrderedList.shiftLoop idx (l.ln - idx + 1).toNat l.ln l.lst
  let lst := arrSet lst idx ⟨val, (arrGet lst idx).nVals⟩
  let lst := arrSet lst idx ⟨(arrGet lst idx).val, 1⟩
  { l with lst := lst, ln := l.ln + 1 }

/-- The binary search loop `while ((high - low) > 1)` of `List::binaryInsert`,
returning the final `high`; the first argument bounds the number of
iterations. -/
def OrderedList.searchLoop (lst : List intPair) (val : Int) : Nat → Int → Int → Int
  | 0, high, _ => high
  | n + 1, high, low =>
    if high - low > 1 then
      let j := Int.tdiv (high + low) 2
      if val ≤ (arrGet lst j).val then OrderedList.searchLoop lst val n j low
      else OrderedList.searchLoop lst val n high j
    else high

/-- The method `List::binaryInsert`: the list after the call and the returned
insertion index. -/
def OrderedList.binaryInsert (l : OrderedList) (val : Int) : OrderedList × Int :=
  if l.count = l.size then (l, l.size)
  else
    let l := { l with count := l.count + 1 }
    let high := l.ln - 1
    if l.ln = 0 ∨ val > (arrGet l.lst high).val then
      let l := l.insert l.ln val
      (l, l.ln)
    else if l.ln = 1 then
      if val < (arrGet l.lst 0).val then (l.insert 0 val, 0)
      else if val > (arrGet l.lst 0).val then
        let l := l.insert l.ln val
        (l, l.ln)
      else
        ({ l with lst := arrSet l.lst 0 ⟨(arrGet l.lst 0).val, (arrGet l.lst 0).nVals + 1⟩ }, 0)
    else
      let high := OrderedList.searchLoop l.lst val (high + 1).toNat high (-1)
      if (arrGet l.lst high).val = val then
        let p : intPair := ⟨(arrGet l.lst high).val, (arrGet l.lst high).nVals + 1⟩
        ({ l with lst := arrSet l.lst high p }, high)
      else (l.insert high val, high)

/-- The loop of `List::averageBelow`, returning the final `(sum, n)`. -/
def OrderedList.averageLoop (l : OrderedList) (maxVal : Int) : Nat → Int → Int → Int → Int × Int
  | 0, _, sum, n => (sum, n)
  | k + 1, i, sum, n =>
    if i < l.ln then
      let sum := sum + (arrGet l.lst i).nVals * (arrGet l.lst i).val
      let n := n + (arrGet l.lst i).nVals
      if i < l.ln - 1 ∧ (arrGet l.lst (i + 1)).val - (arrGet l.lst i).val ≥ maxVal then (sum, n)
      else OrderedList.averageLoop l maxVal k (i + 1) sum n
    else (sum, n)

/-- The method `List::averageBelow`. -/
def OrderedList.averageBelow (l : OrderedList) (maxVal : Int) : double :=
  if l.ln = 0 then 0
  else
    let r := OrderedList.averageLoop l maxVal l.ln.toNat 0 0 0
    (r.1 : double) / (r.2 : double)

/-! ## The controller (`pps-client.cpp`) -/

/-- The inputs of `initialize`: its argument `verbose` and the outcome of
`getConfigs()` and `getRPiCPU()` at a restart, the values read from the
configuration file and from the processor description. -/
structure Configs where
  verbose : Bool
  rv : Int
  errorDistribEnabled : Bool
  jitterDistribEnabled : Bool
  ppsdelay : Option Int
  segregate : Option (Int × Int)
  ppsphase : Option Int
  doNISTsettime : Bool
  doSerialsettime : Bool
  exitLostPPS : Option Bool
  cpuVersion : Int

/-- The state at program start: the objects of static storage are zero and
`rawErr` has been constructed by `List rawErr(SLEW_LEN)`. -/
def G.startup : G :=
  { nCores := 0, useCore := 0, cpuVersion := 0, isVerbose := false, seq_num := 0,
    ppsTimestamp := 0, isControlling := false, activeCount := 0,
    interruptReceived := false, interruptLost := false, interruptLossCount := 0,
    t_now := 0, t_count := 0, t_mono_now := 0, t_mono_last := 0, zeroOffset := 0,
    noiseLevel := 0, ppsPhase := 0, rawError := 0,
    rawErrorDistrib := List.replicate ERROR_DISTRIB_LEN.toNat 0, ppsCount := 0,
    nDelaySpikes := 0, isDelaySpike := false, minSustainedDelay := 0, clockChanged := false,
    slewAccum := 0, slewAccum_cnt := 0, avgSlew := 0, slewIsLow := false, zeroError := 0,
    hardLimit := 0, clampAbsolute := false, invProportionalGain := 0, timeCorrection := 0,
    t3 := timex.zero, avgCorrection := 0, correctionFifo := List.replicate OFFSETFIFO_LEN 0,
    correctionFifoCount := 0, correctionAccum := 0,
    integral := List.replicate NUM_INTEGRALS.toNat 0, avgIntegral := 0, integralCount := 0,
    correctionFifo_idx := 0, integralGain := 0, integralTimeCorrection := 0, freqOffset := 0,
    doNISTsettime := false, nistTimeUpdated := false, consensusTimeError := 0,
    doSerialsettime := false, serialTimeUpdated := false, serialTimeError := 0,
    startingFromRestore := 0, exit_requested := false, exitOnLostPPS := false,
    exit_loop := false, blockDetectClockChange := 0, recIndex := 0, recIndex2 := 0,
    pps_t_sec := 0, pps_t_usec := 0, intervalCount := 0, jitter := 0,
    seq_numRec := List.replicate SECS_PER_10_MIN.toNat 0, lastFreqOffset := 0,
    freqOffsetSum := 0, freqOffsetDiff := List.replicate 5 0,
    jitterDistrib := List.replicate JITTER_DISTRIB_LEN.toNat 0, jitterCount := 0,
    errorDistrib := List.replicate ERROR_DISTRIB_LEN.toNat 0, errorCount := 0,
    freqOffsetRec2 := List.replicate SECS_PER_10_MIN.toNat 0,
    offsetRec := List.replicate SECS_PER_10_MIN.toNat 0,
    rawErrorAvg := 0, rawErr := OrderedList.new SLEW_LEN,
    writeJitterDistrib := false, writeErrorDistrib := false,
    sysLog := [] }

/-- The state left by `memset(&g, 0, sizeof(struct G))`: every member of
`struct G` is zero; the file-scope objects and the record of system requests
are kept. -/
def G.memset0 (g : G) : G :=
  { G.startup with
    rawErrorAvg := g.rawErrorAvg, rawErr := g.rawErr,
    writeJitterDistrib := g.writeJitterDistrib, writeErrorDistrib := g.writeErrorDistrib,
    sysLog := g.sysLog }

/-- The part of `getConfigs` that is run each second: the switches of the
two distributions written for analysis. -/
def getConfigs.distribs (g : G) (c : Configs) : G :=
  let g := if c.errorDistribEnabled then
      (if !g.writeErrorDistrib then
        { g with errorDistrib := List.replicate ERROR_DISTRIB_LEN.toNat 0, errorCount := 0,
                 writeErrorDistrib := true }
       else g)
    else { g with writeErrorDistrib := false }
  if c.jitterDistribEnabled then
    (if !g.writeJitterDistrib then
      { g with jitterDistrib := List.replicate JITTER_DISTRIB_LEN.toNat 0, jitterCount := 0,
               writeJitterDistrib := true }
     else g)
  else { g with writeJitterDistrib := false }

/-- The part of `getConfigs` that copies the values of the configuration
file into the state. -/
def getConfigs.values (g : G) (c : Configs) : G :=
  { g with
    zeroOffset := c.ppsdelay.getD g.zeroOffset,
    useCore := (c.segregate.map Prod.fst).getD g.useCore,
    nCores := (c.segregate.map Prod.snd).getD g.nCores,
    ppsPhase := c.ppsphase.getD g.ppsPhase,
    doNISTsettime := c.doNISTsettime,
    doSerialsettime := c.doSerialsettime,
    exitOnLostPPS := c.exitLostPPS.getD g.exitOnLostPPS }

/-- The effect of `getConfigs()` on the state, for the configuration `c`. -/
def getConfigs (g : G) (c : Configs) : G :=
  getConfigs.values (getConfigs.distribs g c) c

/-- The processor dependent part of `initialize` (lines 92 to 108). -/
def initializeController.cpu (g : G) (c : Configs) : G :=
  let g := { g with cpuVersion := c.cpuVersion }
  if decide (g.cpuVersion = 3) then
    let g := { g with zeroOffset := ZERO_OFFSET_RPI3 }
    if decide (g.nCores > 0) && g.nCores != 4 then { g with nCores := 0 } else g
  else if decide (g.cpuVersion = 4) then
    let g := { g with zeroOffset := ZERO_OFFSET_RPI4 }
    if decide (g.nCores > 0) && g.nCores != 4 then { g with nCores := 0 } else g
  else g

/-- The function `initialize` of `pps-client.cpp`: the state after a start or
restart and the returned value. -/
def initializeController (g : G) (c : Configs) : G × Int :=
  let g := g.memset0
  let g := { g with isVerbose := c.verbose }
  let g := { g with integralGain := INTEGRAL_GAIN }
  let g := { g with invProportionalGain := INV_GAIN_0 }
  let g := { g with hardLimit := HARD_LIMIT_NONE }
  let g := { g with exitOnLostPPS := true }
  let g := { g with t3 := { g.t3 with modes := ADJ_FREQUENCY } }
  let g := { g with t3 := { g.t3 with freq := 0 } }
  let g := adjtimex g
  let g := getConfigs g c
  let g := initializeController.cpu g c
  (g, c.rv)

/-- The function `getAcquireState`. -/
def getAcquireState (g : G) : G × Bool :=
  let g := if !g.slewIsLow && decide (g.slewAccum_cnt = 0) && decide (|g.avgSlew| < SLEW_MAX)
    then { g with slewIsLow := true } else g
  (g, g.slewIsLow && decide ((g.seq_num : Int) ≥ SECS_PER_MINUTE))

/-- The loop `while (g.hardLimit < d_4 && g.hardLimit < HARD_LIMIT_NONE)` of
`setHardLimit`, returning the final `g.hardLimit`; the first argument bounds
the number of iterations. -/
def hardLimitLoop (d_4 : Int) : Nat → Int → Int
  | 0, hardLimit => hardLimit
  | n + 1, hardLimit =>
    if hardLimit < d_4 ∧ hardLimit < HARD_LIMIT_NONE then hardLimitLoop d_4 n (hardLimit * 2)
    else hardLimit

/-- The function `setHardLimit`.  The shifts `<< 1` and `>> 1` are the product
and the quotient by two; sixteen iterations of the loop are enough to leave it
whenever `g.hardLimit` is at least one. -/
def setHardLimit (g : G) (avgCorrection : double) : G :=
  let avgCorrectionMag := |avgCorrection|
  if decide ((g.activeCount : Int) < SECS_PER_MINUTE) then
    { g with hardLimit := HARD_LIMIT_NONE }
  else if decide (|g.avgSlew| > SLEW_MAX) then
    let d_4 := toInt (|g.avgSlew| * 4)
    { g with hardLimit := hardLimitLoop d_4 16 g.hardLimit }
  else if decide (avgCorrectionMag < (g.hardLimit : double) * (1 / 4)) then
    if decide (g.hardLimit > 1) then { g with hardLimit := g.hardLimit / 2 } else g
  else if decide (avgCorrectionMag > (g.hardLimit : double) * (1 / 2)) then
    let g := { g with hardLimit := g.hardLimit * 2 }
    if decide (g.hardLimit > HARD_LIMIT_NONE) then { g with hardLimit := HARD_LIMIT_NONE } else g
  else g

/-- The function `getTimeSlew`. -/
def getTimeSlew (g : G) (rawError : Int) : G :=
  let g := { g with rawErr := (g.rawErr.binaryInsert rawError).1 }
  let g := { g with slewAccum_cnt := g.slewAccum_cnt + 1 }
  let g := { g with slewAccum := g.slewAccum + (rawError : double) }
  if decide (g.slewAccum_cnt ≥ SLEW_LEN) then
    let g := { g with slewAccum_cnt := 0 }
    let avg := g.slewAccum / (SLEW_LEN : double)
    let avgBelow := g.rawErr.averageBelow LARGE_SPIKE
    let g := if decide (|avg| < |avgBelow|) then { g with avgSlew := avg }
      else { g with avgSlew := avgBelow }
    let g := { g with slewAccum := 0 }
    { g with rawErr := g.rawErr.clear }
  else g

/-- The function `clampJitter`: the state after the call and the returned
zero error. -/
def clampJitter (g : G) (rawError : Int) : G × Int :=
  let maxClamp := g.hardLimit
  let g :=
    if decide (g.rawErrorAvg < 1) && decide (g.hardLimit ≤ 4) then { g with clampAbsolute := true }
    else if decide (g.hardLimit ≥ 16) then { g with clampAbsolute := false }
    else g
  let posClamp := if g.clampAbsolute then maxClamp else toInt g.rawErrorAvg + maxClamp
  let negClamp := if g.clampAbsolute then -maxClamp else toInt g.rawErrorAvg - maxClamp
  let zeroError :=
    if rawError > posClamp then posClamp
    else if rawError < negClamp then negClamp
    else rawError
  (g, zeroError)

/-- The first statement of `makeAverageIntegral` (lines 299 to 313): the
accumulation made over the last `NUM_INTEGRALS` seconds of each minute. -/
def makeAverageIntegral.accumulate (g : G) (avgCorrection : double) : G :=
  let indexOffset := SECS_PER_MINUTE - NUM_INTEGRALS
  if decide (g.correctionFifo_idx ≥ indexOffset) then
    let i := g.correctionFifo_idx - indexOffset
    let g := if decide (i = 0) then
        let g := { g with avgIntegral := 0 }
        { g with integralCount := 0 }
      else g
    let g := { g with integral := arrSet g.integral i (arrGet g.integral i + avgCorrection) }
    if decide (g.hardLimit = HARD_LIMIT_1) then
      let g := { g with avgIntegral := g.avgIntegral + arrGet g.integral i }
      { g with integralCount := g.integralCount + 1 }
    else g
  else g

/-- The function `makeAverageIntegral`. -/
def makeAverageIntegral (g : G) (avgCorrection : double) : G :=
  let g := makeAverageIntegral.accumulate g avgCorrection
  if decide (g.correctionFifo_idx = SECS_PER_MINUTE - 1)
      && decide (g.integralCount = NUM_INTEGRALS) then
    { g with avgIntegral := g.avgIntegral * PER_NUM_INTEGRALS }
  else g

/-- The function `integralIsReady`. -/
def integralIsReady (g : G) : G × Bool :=
  let isReady := decide (g.correctionFifo_idx = 0)
  let g := { g with correctionFifo_idx := g.correctionFifo_idx + 1 }
  let g := if decide (g.correctionFifo_idx ≥ SECS_PER_MINUTE) then
      { g with correctionFifo_idx := 0 }
    else g
  (g, isReady)

/-- The function `getMovingAverage`: the state after the call and the returned
average correction. -/
def getMovingAverage (g : G) (timeCorrection : Int) : G × double :=
  let g := { g with correctionAccum := g.correctionAccum + timeCorrection }
  let g := if decide (g.correctionFifoCount = SECS_PER_MINUTE) then
      let oldError := arrGet g.correctionFifo g.correctionFifo_idx
      { g with correctionAccum := g.correctionAccum - oldError }
    else g
  let g := { g with correctionFifo := arrSet g.correctionFifo g.correctionFifo_idx timeCorrection }
  let g := if decide (g.correctionFifoCount < SECS_PER_MINUTE) then
      { g with correctionFifoCount := g.correctionFifoCount + 1 }
    else g
  let avgCorrection := (g.correctionAccum : double) * PER_MINUTE
  (g, avgCorrection)

/-- The function `setClocktoNISTtime`. -/
def setClocktoNISTtime (g : G) : G :=
  let g := { g with t3 := timex.zero }
  let g := { g with t3 := { g.t3 with modes := ADJ_SETOFFSET + ADJ_STATUS } }
  let g := { g with t3 := { g.t3 with status := STA_PLL } }
  let g := { g with t3 := { g.t3 with time_tv_sec := g.consensusTimeError } }
  let g := { g with t3 := { g.t3 with time_tv_usec := 0 } }
  let g := adjtimex g
  let g := { g with consensusTimeError := 0 }
  { g with nistTimeUpdated := true }

/-- The function `setClockToGPStime`. -/
def setClockToGPStime (g : G) : G :=
  let g := { g with t3 := timex.zero }
  let g := { g with t3 := { g.t3 with modes := ADJ_SETOFFSET + ADJ_STATUS } }
  let g := { g with t3 := { g.t3 with status := STA_PLL } }
  let g := { g with t3 := { g.t3 with time_tv_sec := g.serialTimeError } }
  let g := { g with t3 := { g.t3 with time_tv_usec := 0 } }
  let g := adjtimex g
  let g := { g with serialTimeError := 0 }
  { g with serialTimeUpdated := true }

/-- The loop `for (int i = 0; i < len; i++) errorDistrib[i] *= RAW_ERROR_DECAY`
of `buildRawErrorDistrib`. -/
def decayLoop : Nat → Int → List double → List double
  | 0, _, errorDistrib => errorDistrib
  | n + 1, i, errorDistrib =>
    decayLoop n (i + 1) (arrSet errorDistrib i (arrGet errorDistrib i * RAW_ERROR_DECAY))

/-- The function `buildRawErrorDistrib`, called on `g.rawErrorDistrib` and
`g.ppsCount`. -/
def buildRawErrorDistrib (g : G) (rawError : Int) : G :=
  let len := ERROR_DISTRIB_LEN - 1
  let idx := rawError + RAW_ERROR_ZERO
  let idx := if idx > len then len else if idx < 0 then 0 else idx
  let g :=
    if decide (g.hardLimit = HARD_LIMIT_1) then
      let g := if decide (g.ppsCount > 600) && decide (g.ppsCount % 60 = 0) then
          { g with rawErrorDistrib := decayLoop len.toNat 0 g.rawErrorDistrib }
        else g
      { g with rawErrorDistrib := arrSet g.rawErrorDistrib idx (arrGet g.rawErrorDistrib idx + 1) }
    else g
  { g with ppsCount := g.ppsCount + 1 }

/-- The function `getAvgNoiseLevel`. -/
def getAvgNoiseLevel (g : G) (rawError : Int) : G :=
  let diff := ((rawError : double) - g.rawErrorAvg) * NOISE_ACCUM_RATE
  let g := { g with rawErrorAvg := g.rawErrorAvg + diff }
  let absdiff := (((|g.jitter| : Int) : double) - g.noiseLevel) * NOISE_ACCUM_RATE
  { g with noiseLevel := g.noiseLevel + absdiff }

/-- The limit condition computed at the head of `detectDelaySpike`. -/
def limitCondition (g : G) (rawError : Int) : Bool :=
  if g.clampAbsolute then
    decide (g.hardLimit = 1) && decide (rawError ≥ NOISE_LEVEL_MIN)
  else
    g.isControlling && decide ((rawError : double) - g.rawErrorAvg ≥ (LARGE_SPIKE : double))

/-- The function `detectDelaySpike`: the state after the call and the returned
flag. -/
def detectDelaySpike (g : G) (rawError : Int) : G × Bool :=
  if limitCondition g rawError then
    if decide (g.nDelaySpikes < MAX_SPIKES) then
      let g := if decide (g.nDelaySpikes = 0) then
          { g with minSustainedDelay := MAX_SPIKE_LEVEL }
        else if decide (rawError < g.minSustainedDelay) then
          { g with minSustainedDelay := rawError }
        else g
      let g := { g with nDelaySpikes := g.nDelaySpikes + 1 }
      (g, true)
    else
      let g := if decide (g.minSustainedDelay > CLK_CHANGED_LEVEL) then
          { g with clockChanged := true }
        else g
      (g, false)
  else
    let g := if !g.clampAbsolute then getAvgNoiseLevel g rawError else g
    let g := if decide (g.nDelaySpikes > 0) then { g with nDelaySpikes := 0 } else g
    (g, false)

/-- The function `buildErrorDistrib` of `pps-files.cpp`. -/
def buildErrorDistrib (g : G) (timeCorrection : Int) : G :=
  let len := ERROR_DISTRIB_LEN - 1
  let idx := timeCorrection + Int.tdiv len 6
  let idx := if idx < 0 then 0 else if idx > len then len else idx
  let g := { g with errorDistrib := arrSet g.errorDistrib idx (arrGet g.errorDistrib idx + 1) }
  { g with errorCount := g.errorCount + 1 }

/-- The function `buildJitterDistrib` of `pps-files.cpp`. -/
def buildJitterDistrib (g : G) (rawError : Int) : G :=
  let len := JITTER_DISTRIB_LEN - 1
  let idx := rawError + Int.tdiv len 3
  let idx := if idx < 0 then 0 else if idx > len then len else idx
  let g := { g with jitterDistrib := arrSet g.jitterDistrib idx (arrGet g.jitterDistrib idx + 1) }
  { g with jitterCount := g.jitterCount + 1 }

/-- The first part of `removeNoise`, up to the test of `g.isDelaySpike`
(lines 605 to 614). -/
def removeNoise.front (g : G) (rawError : Int) : G :=
  let g := buildRawErrorDistrib g rawError
  let g := { g with jitter := rawError }
  let r := detectDelaySpike g rawError
  let g := { r.1 with isDelaySpike := r.2 }
  let g := getTimeSlew g rawError
  if g.writeJitterDistrib && decide ((g.seq_num : Int) > SETTLE_TIME) then
    buildJitterDistrib g rawError
  else g

/-- The statements of `removeNoise` that set the clamp and produce the zero
error (lines 620 to 626). -/
def removeNoise.clamp (g : G) (rawError : Int) : G × Int :=
  let g := setHardLimit g g.avgCorrection
  let r := clampJitter g rawError
  let g := r.1
  let zeroError := r.2
  if g.clampAbsolute then (getAvgNoiseLevel g zeroError, zeroError) else (g, zeroError)

/-- The last part of `removeNoise` (lines 628 to 636), entered with the zero
error found by the clamp. -/
def removeNoise.back (g : G) (zeroError : Int) : G × Int :=
  let g := if g.isControlling then { g with invProportionalGain := INV_GAIN_1 } else g
  if decide ((g.seq_num : Int) > SETTLE_TIME) && g.writeErrorDistrib then
    (buildErrorDistrib g zeroError, zeroError)
  else (g, zeroError)

/-- The function `removeNoise`: the state after the call and the returned zero
error. -/
def removeNoise (g : G) (rawError : Int) : G × Int :=
  let g := removeNoise.front g rawError
  if g.isDelaySpike then (g, 0)
  else
    let r := removeNoise.clamp g rawError
    removeNoise.back r.1 r.2

/-- The last statement of `recordFrequencyVars`: the end of a five minute
interval (`if (g.intervalCount >= FIVE_MINUTES)`).  The arrays `freqAllanDev`,
`timestampRec` and `freqOffsetRec`, which are only saved to disk, are left
out. -/
def recordFrequencyVars.interval (g : G) : G :=
  if decide (g.intervalCount ≥ 5) then
    let g := { g with recIndex := g.recIndex + 1 }
    let g := if decide (g.recIndex = 288) then { g with recIndex := 0 } else g
    let g := { g with intervalCount := 0 }
    { g with freqOffsetSum := 0 }
  else g

/-- The function `recordFrequencyVars` of `pps-files.cpp`. -/
def recordFrequencyVars (g : G) : G :=
  let g := { g with freqOffsetSum := g.freqOffsetSum + g.freqOffset }
  let diff := g.freqOffset - g.lastFreqOffset
  let g := { g with freqOffsetDiff := arrSet g.freqOffsetDiff g.intervalCount diff }
  let g := { g with lastFreqOffset := g.freqOffset }
  let g := { g with intervalCount := g.intervalCount + 1 }
  recordFrequencyVars.interval g

/-- The function `getIntegral`: the state after the call and the returned
integral. -/
def getIntegral (g : G) : G × double :=
  let integral :=
    if decide (g.hardLimit = HARD_LIMIT_1) && decide (g.integralCount = NUM_INTEGRALS) then
      g.avgIntegral
    else arrGet g.integral 9
  (recordFrequencyVars g, integral)

/-- The function `recordOffsets` of `pps-files.cpp`. -/
def recordOffsets (g : G) (timeCorrection : Int) : G :=
  let g := { g with seq_numRec := arrSet g.seq_numRec g.recIndex2 (g.seq_num : Int) }
  let g := { g with offsetRec := arrSet g.offsetRec g.recIndex2 timeCorrection }
  let g := { g with freqOffsetRec2 := arrSet g.freqOffsetRec2 g.recIndex2 g.freqOffset }
  let g := { g with recIndex2 := g.recIndex2 + 1 }
  if decide (g.recIndex2 ≥ SECS_PER_10_MIN) then { g with recIndex2 := 0 } else g

/-- The function `savePPStime`; `tv_sec` is the second read by `gettimeofday`. -/
def savePPStime (g : G) (timeCorrection : Int) (tv_sec : Int) : G :=
  let g := { g with pps_t_sec := tv_sec }
  let g := { g with pps_t_usec := -timeCorrection }
  if decide (g.pps_t_usec < 0) then
    let g := { g with pps_t_usec := 1000000 - timeCorrection }
    { g with pps_t_sec := g.pps_t_sec - 1 }
  else g

/-- The function `signedFractionalSeconds`. -/
def signedFractionalSeconds (fracSec : Int) : Int :=
  if fracSec > 500000 then fracSec - USECS_PER_SEC else fracSec

/-- The function `detectExteralSystemClockChange`: the state after the call
and the returned flag. -/
def detectExteralSystemClockChange (g : G) (_pps_t : timeval) : G × Bool :=
  if g.startingFromRestore != 0 then (g, false)
  else if g.isControlling && decide ((g.seq_num : Int) > SLEW_LEN)
      && decide (|g.avgSlew| < SLEW_MAX) then
    if g.t_now != g.t_count then
      let g := { g with t_count := g.t_now }
      (g, true)
    else if decide (g.hardLimit = HARD_LIMIT_1) && g.clockChanged then
      let g := { g with clockChanged := false }
      let g := { g with t_count := g.t_now }
      (g, true)
    else (g, false)
  else (g, false)

/-- The function `setClockFractionalSecond`. -/
def setClockFractionalSecond (g : G) (correction : Int) : G :=
  let g := { g with t3 := timex.zero }
  let g := { g with t3 := { g.t3 with modes := ADJ_SETOFFSET + ADJ_STATUS } }
  let g := { g with t3 := { g.t3 with status := STA_PLL } }
  let g :=
    if decide (correction < 500000) then
      let g := { g with t3 := { g.t3 with time_tv_sec := -1 } }
      { g with t3 := { g.t3 with time_tv_usec := USECS_PER_SEC - correction } }
    else if decide (correction > 1000000) then
      let g := { g with t3 := { g.t3 with time_tv_sec := -1 } }
      { g with t3 := { g.t3 with time_tv_usec := 2 * USECS_PER_SEC - correction } }
    else
      let g := { g with t3 := { g.t3 with time_tv_sec := 0 } }
      { g with t3 := { g.t3 with time_tv_usec := USECS_PER_SEC - correction } }
  let g := { g with t_now := g.t3.time_tv_sec }
  let g := { g with t_count := g.t_now }
  adjtimex g

/-- The function `correctFractionalSecond`: the state and the `timeval` after
the call and the returned value. -/
def correctFractionalSecond (g : G) (pps_t : timeval) : G × timeval × Int :=
  let correction := pps_t.tv_usec
  let relCorrection :=
    if correction ≥ 1000000 then correction - 1000000
    else if correction > 500000 then -(1000000 - correction)
    else correction
  if decide (|relCorrection| < 15) then (g, pps_t, 1)
  else
    let g := setClockFractionalSecond g correction
    let pps_t := { pps_t with tv_usec := pps_t.tv_usec - correction }
    (g, pps_t, 0)

/-- The first two statements of `doTimeFixups` (lines 906 to 916); `now1`
and `now2` are the seconds returned by the calls of `getNearestSecond`. -/
def doTimeFixups.timeUpdated (g : G) (now1 now2 : Int) : G :=
  let g := if g.serialTimeUpdated then
      let g := { g with t_now := now1 }
      let g := { g with t_count := g.t_now }
      { g with serialTimeUpdated := false }
    else g
  if g.nistTimeUpdated then
    let g := { g with t_now := now2 }
    let g := { g with t_count := g.t_now }
    { g with nistTimeUpdated := false }
  else g

/-- The third and fourth statements of `doTimeFixups` (lines 918 to 924). -/
def doTimeFixups.setTime (g : G) : G :=
  let g := if g.doNISTsettime && g.consensusTimeError != 0 then setClocktoNISTtime g else g
  if g.doSerialsettime && g.serialTimeError != 0 then setClockToGPStime g else g

/-- The last statement of `doTimeFixups` (lines 926 to 948).  The argument
`pps_t` is the copy of the caller's `timeval` received by `doTimeFixups`; the
change made to it by `correctFractionalSecond` is not seen by the caller. -/
def doTimeFixups.clockChange (g : G) (pps_t : timeval) : G :=
  let r := if decide (g.blockDetectClockChange = 0) then detectExteralSystemClockChange g pps_t
    else (g, false)
  let g := r.1
  if r.2 then
    if g.serialTimeUpdated then g
    else if g.nistTimeUpdated then g
    else
      let c := correctFractionalSecond g pps_t
      let g := c.1
      if decide (c.2.2 = 1) then g
      else
        let g := { g with blockDetectClockChange := SECS_PER_MINUTE }
        { g with sysLog := g.sysLog ++ [SysCall.stopTimesyncd] }
  else if decide (g.blockDetectClockChange > SECS_PER_MINUTE - 4) then
    (correctFractionalSecond g pps_t).1
  else g

/-- The function `doTimeFixups`.  Its argument `pps_t` is passed by value;
`now1` and `now2` are the seconds returned by its two possible calls of
`getNearestSecond`. -/
def doTimeFixups (g : G) (pps_t : timeval) (now1 now2 : Int) : G :=
  let g := doTimeFixups.timeUpdated g now1 now2
  let g := doTimeFixups.setTime g
  doTimeFixups.clockChange g pps_t

/-- The readings of the system clock made during one call of
`makeTimeCorrection`: the seconds returned by the two possible calls of
`getNearestSecond` in `doTimeFixups` and the second returned by `gettimeofday`
in `savePPStime`. -/
structure ClockReadings where
  nearest1 : Int
  nearest2 : Int
  tod_sec : Int

/-- The frequency update of `makeTimeCorrection` (lines 1016 to 1022), made
when `integralIsReady` returns true. -/
def makeTimeCorrection.frequency (g : G) : G :=
  let i := getIntegral g
  let g := { i.1 with integralTimeCorrection := i.2 }
  let g := { g with freqOffset := g.integralTimeCorrection * g.integralGain }
  let g := { g with t3 := { g.t3 with status := 0 } }
  let g := { g with t3 := { g.t3 with modes := ADJ_FREQUENCY } }
  let g := { g with t3 := { g.t3 with freq := cround (ADJTIMEX_SCALE * g.freqOffset) } }
  adjtimex g

/-- The block of `makeTimeCorrection` executed when `g.isControlling` holds
after `getAcquireState` (lines 1011 to 1027). -/
def controllingSecond (g : G) : G :=
  let r := getMovingAverage g g.timeCorrection
  let g := { r.1 with avgCorrection := r.2 }
  let g := makeAverageIntegral g g.avgCorrection
  let r := integralIsReady g
  let g := if r.2 then makeTimeCorrection.frequency r.1 else r.1
  let g := recordOffsets g g.timeCorrection
  { g with activeCount := g.activeCount + 1 }

/-- The first part of `makeTimeCorrection`, up to the assignment of
`g.rawError` (lines 978 to 990). -/
def makeTimeCorrection.sample (g : G) (pps_t : timeval) (clk : ClockReadings) : G :=
  let g := { g with interruptReceived := true }
  let g := { g with seq_num := g.seq_num + 1 }
  let g := if g.isControlling && decide (g.startingFromRestore = 0) then
      doTimeFixups g pps_t clk.nearest1 clk.nearest2
    else g
  let g := { g with ppsTimestamp := pps_t.tv_usec }
  let time0 := g.ppsTimestamp - g.zeroOffset
  { g with rawError := signedFractionalSeconds time0 }

/-- The part of `makeTimeCorrection` that follows the test of
`g.isDelaySpike` (lines 999 to 1034). -/
def makeTimeCorrection.correct (g : G) (clk : ClockReadings) : G × Int :=
  let g := { g with timeCorrection := Int.tdiv (-g.zeroError) g.invProportionalGain }
  let g := { g with t3 := { g.t3 with status := 0 } }
  let g := { g with t3 := { g.t3 with modes := ADJ_OFFSET_SINGLESHOT } }
  let g := { g with t3 := { g.t3 with offset := g.timeCorrection } }
  let g := adjtimex g
  let r := getAcquireState g
  let g := { r.1 with isControlling := r.2 }
  let g := if g.isControlling then controllingSecond g else { g with t_count := g.t_now }
  (savePPStime g g.timeCorrection clk.tod_sec, 0)

/-- The function `makeTimeCorrection`: the state after the call and the
returned value. -/
def makeTimeCorrection (g : G) (pps_t : timeval) (clk : ClockReadings) : G × Int :=
  let g := makeTimeCorrection.sample g pps_t clk
  let r := removeNoise g g.rawError
  let g := { r.1 with zeroError := r.2 }
  if g.isDelaySpike then (savePPStime g 0 clk.tod_sec, 0)
  else makeTimeCorrection.correct g clk

/-! ## The PPS read of each second (`readPPS_SetTime`) -/

/-- The `struct timespec` read from the monotonic clock. -/
structure timespec where
  tv_sec : Int
  tv_nsec : Int

/-- The second statement of `detectMissedPPS` (lines 725 to 731). -/
def detectMissedPPS.unblock (g : G) : G :=
  if decide (g.blockDetectClockChange > 0) then
    let g := { g with blockDetectClockChange := g.blockDetectClockChange - 1 }
    if decide (g.blockDetectClockChange = 0) then { g with t_count := g.t_now } else g
  else g

/-- The two initialisations of `detectMissedPPS` (lines 736 to 742). -/
def detectMissedPPS.start (g : G) : G :=
  let g := if decide (g.seq_num < 2) || g.startingFromRestore != 0 then
      { g with t_mono_last := g.t_mono_now - 1 }
    else g
  if decide (g.seq_num = 0) || g.startingFromRestore != 0 then { g with t_count := g.t_now }
  else g

/-- The end of `detectMissedPPS` (lines 744 to 754): the counter `g.t_count`
advances by the rounded difference of the monotonic clock readings. -/
def detectMissedPPS.advance (g : G) : G :=
  let diff := g.t_mono_now - g.t_mono_last
  let iDiff := cround diff
  let g := { g with t_count := g.t_count + iDiff }
  { g with t_mono_last := g.t_mono_now }

/-- The function `detectMissedPPS`; `nearest` is the second returned by
`getNearestSecond` and `t_mono` the reading of `clock_gettime(CLOCK_MONOTONIC)`. -/
def detectMissedPPS (g : G) (nearest : Int) (t_mono : timespec) : G :=
  let g := { g with t_now := nearest }
  let g := detectMissedPPS.unblock g
  let now : double := (t_mono.tv_sec : double) + (1 / 1000000000) * (t_mono.tv_nsec : double)
  let g := { g with t_mono_now := now }
  let g := detectMissedPPS.start g
  detectMissedPPS.advance g

/-- The restart decision of `readPPS_SetTime` (lines 1169 to 1192), taken on
the state left by `makeTimeCorrection`.  The calls `abs(g.avgSlew)` are the
absolute value of the double. -/
def readPPS_SetTime.restart (g : G) (c : Configs) : G × Int :=
  if decide (g.startingFromRestore = 0) then
    if (!g.isControlling && decide ((g.seq_num : Int) ≥ SECS_PER_MINUTE))
        || (g.isControlling && decide (g.hardLimit > HARD_LIMIT_1024)
            && decide (|g.avgSlew| > SLEW_MAX)) then
      ((initializeController g c).1, 1)
    else (g, 0)
  else
    if g.isControlling && decide (|g.avgSlew| > SLEW_MAX) then
      ((initializeController g c).1, 1)
    else (g, 0)

/-- The function `readPPS_SetTime`: the state after the call and the returned
value.  `rv` and `tm` are the value returned and the timestamp delivered by
`readPPSTimestamp` (the members `g.tm` and `g.t` only carry the timestamp to
`makeTimeCorrection`), `nearest` and `t_mono` are the clock readings of
`detectMissedPPS`, `clk` those of `makeTimeCorrection`, and `c` is what
`initialize` reads if the controller restarts. -/
def readPPS_SetTime (g : G) (c : Configs) (rv : Int) (tm : timeval) (nearest : Int)
    (t_mono : timespec) (clk : ClockReadings) : G × Int :=
  let restart : Int := 0
  let g := detectMissedPPS g nearest t_mono
  let g := { g with interruptLost := false }
  if decide (rv < 0) then ({ g with interruptLost := true }, restart)
  else
    let r := makeTimeCorrection g tm clk
    if decide (r.2 = -1) then (r.1, -1)
    else readPPS_SetTime.restart r.1 c

/-! ## The wait loop: lost interrupts and the sleep before each second -/

/-- The statements of `checkPPSInterrupt` up to its last assignment (lines
1046 to 1067): the state and whether the function has returned -1. -/
def checkPPSInterrupt.count (g : G) : G × Bool :=
  if decide ((g.seq_num : Int) > 0) && g.exit_requested == false then
    if g.interruptReceived == false then
      let g := { g with interruptLossCount := g.interruptLossCount + 1 }
      if g.exitOnLostPPS && decide (g.interruptLossCount ≥ SECS_PER_HOUR) then (g, true)
      else (g, false)
    else ({ g with interruptLossCount := 0 }, false)
  else (g, false)

/-- The function `checkPPSInterrupt`: the state after the call and the
returned value. -/
def checkPPSInterrupt (g : G) : G × Int :=
  let r := checkPPSInterrupt.count g
  if r.2 then (r.1, -1)
  else ({ r.1 with interruptReceived := false }, 0)

/-- The function `setSyncDelay`. -/
def setSyncDelay (timeAt : Int) (fracSec : Int) : timespec :=
  let timerVal := USECS_PER_SEC - fracSec + timeAt
  if timerVal ≥ USECS_PER_SEC then ⟨1, (timerVal - USECS_PER_SEC) * 1000⟩
  else if timerVal < 0 then ⟨0, (USECS_PER_SEC + timerVal) * 1000⟩
  else ⟨0, timerVal * 1000⟩

/-! ## The array accesses of the ordered list -/

/-- The indices of the array elements accessed by the loop
`for (int i = ln; i >= idx; i--) lst[i+1] = lst[i]` of `List::insert`, in
order: each iteration reads `lst[i]` and writes `lst[i+1]`. -/
def OrderedList.shiftLoop.accesses (idx : Int) : Nat → Int → List Int
  | 0, _ => []
  | n + 1, i =>
    if i ≥ idx then i :: (i + 1) :: OrderedList.shiftLoop.accesses idx n (i - 1)
    else []

/-- The indices of the array elements accessed by `List::insert`: those of its
loop, then the two writes to `lst[idx]`. -/
def OrderedList.insert.accesses (l : OrderedList) (idx : Int) : List Int :=
  OrderedList.shiftLoop.accesses idx (l.ln - idx + 1).toNat l.ln ++ [idx, idx]

/-- The indices `j` read by the binary search loop of `List::binaryInsert`. -/
def OrderedList.searchLoop.accesses (lst : List intPair) (val : Int) : Nat → Int → Int → List Int
  | 0, _, _ => []
  | n + 1, high, low =>
    if high - low > 1 then
      let j := Int.tdiv (high + low) 2
      if val ≤ (arrGet lst j).val then j :: OrderedList.searchLoop.accesses lst val n j low
      else j :: OrderedList.searchLoop.accesses lst val n high j
    else []

/-- The indices of the array elements that `List::binaryInsert` reads or
writes, in order, `List::insert` included. -/
def OrderedList.binaryInsert.accesses (l : OrderedList) (val : Int) : List Int :=
  if l.count = l.size then []
  else
    let l := { l with count := l.count + 1 }
    let high := l.ln - 1
    if l.ln = 0 then OrderedList.insert.accesses l l.ln
    else if val > (arrGet l.lst high).val then high :: OrderedList.insert.accesses l l.ln
    else if l.ln = 1 then
      if val < (arrGet l.lst 0).val then high :: 0 :: OrderedList.insert.accesses l 0
      else if val > (arrGet l.lst 0).val then
        high :: 0 :: 0 :: OrderedList.insert.accesses l l.ln
      else [high, 0, 0, 0]
    else
      let high2 := OrderedList.searchLoop l.lst val (high + 1).toNat high (-1)
      high :: (OrderedList.searchLoop.accesses l.lst val (high + 1).toNat high (-1)
        ++ (if (arrGet l.lst high2).val = val then [high2, high2]
            else high2 :: OrderedList.insert.accesses l high2))

/-- The state after `n` consecutive calls of `checkPPSInterrupt` between which
no PPS sample arrives. -/
def lostSeconds (g : G) : Nat → G
  | 0 => g
  | n + 1 => (checkPPSInterrupt (lostSeconds g n)).1

/-! ## Readings of the state used in the statements on the integrals and on acquisition -/

/-- The integrator part of a state: the index of the moving average, the count
of accumulated integrals, their average and the ten integrals. -/
def G.integ (g : G) : Int × Int × double × List double :=
  (g.correctionFifo_idx, g.integralCount, g.avgIntegral, g.integral)

/-- The sum `integral[0] + ... + integral[k - 1]`. -/
def integralSum (integral : List double) (k : Nat) : double :=
  ((List.range k).map (fun (j : Nat) => arrGet integral (j : Int))).sum

/-- The bounds kept by the index of the moving average and by the count of
accumulated integrals: the index stays in `[0, 60)` and the count is at most
the number of seconds of the minute passed since the index 50, at most ten. -/
def integralInvariant (g : G) : Prop :=
  0 ≤ g.correctionFifo_idx ∧ g.correctionFifo_idx < 60
  ∧ (g.correctionFifo_idx ≤ 50 → g.integralCount ≤ 10)
  ∧ (50 < g.correctionFifo_idx → g.integralCount ≤ g.correctionFifo_idx - 50)

/-- The part of `makeTimeCorrection.correct` that precedes the test of
`g.isControlling` (lines 999 to 1009). -/
def makeTimeCorrection.acquire (g : G) : G :=
  let g := { g with timeCorrection := Int.tdiv (-g.zeroError) g.invProportionalGain }
  let g := { g with t3 := { g.t3 with status := 0 } }
  let g := { g with t3 := { g.t3 with modes := ADJ_OFFSET_SINGLESHOT } }
  let g := { g with t3 := { g.t3 with offset := g.timeCorrection } }
  let g := adjtimex g
  let r := getAcquireState g
  { r.1 with isControlling := r.2 }

/-- A run of locked seconds: every call of `makeTimeCorrection` of the run
that executes the controlling block (its sample is not flagged as a delay
spike and it leaves a controlling state) leaves a hard limit of 1.  The other
calls of the run, those of seconds flagged as delay spikes or left without
control, do not reach `makeAverageIntegral` and are free. -/
def lockedSeconds (g : G) : List (timeval × ClockReadings) → Bool
  | [] => true
  | i :: l =>
    ((makeTimeCorrection g i.1 i.2).1.isDelaySpike
        || !(makeTimeCorrection g i.1 i.2).1.isControlling
        || decide ((makeTimeCorrection g i.1 i.2).1.hardLimit = 1))
      && lockedSeconds (makeTimeCorrection g i.1 i.2).1 l

/-- The number of calls of `makeTimeCorrection` of a run that execute the
controlling block: the controlling seconds of the run. -/
def controllingCount (g : G) : List (timeval × ClockReadings) → Nat
  | [] => 0
  | i :: l =>
    (if !(makeTimeCorrection g i.1 i.2).1.isDelaySpike
        && (makeTimeCorrection g i.1 i.2).1.isControlling then 1 else 0)
      + controllingCount (makeTimeCorrection g i.1 i.2).1 l

/-- The state of a controller that is not controlling yet: relative clamping,
no streak of delay spikes, no active cycle and no hard limit. -/
def acquiringInvariant (g : G) : Prop :=
  g.isControlling = false →
    g.clampAbsolute = false ∧ g.nDelaySpikes = 0 ∧ g.activeCount = 0 ∧ g.hardLimit = 32768

/-! ## Projections used in the statements -/

/-- The servo part of the state: the members that the noise front end and the
time fixups leave alone while a sample is prepared. -/
structure ServoFrame where
  seq_num : Nat
  isControlling : Bool
  slewIsLow : Bool
  activeCount : Nat
  hardLimit : Int
  clampAbsolute : Bool
  invProportionalGain : Int
  timeCorrection : Int
  avgCorrection : double
  correctionFifo : List Int
  correctionFifoCount : Int
  correctionAccum : Int
  correctionFifo_idx : Int
  integral : List double
  avgIntegral : double
  integralCount : Int
  integralGain : double
  integralTimeCorrection : double
  freqOffset : double
  zeroOffset : Int
  startingFromRestore : Int

/-- The servo part of a state. -/
def G.servo (g : G) : ServoFrame :=
  { seq_num := g.seq_num, isControlling := g.isControlling, slewIsLow := g.slewIsLow,
    activeCount := g.activeCount, hardLimit := g.hardLimit, clampAbsolute := g.clampAbsolute,
    invProportionalGain := g.invProportionalGain, timeCorrection := g.timeCorrection,
    avgCorrection := g.avgCorrection, correctionFifo := g.correctionFifo,
    correctionFifoCount := g.correctionFifoCount, correctionAccum := g.correctionAccum,
    correctionFifo_idx := g.correctionFifo_idx, integral := g.integral,
    avgIntegral := g.avgIntegral, integralCount := g.integralCount,
    integralGain := g.integralGain, integralTimeCorrection := g.integralTimeCorrection,
    freqOffset := g.freqOffset, zeroOffset := g.zeroOffset,
    startingFromRestore := g.startingFromRestore }

/-- The front-end part of the state: the members that the controller leaves
alone once the zero error of a sample has been found. -/
structure FrontFrame where
  seq_num : Nat
  isControlling : Bool
  slewIsLow : Bool
  timeCorrection : Int
  hardLimit : Int
  clampAbsolute : Bool
  invProportionalGain : Int
  zeroError : Int
  rawError : Int
  jitter : Int
  isDelaySpike : Bool
  nDelaySpikes : Int
  minSustainedDelay : Int
  clockChanged : Bool
  avgSlew : double
  slewAccum : double
  slewAccum_cnt : Int
  rawErrorAvg : double
  noiseLevel : double
  zeroOffset : Int
  startingFromRestore : Int

/-- The front-end part of a state. -/
def G.front (g : G) : FrontFrame :=
  { seq_num := g.seq_num, isControlling := g.isControlling, slewIsLow := g.slewIsLow,
    timeCorrection := g.timeCorrection,
    hardLimit := g.hardLimit, clampAbsolute := g.clampAbsolute,
    invProportionalGain := g.invProportionalGain, zeroError := g.zeroError,
    rawError := g.rawError, jitter := g.jitter, isDelaySpike := g.isDelaySpike,
    nDelaySpikes := g.nDelaySpikes, minSustainedDelay := g.minSustainedDelay,
    clockChanged := g.clockChanged, avgSlew := g.avgSlew, slewAccum := g.slewAccum,
    slewAccum_cnt := g.slewAccum_cnt, rawErrorAvg := g.rawErrorAvg,
    noiseLevel := g.noiseLevel, zeroOffset := g.zeroOffset,
    startingFromRestore := g.startingFromRestore }

/-- The part of the state that the clamp and the gain promotion of
`removeNoise` leave alone. -/
structure SpikeFrame where
  isDelaySpike : Bool
  nDelaySpikes : Int
  minSustainedDelay : Int
  clockChanged : Bool
  avgSlew : double
  slewAccum : double
  slewAccum_cnt : Int
  jitter : Int
  rawError : Int
  ppsCount : Nat
  t_now : Int
  t_count : Int
  blockDetectClockChange : Int
  sysLog : List SysCall

/-- The part of a state that the clamp and the gain promotion leave alone. -/
def G.spike (g : G) : SpikeFrame :=
  { isDelaySpike := g.isDelaySpike, nDelaySpikes := g.nDelaySpikes,
    minSustainedDelay := g.minSustainedDelay, clockChanged := g.clockChanged,
    avgSlew := g.avgSlew, slewAccum := g.slewAccum, slewAccum_cnt := g.slewAccum_cnt,
    jitter := g.jitter, rawError := g.rawError, ppsCount := g.ppsCount, t_now := g.t_now,
    t_count := g.t_count, blockDetectClockChange := g.blockDetectClockChange,
    sysLog := g.sysLog }

/-- The moving-average part of the state. -/
structure RingFrame where
  correctionFifo : List Int
  correctionFifoCount : Int
  correctionAccum : Int
  correctionFifo_idx : Int
  avgCorrection : double

/-- The moving-average part of a state. -/
def G.ring (g : G) : RingFrame :=
  { correctionFifo := g.correctionFifo, correctionFifoCount := g.correctionFifoCount,
    correctionAccum := g.correctionAccum, correctionFifo_idx := g.correctionFifo_idx,
    avgCorrection := g.avgCorrection }

/-- A run of controlling seconds: for each time correction of the list, in
order, the block of `makeTimeCorrection` that follows `getAcquireState` is
executed with `g.timeCorrection` set to that value. -/
def controllingSeconds (g : G) (timeCorrections : List Int) : G :=
  timeCorrections.foldl (fun g tc => controllingSecond { g with timeCorrection := tc }) g

/-- A run of seconds: `makeTimeCorrection` is called for each timestamp and
clock reading of the list, in order. -/
def runSeconds (g : G) (inputs : List (timeval × ClockReadings)) : G :=
  inputs.foldl (fun g i => (makeTimeCorrection g i.1 i.2).1) g

/-- The spike-streak part of the state, with the noise averages: the members
that only `detectDelaySpike` and the clamp of `removeNoise` change. -/
structure StreakFrame where
  nDelaySpikes : Int
  minSustainedDelay : Int
  rawErrorAvg : double
  noiseLevel : double

/-- The spike-streak part of a state. -/
def G.streak (g : G) : StreakFrame :=
  { nDelaySpikes := g.nDelaySpikes, minSustainedDelay := g.minSustainedDelay,
    rawErrorAvg := g.rawErrorAvg, noiseLevel := g.noiseLevel }

/-- The state that `removeNoise` hands to `detectDelaySpike` during the call
`makeTimeCorrection(pps_t)`. -/
def spikeInput (g : G) (pps_t : timeval) (clk : ClockReadings) : G :=
  { buildRawErrorDistrib (makeTimeCorrection.sample g pps_t clk)
      (makeTimeCorrection.sample g pps_t clk).rawError with
    jitter := (makeTimeCorrection.sample g pps_t clk).rawError }

/-- A request of the time fixups: a set-offset request (`ADJ_SETOFFSET |
ADJ_STATUS`) or the stop of the system time service.  The one-shot offset
(`ADJ_OFFSET_SINGLESHOT`) and the frequency adjustment (`ADJ_FREQUENCY`) are
not such requests. -/
def SysCall.isFixup : SysCall → Bool
  | SysCall.stopTimesyncd => true
  | SysCall.adjtimex t => t.modes == ADJ_SETOFFSET + ADJ_STATUS

/-- The record of system requests of `b` is that of `a` followed by requests
of the time fixups only. -/
def logExtends (a b : G) : Prop :=
  ∃ ext : List SysCall, b.sysLog = a.sysLog ++ ext ∧ ∀ e ∈ ext, e.isFixup = true

/-- The invariant that ties the proportional gain to the acquisition state:
the controller is controlling only once the slew is low and 60 samples have
been seen, the gain is 1 or 4, and a gain of 1 means that the controller is
controlling. -/
def lockInvariant (g : G) : Prop :=
  (g.isControlling = true → g.slewIsLow = true ∧ 60 ≤ g.seq_num)
  ∧ (g.invProportionalGain = 1 ∨ g.invProportionalGain = 4)
  ∧ (g.invProportionalGain = 1 → g.isControlling = true)

/-- The values that `g.hardLimit` takes: the powers of two from 1 to 32768. -/
def hardLimitValues : List Int :=
  [1, 2, 4, 8, 16, 32, 64, 128, 256, 512, 1024, 2048, 4096, 8192, 16384, 32768]

/-! ## Readings of the state used in the statements of the later sections -/

/-- The state that `makeTimeCorrection` leaves during a call of
`readPPS_SetTime` whose PPS read succeeds. -/
def readPPS_SetTime.corrected (g : G) (tm : timeval) (nearest : Int) (t_mono : timespec)
    (clk : ClockReadings) : G :=
  (makeTimeCorrection { detectMissedPPS g nearest t_mono with interruptLost := false } tm clk).1

/-- The noise averages of a state with its record of system requests. -/
def G.noise (g : G) : double × double × double × List SysCall :=
  (g.noiseLevel, g.avgSlew, g.rawErrorAvg, g.sysLog)

/-- The two counters of a state: the samples processed and the active
controller cycles. -/
def G.counts (g : G) : Nat × Nat := (g.seq_num, g.activeCount)

/-- The entries of an ordered list: the first `ln` elements of its array. -/
def OrderedList.entries (l : OrderedList) : List intPair := l.lst.take l.ln.toNat

/-- A sorted list of capacity `size`: the array has `size` elements, of which
the first `ln` are the entries; their values ascend strictly, every
multiplicity is at least one and `count` is the number of recorded samples,
the sum of the multiplicities. -/
def OrderedList.wellFormed (l : OrderedList) : Prop :=
  0 ≤ l.ln ∧ l.ln ≤ l.size ∧ l.lst.length = l.size.toNat
  ∧ (l.entries.map intPair.val).Pairwise (fun a b => a < b)
  ∧ (∀ p ∈ l.entries, 1 ≤ p.nVals)
  ∧ l.count = (l.entries.map intPair.nVals).sum

instance (l : OrderedList) : Decidable l.wellFormed := by
  unfold OrderedList.wellFormed
  infer_instance

/-- The recorded samples of a list of entries: every value as often as its
multiplicity says. -/
def samples (es : List intPair) : Multiset Int :=
  (es.map (fun p => Multiset.replicate p.nVals.toNat p.val)).sum

/-- The insertion described by the specification: `v` is placed in ascending
order with multiplicity one, or the multiplicity of the entry equal to `v` is
incremented. -/
def insertEntry (v : Int) : List intPair → List intPair
  | [] => [⟨v, 1⟩]
  | p :: ps =>
    if v < p.val then ⟨v, 1⟩ :: p :: ps
    else if v = p.val then ⟨p.val, p.nVals + 1⟩ :: ps
    else p :: insertEntry v ps

/-- The index at which the walk described by the specification stops: the
first index whose successor exceeds it by at least `gap`, the last index if
there is none. -/
def gapIndex (gap : Int) : List intPair → Nat
  | p :: q :: rest => if q.val - p.val ≥ gap then 0 else gapIndex gap (q :: rest) + 1
  | _ => 0

/-- The mean of the values of a list of entries weighted by multiplicity. -/
def weightedMean (es : List intPair) : double :=
  (((es.map (fun p => p.nVals * p.val)).sum : Int) : double)
    / (((es.map intPair.nVals).sum : Int) : double)

/-- The list after `binaryInsert` has been called for each value of `vs`, in
order. -/
def insertAll (l : OrderedList) (vs : List Int) : OrderedList :=
  vs.foldl (fun l v => (l.binaryInsert v).1) l

/-- The indices of the array elements accessed while `binaryInsert` is called
for each value of `vs`, in order. -/
def insertAll.accesses (l : OrderedList) : List Int → List Int
  | [] => []
  | v :: vs =>
    OrderedList.binaryInsert.accesses l v ++ insertAll.accesses (l.binaryInsert v).1 vs

/-! ## Example inputs -/

/-- A configuration: Raspberry Pi 3, no optional setting. -/
def exampleConfigs : Configs :=
  { verbose := false, rv := 0, errorDistribEnabled := false, jitterDistribEnabled := false, ppsdelay := none,
    segregate := none, ppsphase := none, doNISTsettime := true, doSerialsettime := false,
    exitLostPPS := none, cpuVersion := 3 }

/-- The state left by the first call of `initialize` under `exampleConfigs`. -/
def startState : G := (initializeController G.startup exampleConfigs).1

/-- A state with relative clamping: hard limit 16 around a running average
of one half. -/
def relativeClampState : G := { startState with hardLimit := 16, rawErrorAvg := 1 / 2 }

/-- A locked state: the controller is controlling with a hard limit of 1,
absolute clamping and a proportional gain of 1, after 600 seconds. -/
def lockedState : G :=
  { startState with
    seq_num := 600, activeCount := 540, isControlling := true, slewIsLow := true,
    hardLimit := 1, clampAbsolute := true, invProportionalGain := 1,
    correctionFifoCount := 60 }

/-- A burst of 61 seconds with a timestamp of 107 microseconds (a raw error
of 100 under a zero offset of 7). -/
def spikeBurst : List (timeval × ClockReadings) := List.replicate 61 (⟨0, 107⟩, ⟨0, 0, 0⟩)

/-- A second with a raw error of 100 followed by 60 seconds with a raw error
of 2000 (timestamps of 107 and 2007 microseconds under a zero offset of 7). -/
def stepBurst : List (timeval × ClockReadings) :=
  (⟨0, 107⟩, ⟨0, 0, 0⟩) :: List.replicate 60 (⟨0, 2007⟩, ⟨0, 0, 0⟩)

/-- A locked state in which a whole-second correction of 3 seconds from the
Internet time query is pending. -/
def pendingSetState : G := { lockedState with consensusTimeError := 3 }

/-- A minute of 60 seconds with a timestamp of 7 microseconds (a raw error of
0 under a zero offset of 7). -/
def quietMinute : List (timeval × ClockReadings) := List.replicate 60 (⟨0, 7⟩, ⟨0, 0, 0⟩)

/-- A locked state in which the system clock has jumped by two seconds: the
second of the clock is 1000 while the counter of seconds stands at 998. -/
def jumpState : G := { lockedState with t_now := 1000, t_count := 998 }

/-- The state one second after the start: one sample with a raw error of 100
has been processed. -/
def oneSecondState : G := runSeconds startState [(⟨0, 107⟩, ⟨0, 0, 0⟩)]

/-- A controlling state that has lost lock: the hard limit has grown to 2048
and the average slew is 500 microseconds. -/
def lostLockState : G := { lockedState with hardLimit := 2048, avgSlew := 500 }
/-- A sorted list of capacity 4 holding the samples 1, 1 and 5. -/
def exampleList : OrderedList :=
  { ln := 2, size := 4, count := 3, lst := [⟨1, 2⟩, ⟨5, 1⟩, ⟨0, 0⟩, ⟨0, 0⟩] }

/-- A sorted list of capacity 3 holding the samples 4 and 9. -/
def twoOfThree : OrderedList := insertAll (OrderedList.new 3) [4, 9]

/-- The seven samples of the worked example of the sorted list. -/
def gapSamples : List Int := [-100, -2, -1, 0, 1, 2, 90]

/-- A state whose counter of seconds is ahead of the clock while the detection
of clock changes is blocked for one more second. -/
def unblockState : G := { lockedState with t_count := 1005, blockDetectClockChange := 1 }

/-- The list of raw errors of `getTimeSlew` (capacity `SLEW_LEN`, 10) after
nine distinct raw errors have been inserted. -/
def nineSamples : OrderedList := insertAll (OrderedList.new SLEW_LEN) [1, 2, 3, 4, 5, 6, 7, 8, 9]

/-- A state before the first PPS sample (`seq_num` is zero) in which no
interrupt has been received. -/
def waitingState : G := { startState with exitOnLostPPS := true }

/-- A locked state that exits on a lost PPS, in which no interrupt has been
received. -/
def lostPPSState : G := { lockedState with exitOnLostPPS := true }

/-- A locked state with a hard limit of 2048 in which the average slew is 512
after 60 active seconds. -/
def slewState : G := { lockedState with hardLimit := 2048, avgSlew := 512, activeCount := 60 }

/-- The state after 110 controlling seconds with a time correction of 60
microseconds each, 50 seconds into the second minute. -/
def secondMinuteState : G := controllingSeconds startState (List.replicate 110 60)

/-- A locked state 50 seconds into a minute, with the integrals 1, ..., 10. -/
def lastTenState : G :=
  { lockedState with correctionFifo_idx := 50, integral := [1, 2, 3, 4, 5, 6, 7, 8, 9, 10] }

/-- The last seconds of a minute with one second flagged as a delay spike:
five seconds with a raw error of 0, one with a raw error of 100, and five
more with a raw error of 0 (timestamps under a zero offset of 7). -/
def spikedMinuteEnd : List (timeval × ClockReadings) :=
  List.replicate 5 (⟨0, 7⟩, ⟨0, 0, 0⟩) ++ (⟨0, 107⟩, ⟨0, 0, 0⟩)
    :: List.replicate 5 (⟨0, 7⟩, ⟨0, 0, 0⟩)

/-! ## Arithmetic helpers -/

theorem toInt_abs_sub_lt_one (x : double) : |((toInt x : Int) : ℚ) - x| < 1 := by
  unfold toInt
  split
  · have h1 := Int.floor_le x
    have h2 := Int.lt_floor_add_one x
    rw [abs_lt]; constructor <;> linarith
  · have h1 := Int.le_ceil x
    have h2 := Int.ceil_lt_add_one x
    rw [abs_lt]; constructor <;> linarith

/-! ## The jitter clamp (C1) -/

theorem clampJitter_hardLimit (g : G) (rawError : Int) :
    (clampJitter g rawError).1.hardLimit = g.hardLimit := by
  unfold clampJitter
  simp only []
  split_ifs <;> rfl

theorem clampJitter_rawErrorAvg (g : G) (rawError : Int) :
    (clampJitter g rawError).1.rawErrorAvg = g.rawErrorAvg := by
  unfold clampJitter
  simp only []
  split_ifs <;> rfl

theorem clampJitter_trunc_bound (g : G) (rawError : Int) (h : 1 ≤ g.hardLimit) :
    |(clampJitter g rawError).2
      - (if (clampJitter g rawError).1.clampAbsolute = true then 0
         else toInt (clampJitter g rawError).1.rawErrorAvg)| ≤ g.hardLimit := by
  unfold clampJitter
  simp only []
  split_ifs <;> simp_all <;> (rw [abs_le]; constructor <;> omega)

/-- C1, as stated, fails: with a hard limit of 16, a running average of 1/2
and a raw error of -16, relative clamping is in force and `clampJitter`
returns -16, which lies 16.5 away from the running average. -/
theorem clampJitter_average_counterexample :
    1 ≤ relativeClampState.hardLimit ∧
    (clampJitter relativeClampState (-16)).1.clampAbsolute = false ∧
    (clampJitter relativeClampState (-16)).1.rawErrorAvg = 1 / 2 ∧
    (clampJitter relativeClampState (-16)).2 = -16 ∧
    ¬ (|(((clampJitter relativeClampState (-16)).2 : Int) : ℚ)
          - (if (clampJitter relativeClampState (-16)).1.clampAbsolute = true then 0
             else (clampJitter relativeClampState (-16)).1.rawErrorAvg)|
        ≤ ((clampJitter relativeClampState (-16)).1.hardLimit : ℚ)) := by
  decide!

/-- C1, amended: for every raw error and every state with `hardLimit ≥ 1`, the
value `z` returned by `clampJitter` lies within `hardLimit` of the centre that
the code uses, which is 0 in absolute mode and the running average truncated
toward zero, `(int)rawErrorAvg`, in relative mode; hence `z` lies less than
`hardLimit + 1` away from `clampAbsolute ? 0 : rawErrorAvg`.  The mode, the
limit and the average are those in force after the mode selection made by
`clampJitter`. -/
theorem clampJitter_truncated_average_bound (g : G) (rawError : Int) (h : 1 ≤ g.hardLimit) :
    |(clampJitter g rawError).2
        - (if (clampJitter g rawError).1.clampAbsolute = true then 0
           else toInt (clampJitter g rawError).1.rawErrorAvg)|
      ≤ (clampJitter g rawError).1.hardLimit
    ∧ |(((clampJitter g rawError).2 : Int) : ℚ)
        - (if (clampJitter g rawError).1.clampAbsolute = true then 0
           else (clampJitter g rawError).1.rawErrorAvg)|
      < ((clampJitter g rawError).1.hardLimit : ℚ) + 1 := by
  have hb := clampJitter_trunc_bound g rawError h
  rw [clampJitter_hardLimit]
  refine ⟨hb, ?_⟩
  have hq : |((((clampJitter g rawError).2
        - (if (clampJitter g rawError).1.clampAbsolute = true then 0
           else toInt (clampJitter g rawError).1.rawErrorAvg) : Int)) : ℚ)|
      ≤ (g.hardLimit : ℚ) := by
    rw [← Int.cast_abs]
    exact_mod_cast hb
  by_cases hc : (clampJitter g rawError).1.clampAbsolute = true
  · rw [if_pos hc] at hq
    rw [if_pos hc]
    push_cast at hq
    linarith
  · rw [if_neg hc] at hq
    rw [if_neg hc]
    have ht := toInt_abs_sub_lt_one (clampJitter g rawError).1.rawErrorAvg
    push_cast at hq
    rw [abs_lt] at ht ⊢
    rw [abs_le] at hq
    obtain ⟨ht1, ht2⟩ := ht
    obtain ⟨hq1, hq2⟩ := hq
    constructor <;> linarith

/-- C1, amended, applied to a hard limit of 16, a running average of 1/2 and
a raw error of -16. -/
theorem clampJitter_truncated_average_bound_witness :
    |(clampJitter relativeClampState (-16)).2
        - (if (clampJitter relativeClampState (-16)).1.clampAbsolute = true then 0
           else toInt (clampJitter relativeClampState (-16)).1.rawErrorAvg)|
      ≤ (clampJitter relativeClampState (-16)).1.hardLimit
    ∧ |(((clampJitter relativeClampState (-16)).2 : Int) : ℚ)
        - (if (clampJitter relativeClampState (-16)).1.clampAbsolute = true then 0
           else (clampJitter relativeClampState (-16)).1.rawErrorAvg)|
      < ((clampJitter relativeClampState (-16)).1.hardLimit : ℚ) + 1 :=
  clampJitter_truncated_average_bound relativeClampState (-16) (by decide!)

/-! ## Frame lemmas: what each function leaves alone -/

@[simp] theorem adjtimex_servo (g : G) : (adjtimex g).servo = g.servo := rfl

@[simp] theorem adjtimex_front (g : G) : (adjtimex g).front = g.front := rfl

@[simp] theorem setClocktoNISTtime_servo (g : G) : (setClocktoNISTtime g).servo = g.servo := rfl

@[simp] theorem setClockToGPStime_servo (g : G) : (setClockToGPStime g).servo = g.servo := rfl

@[simp] theorem setClockFractionalSecond_servo (g : G) (c : Int) :
    (setClockFractionalSecond g c).servo = g.servo := by
  unfold setClockFractionalSecond
  simp only []
  split_ifs <;> rfl

@[simp] theorem correctFractionalSecond_servo (g : G) (p : timeval) :
    (correctFractionalSecond g p).1.servo = g.servo := by
  unfold correctFractionalSecond
  simp only []
  split_ifs <;> simp

@[simp] theorem detectExteralSystemClockChange_servo (g : G) (p : timeval) :
    (detectExteralSystemClockChange g p).1.servo = g.servo := by
  unfold detectExteralSystemClockChange
  simp only []
  split_ifs <;> rfl

@[simp] theorem doTimeFixups_timeUpdated_servo (g : G) (n1 n2 : Int) :
    (doTimeFixups.timeUpdated g n1 n2).servo = g.servo := by
  unfold doTimeFixups.timeUpdated
  simp only []
  split_ifs <;> rfl

@[simp] theorem doTimeFixups_setTime_servo (g : G) : (doTimeFixups.setTime g).servo = g.servo := by
  unfold doTimeFixups.setTime
  simp only []
  split_ifs <;> simp

@[simp] theorem doTimeFixups_clockChange_servo (g : G) (p : timeval) :
    (doTimeFixups.clockChange g p).servo = g.servo := by
  unfold doTimeFixups.clockChange
  simp only []
  split_ifs <;>
    first
    | (simp; done)
    | (show (correctFractionalSecond _ _).1.servo = _; simp)

@[simp] theorem doTimeFixups_servo (g : G) (p : timeval) (n1 n2 : Int) :
    (doTimeFixups g p n1 n2).servo = g.servo := by
  simp [doTimeFixups]

@[simp] theorem buildRawErrorDistrib_servo (g : G) (r : Int) :
    (buildRawErrorDistrib g r).servo = g.servo := by
  unfold buildRawErrorDistrib
  simp only []
  split_ifs <;> simp [G.servo]

@[simp] theorem getAvgNoiseLevel_servo (g : G) (r : Int) :
    (getAvgNoiseLevel g r).servo = g.servo := rfl

@[simp] theorem detectDelaySpike_servo (g : G) (r : Int) :
    (detectDelaySpike g r).1.servo = g.servo := by
  unfold detectDelaySpike
  simp only []
  split_ifs <;> simp [G.servo, getAvgNoiseLevel]

@[simp] theorem getTimeSlew_servo (g : G) (r : Int) : (getTimeSlew g r).servo = g.servo := by
  unfold getTimeSlew
  simp only []
  split_ifs <;> rfl

@[simp] theorem buildJitterDistrib_servo (g : G) (r : Int) :
    (buildJitterDistrib g r).servo = g.servo := rfl

@[simp] theorem buildErrorDistrib_servo (g : G) (r : Int) :
    (buildErrorDistrib g r).servo = g.servo := rfl

@[simp] theorem savePPStime_servo (g : G) (t s : Int) : (savePPStime g t s).servo = g.servo := by
  unfold savePPStime
  simp only []
  split_ifs <;> rfl

@[simp] theorem removeNoise_front_servo (g : G) (r : Int) :
    (removeNoise.front g r).servo = g.servo := by
  have h2 : ∀ x : G, ({ x with jitter := r } : G).servo = x.servo := fun _ => rfl
  have h3 : ∀ x : G, ({ (detectDelaySpike x r).1 with
      isDelaySpike := (detectDelaySpike x r).2 } : G).servo = x.servo := fun x => by
    show (detectDelaySpike _ _).1.servo = _
    simp
  unfold removeNoise.front
  simp only []
  split_ifs <;>
    simp only [buildJitterDistrib_servo, getTimeSlew_servo, h3, h2, buildRawErrorDistrib_servo]

@[simp] theorem getAcquireState_front (g : G) :
    (getAcquireState g).1.front = { g.front with slewIsLow := (getAcquireState g).1.slewIsLow } := by
  unfold getAcquireState
  simp only []
  split_ifs <;> rfl

@[simp] theorem getMovingAverage_front (g : G) (t : Int) :
    (getMovingAverage g t).1.front = g.front := by
  unfold getMovingAverage
  simp only []
  split_ifs <;> rfl

@[simp] theorem makeAverageIntegral_accumulate_front (g : G) (a : double) :
    (makeAverageIntegral.accumulate g a).front = g.front := by
  unfold makeAverageIntegral.accumulate
  simp only []
  split_ifs <;> rfl

@[simp] theorem makeAverageIntegral_front (g : G) (a : double) :
    (makeAverageIntegral g a).front = g.front := by
  unfold makeAverageIntegral
  simp only []
  split_ifs <;> first | simp | (show (makeAverageIntegral.accumulate _ _).front = _; simp)

@[simp] theorem integralIsReady_front (g : G) : (integralIsReady g).1.front = g.front := by
  unfold integralIsReady
  simp only []
  split_ifs <;> rfl

@[simp] theorem recordFrequencyVars_front (g : G) : (recordFrequencyVars g).front = g.front := by
  unfold recordFrequencyVars recordFrequencyVars.interval
  simp only []
  split_ifs <;> rfl

@[simp] theorem getIntegral_front (g : G) : (getIntegral g).1.front = g.front := by
  unfold getIntegral
  simp

@[simp] theorem makeTimeCorrection_frequency_front (g : G) :
    (makeTimeCorrection.frequency g).front = g.front := by
  unfold makeTimeCorrection.frequency
  show (getIntegral g).1.front = _
  simp

@[simp] theorem recordOffsets_front (g : G) (t : Int) : (recordOffsets g t).front = g.front := by
  unfold recordOffsets
  simp only []
  split_ifs <;> rfl

@[simp] theorem savePPStime_front (g : G) (t s : Int) : (savePPStime g t s).front = g.front := by
  unfold savePPStime
  simp only []
  split_ifs <;> rfl

@[simp] theorem controllingSecond_front (g : G) : (controllingSecond g).front = g.front := by
  have h1 : ∀ x : G, ({ (getMovingAverage x x.timeCorrection).1 with
      avgCorrection := (getMovingAverage x x.timeCorrection).2 } : G).front = x.front := fun x => by
    show (getMovingAverage _ _).1.front = _
    simp
  unfold controllingSecond
  simp only []
  split_ifs <;>
  · show (recordOffsets _ _).front = _
    simp only [recordOffsets_front, makeTimeCorrection_frequency_front, integralIsReady_front,
      makeAverageIntegral_front, h1]

/-! ## The hard limit (C2) -/

theorem hardLimitValues_double {h : Int} (hm : h ∈ hardLimitValues) (hl : h < HARD_LIMIT_NONE) :
    h * 2 ∈ hardLimitValues := by
  simp only [hardLimitValues, HARD_LIMIT_NONE, List.mem_cons, List.mem_singleton,
    List.not_mem_nil, or_false] at hm hl ⊢
  omega

theorem hardLimitValues_halve {h : Int} (hm : h ∈ hardLimitValues) (hl : h > 1) :
    h / 2 ∈ hardLimitValues := by
  simp only [hardLimitValues, List.mem_cons, List.mem_singleton,
    List.not_mem_nil, or_false] at hm hl ⊢
  omega

theorem hardLimitLoop_mem (d_4 : Int) (n : Nat) (h : Int) (hm : h ∈ hardLimitValues) :
    hardLimitLoop d_4 n h ∈ hardLimitValues := by
  induction n generalizing h with
  | zero => simpa [hardLimitLoop] using hm
  | succ n ih =>
    unfold hardLimitLoop
    split_ifs with hc
    · exact ih _ (hardLimitValues_double hm hc.2)
    · exact hm

theorem hardLimitLoop_exit_or_pow (d_4 : Int) (n : Nat) (h : Int) :
    ¬ (hardLimitLoop d_4 n h < d_4 ∧ hardLimitLoop d_4 n h < HARD_LIMIT_NONE)
      ∨ hardLimitLoop d_4 n h = h * 2 ^ n := by
  induction n generalizing h with
  | zero => right; simp [hardLimitLoop]
  | succ n ih =>
    unfold hardLimitLoop
    split_ifs with hc
    · rcases ih (h * 2) with h1 | h1
      · left; exact h1
      · right; rw [h1]; ring
    · left; exact hc

/-- The loop of `setHardLimit` has left its condition after at most sixteen
iterations when it starts from a hard limit of at least one: the bound on the
iterations in `hardLimitLoop` is never what stops it. -/
theorem hardLimitLoop_exits (d_4 : Int) (h : Int) (hm : 1 ≤ h) :
    ¬ (hardLimitLoop d_4 16 h < d_4 ∧ hardLimitLoop d_4 16 h < HARD_LIMIT_NONE) := by
  rcases hardLimitLoop_exit_or_pow d_4 16 h with h1 | h1
  · exact h1
  · rw [h1]
    simp only [HARD_LIMIT_NONE]
    omega

theorem setHardLimit_mem (g : G) (avgCorrection : double) (hm : g.hardLimit ∈ hardLimitValues) :
    (setHardLimit g avgCorrection).hardLimit ∈ hardLimitValues := by
  unfold setHardLimit
  simp only []
  split_ifs with h1 h2 h3 h4 h5 h6
  · show HARD_LIMIT_NONE ∈ hardLimitValues
    decide
  · exact hardLimitLoop_mem _ _ _ hm
  · exact hardLimitValues_halve hm (by simpa using h4)
  · exact hm
  · show HARD_LIMIT_NONE ∈ hardLimitValues
    decide
  · have : g.hardLimit < HARD_LIMIT_NONE := by
      simp only [decide_eq_true_eq, HARD_LIMIT_NONE] at h6 ⊢
      omega
    exact hardLimitValues_double hm this
  · exact hm

/-! ## The structure of `removeNoise` and `makeTimeCorrection` -/

theorem makeTimeCorrection_sample_servo (g : G) (p : timeval) (c : ClockReadings) :
    (makeTimeCorrection.sample g p c).servo = { g.servo with seq_num := g.seq_num + 1 } := by
  have h : ∀ x : G, ({ ({ x with interruptReceived := true } : G) with
      seq_num := x.seq_num + 1 } : G).servo = { x.servo with seq_num := x.seq_num + 1 } :=
    fun _ => rfl
  unfold makeTimeCorrection.sample
  simp only []
  split_ifs
  · show (doTimeFixups _ _ _ _).servo = _
    rw [doTimeFixups_servo, h]
  · rfl

theorem setHardLimit_servo (g : G) (a : double) :
    (setHardLimit g a).servo = { g.servo with hardLimit := (setHardLimit g a).hardLimit } := by
  unfold setHardLimit
  simp only []
  split_ifs <;> rfl

theorem clampJitter_servo (g : G) (r : Int) :
    (clampJitter g r).1.servo
      = { g.servo with clampAbsolute := (clampJitter g r).1.clampAbsolute } := by
  unfold clampJitter
  simp only []
  split_ifs <;> rfl

theorem removeNoise_clamp_servo (g : G) (r : Int) :
    (removeNoise.clamp g r).1.servo
      = { g.servo with
          hardLimit := (setHardLimit g g.avgCorrection).hardLimit,
          clampAbsolute := (clampJitter (setHardLimit g g.avgCorrection) r).1.clampAbsolute } := by
  unfold removeNoise.clamp
  simp only []
  split_ifs <;> simp only [getAvgNoiseLevel_servo, clampJitter_servo, setHardLimit_servo]

theorem removeNoise_back_servo (g : G) (z : Int) :
    (removeNoise.back g z).1.servo
      = { g.servo with
          invProportionalGain := if g.isControlling = true then INV_GAIN_1
            else g.invProportionalGain } := by
  unfold removeNoise.back
  simp only []
  split_ifs <;> rfl

theorem removeNoise_back_snd (g : G) (z : Int) : (removeNoise.back g z).2 = z := by
  unfold removeNoise.back
  simp only []
  split_ifs <;> rfl

@[simp] theorem setHardLimit_spike (g : G) (a : double) : (setHardLimit g a).spike = g.spike := by
  unfold setHardLimit
  simp only []
  split_ifs <;> rfl

@[simp] theorem clampJitter_spike (g : G) (r : Int) : (clampJitter g r).1.spike = g.spike := by
  unfold clampJitter
  simp only []
  split_ifs <;> rfl

@[simp] theorem getAvgNoiseLevel_spike (g : G) (r : Int) :
    (getAvgNoiseLevel g r).spike = g.spike := rfl

@[simp] theorem removeNoise_clamp_spike (g : G) (r : Int) :
    (removeNoise.clamp g r).1.spike = g.spike := by
  unfold removeNoise.clamp
  simp only []
  split_ifs <;> simp

@[simp] theorem removeNoise_back_spike (g : G) (z : Int) :
    (removeNoise.back g z).1.spike = g.spike := by
  unfold removeNoise.back
  simp only []
  split_ifs <;> rfl

theorem removeNoise_of_spike (g : G) (r : Int) (h : (removeNoise.front g r).isDelaySpike = true) :
    removeNoise g r = (removeNoise.front g r, 0) := by
  unfold removeNoise
  simp only [h, if_true]

theorem removeNoise_of_not_spike (g : G) (r : Int)
    (h : (removeNoise.front g r).isDelaySpike = false) :
    removeNoise g r = removeNoise.back (removeNoise.clamp (removeNoise.front g r) r).1
      (removeNoise.clamp (removeNoise.front g r) r).2 := by
  unfold removeNoise
  simp [h]

theorem removeNoise_isDelaySpike (g : G) (r : Int) :
    (removeNoise g r).1.isDelaySpike = (removeNoise.front g r).isDelaySpike := by
  cases h : (removeNoise.front g r).isDelaySpike
  · rw [removeNoise_of_not_spike g r h]
    have h1 := congrArg SpikeFrame.isDelaySpike (removeNoise_back_spike
      (removeNoise.clamp (removeNoise.front g r) r).1 (removeNoise.clamp (removeNoise.front g r) r).2)
    have h2 := congrArg SpikeFrame.isDelaySpike (removeNoise_clamp_spike (removeNoise.front g r) r)
    simp only [G.spike] at h1 h2
    rw [h1, h2]
    exact h
  · rw [removeNoise_of_spike g r h]
    exact h

theorem removeNoise_hardLimit_mem (g : G) (r : Int) (hm : g.hardLimit ∈ hardLimitValues) :
    (removeNoise g r).1.hardLimit ∈ hardLimitValues := by
  have hf : (removeNoise.front g r).hardLimit = g.hardLimit :=
    congrArg ServoFrame.hardLimit (removeNoise_front_servo g r)
  cases h : (removeNoise.front g r).isDelaySpike
  · rw [removeNoise_of_not_spike g r h]
    have h1 := congrArg ServoFrame.hardLimit (removeNoise_back_servo
      (removeNoise.clamp (removeNoise.front g r) r).1 (removeNoise.clamp (removeNoise.front g r) r).2)
    have h2 := congrArg ServoFrame.hardLimit (removeNoise_clamp_servo (removeNoise.front g r) r)
    simp only [G.servo] at h1 h2
    rw [h1, h2]
    exact setHardLimit_mem _ _ (hf ▸ hm)
  · rw [removeNoise_of_spike g r h]
    exact hf ▸ hm

theorem getAcquireState_slewIsLow (g : G) :
    (getAcquireState g).1.slewIsLow
      = (g.slewIsLow || (decide (g.slewAccum_cnt = 0) && decide (|g.avgSlew| < SLEW_MAX))) := by
  unfold getAcquireState
  simp only []
  split_ifs with h
  · simp only [Bool.and_eq_true, Bool.not_eq_true', decide_eq_true_eq] at h
    simp [h.1.2, h.2]
  · cases hs : g.slewIsLow
    · simp only [hs, Bool.not_false, Bool.true_and] at h
      simp [h]
    · simp

theorem getAcquireState_snd (g : G) :
    (getAcquireState g).2
      = ((getAcquireState g).1.slewIsLow && decide (SECS_PER_MINUTE ≤ (g.seq_num : Int))) := by
  unfold getAcquireState
  simp only []
  split_ifs <;> rfl

theorem getAcquireState_congr (a b : G) (h1 : a.slewIsLow = b.slewIsLow)
    (h2 : a.slewAccum_cnt = b.slewAccum_cnt) (h3 : a.avgSlew = b.avgSlew)
    (h4 : a.seq_num = b.seq_num) :
    (getAcquireState a).1.slewIsLow = (getAcquireState b).1.slewIsLow
      ∧ (getAcquireState a).2 = (getAcquireState b).2 := by
  rw [getAcquireState_snd a, getAcquireState_snd b, getAcquireState_slewIsLow a,
    getAcquireState_slewIsLow b, h1, h2, h3, h4]
  exact ⟨rfl, rfl⟩

theorem makeTimeCorrection_correct_front (g : G) (c : ClockReadings) :
    (makeTimeCorrection.correct g c).1.front
      = { g.front with
          timeCorrection := Int.tdiv (-g.zeroError) g.invProportionalGain,
          slewIsLow := (getAcquireState g).1.slewIsLow,
          isControlling := (getAcquireState g).2 } := by
  have key : ∀ X : G, X.front = { g.front with
        timeCorrection := Int.tdiv (-g.zeroError) g.invProportionalGain } →
      ({ (getAcquireState X).1 with isControlling := (getAcquireState X).2 } : G).front
        = { g.front with
            timeCorrection := Int.tdiv (-g.zeroError) g.invProportionalGain,
            slewIsLow := (getAcquireState g).1.slewIsLow,
            isControlling := (getAcquireState g).2 } := by
    intro X hX
    have h1 := congrArg FrontFrame.slewIsLow hX
    have h2 := congrArg FrontFrame.slewAccum_cnt hX
    have h3 := congrArg FrontFrame.avgSlew hX
    have h4 := congrArg FrontFrame.seq_num hX
    simp only [G.front] at h1 h2 h3 h4
    have hc := getAcquireState_congr X g h1 h2 h3 h4
    show ({ (getAcquireState X).1.front with isControlling := (getAcquireState X).2 }
      : FrontFrame) = _
    rw [getAcquireState_front, hX, hc.1, hc.2]
  unfold makeTimeCorrection.correct
  simp only []
  rw [savePPStime_front]
  split_ifs
  · rw [controllingSecond_front]
    exact key _ rfl
  · exact key _ rfl

theorem makeTimeCorrection_of_spike (g : G) (p : timeval) (c : ClockReadings)
    (h : (removeNoise (makeTimeCorrection.sample g p c)
      (makeTimeCorrection.sample g p c).rawError).1.isDelaySpike = true) :
    makeTimeCorrection g p c
      = (savePPStime
          { (removeNoise (makeTimeCorrection.sample g p c)
              (makeTimeCorrection.sample g p c).rawError).1 with
            zeroError := (removeNoise (makeTimeCorrection.sample g p c)
              (makeTimeCorrection.sample g p c).rawError).2 } 0 c.tod_sec, 0) := by
  unfold makeTimeCorrection
  simp only [h, if_true]

theorem makeTimeCorrection_of_not_spike (g : G) (p : timeval) (c : ClockReadings)
    (h : (removeNoise (makeTimeCorrection.sample g p c)
      (makeTimeCorrection.sample g p c).rawError).1.isDelaySpike = false) :
    makeTimeCorrection g p c
      = makeTimeCorrection.correct
          { (removeNoise (makeTimeCorrection.sample g p c)
              (makeTimeCorrection.sample g p c).rawError).1 with
            zeroError := (removeNoise (makeTimeCorrection.sample g p c)
              (makeTimeCorrection.sample g p c).rawError).2 } c := by
  unfold makeTimeCorrection
  simp [h]

theorem makeTimeCorrection_isDelaySpike (g : G) (p : timeval) (c : ClockReadings) :
    (makeTimeCorrection g p c).1.isDelaySpike
      = (removeNoise (makeTimeCorrection.sample g p c)
          (makeTimeCorrection.sample g p c).rawError).1.isDelaySpike := by
  cases h : (removeNoise (makeTimeCorrection.sample g p c)
      (makeTimeCorrection.sample g p c).rawError).1.isDelaySpike
  · rw [makeTimeCorrection_of_not_spike g p c h]
    have h1 := congrArg FrontFrame.isDelaySpike (makeTimeCorrection_correct_front
      { (removeNoise (makeTimeCorrection.sample g p c)
          (makeTimeCorrection.sample g p c).rawError).1 with
        zeroError := (removeNoise (makeTimeCorrection.sample g p c)
          (makeTimeCorrection.sample g p c).rawError).2 } c)
    simp only [G.front] at h1
    rw [h1]
    exact h
  · rw [makeTimeCorrection_of_spike g p c h]
    have h1 := congrArg FrontFrame.isDelaySpike (savePPStime_front
      { (removeNoise (makeTimeCorrection.sample g p c)
          (makeTimeCorrection.sample g p c).rawError).1 with
        zeroError := (removeNoise (makeTimeCorrection.sample g p c)
          (makeTimeCorrection.sample g p c).rawError).2 } 0 c.tod_sec)
    simp only [G.front] at h1
    rw [h1]
    exact h

theorem makeTimeCorrection_hardLimit (g : G) (p : timeval) (c : ClockReadings) :
    (makeTimeCorrection g p c).1.hardLimit
      = (removeNoise (makeTimeCorrection.sample g p c)
          (makeTimeCorrection.sample g p c).rawError).1.hardLimit := by
  cases h : (removeNoise (makeTimeCorrection.sample g p c)
      (makeTimeCorrection.sample g p c).rawError).1.isDelaySpike
  · rw [makeTimeCorrection_of_not_spike g p c h]
    have h1 := congrArg FrontFrame.hardLimit (makeTimeCorrection_correct_front
      { (removeNoise (makeTimeCorrection.sample g p c)
          (makeTimeCorrection.sample g p c).rawError).1 with
        zeroError := (removeNoise (makeTimeCorrection.sample g p c)
          (makeTimeCorrection.sample g p c).rawError).2 } c)
    simp only [G.front] at h1
    rw [h1]
  · rw [makeTimeCorrection_of_spike g p c h]
    have h1 := congrArg FrontFrame.hardLimit (savePPStime_front
      { (removeNoise (makeTimeCorrection.sample g p c)
          (makeTimeCorrection.sample g p c).rawError).1 with
        zeroError := (removeNoise (makeTimeCorrection.sample g p c)
          (makeTimeCorrection.sample g p c).rawError).2 } 0 c.tod_sec)
    simp only [G.front] at h1
    rw [h1]

theorem getConfigs_servo (g : G) (c : Configs) :
    (getConfigs g c).servo = { g.servo with zeroOffset := c.ppsdelay.getD g.zeroOffset } := by
  unfold getConfigs getConfigs.values getConfigs.distribs
  simp only []
  split_ifs <;> rfl

theorem initializeController_cpu_servo (g : G) (c : Configs) :
    (initializeController.cpu g c).servo
      = { g.servo with zeroOffset := (initializeController.cpu g c).zeroOffset } := by
  unfold initializeController.cpu
  simp only []
  split_ifs <;> rfl

/-- The servo part of the state left by `initialize`. -/
theorem initializeController_servo (g : G) (c : Configs) :
    (initializeController g c).1.servo
      = { seq_num := 0, isControlling := false, slewIsLow := false, activeCount := 0,
          hardLimit := HARD_LIMIT_NONE, clampAbsolute := false,
          invProportionalGain := INV_GAIN_0, timeCorrection := 0, avgCorrection := 0,
          correctionFifo := List.replicate OFFSETFIFO_LEN 0, correctionFifoCount := 0,
          correctionAccum := 0, correctionFifo_idx := 0,
          integral := List.replicate NUM_INTEGRALS.toNat 0, avgIntegral := 0,
          integralCount := 0, integralGain := INTEGRAL_GAIN, integralTimeCorrection := 0,
          freqOffset := 0, zeroOffset := (initializeController g c).1.zeroOffset,
          startingFromRestore := 0 } := by
  unfold initializeController
  simp only []
  rw [initializeController_cpu_servo, getConfigs_servo, adjtimex_servo]
  rfl

theorem initializeController_hardLimit (g : G) (c : Configs) :
    (initializeController g c).1.hardLimit = HARD_LIMIT_NONE :=
  congrArg ServoFrame.hardLimit (initializeController_servo g c)

/-- C2: `hardLimit` is always one of the powers of two 1, 2, 4, ..., 32768:
`initialize` sets it to 32768, and `setHardLimit` (for every average
correction, average slew and active count) and `makeTimeCorrection` map a
state whose hard limit is such a power of two to a state whose hard limit is
such a power of two.  The loop of `setHardLimit` leaves its condition within
the sixteen iterations of the model. -/
theorem hardLimit_power_of_two :
    (∀ (g : G) (c : Configs), (initializeController g c).1.hardLimit = 32768
        ∧ (initializeController g c).1.hardLimit ∈ hardLimitValues)
    ∧ (∀ (g : G) (avgCorrection : double), g.hardLimit ∈ hardLimitValues →
        (setHardLimit g avgCorrection).hardLimit ∈ hardLimitValues
        ∧ ¬ (hardLimitLoop (toInt (|g.avgSlew| * 4)) 16 g.hardLimit < toInt (|g.avgSlew| * 4)
              ∧ hardLimitLoop (toInt (|g.avgSlew| * 4)) 16 g.hardLimit < HARD_LIMIT_NONE))
    ∧ (∀ (g : G) (pps_t : timeval) (clk : ClockReadings), g.hardLimit ∈ hardLimitValues →
        (makeTimeCorrection g pps_t clk).1.hardLimit ∈ hardLimitValues) := by
  refine ⟨fun g c => ?_, fun g a hm => ?_, fun g p c hm => ?_⟩
  · rw [initializeController_hardLimit]
    exact ⟨rfl, by decide⟩
  · refine ⟨setHardLimit_mem g a hm, hardLimitLoop_exits _ _ ?_⟩
    simp only [hardLimitValues, List.mem_cons, List.mem_singleton, List.not_mem_nil,
      or_false] at hm
    omega
  · rw [makeTimeCorrection_hardLimit]
    apply removeNoise_hardLimit_mem
    have h := congrArg ServoFrame.hardLimit (makeTimeCorrection_sample_servo g p c)
    simp only [G.servo] at h
    rw [h]
    exact hm

/-- C2 applied to the start state and to a second with a timestamp of 207
microseconds: the hard limit stays a power of two. -/
theorem hardLimit_power_of_two_witness :
    (setHardLimit startState 0).hardLimit ∈ hardLimitValues
    ∧ (makeTimeCorrection startState ⟨0, 207⟩ ⟨0, 0, 0⟩).1.hardLimit ∈ hardLimitValues :=
  ⟨(hardLimit_power_of_two.2.1 startState 0 (by decide!)).1,
    hardLimit_power_of_two.2.2 startState ⟨0, 207⟩ ⟨0, 0, 0⟩ (by decide!)⟩

/-! ## The moving average (C3) -/

@[simp] theorem makeAverageIntegral_accumulate_ring (g : G) (a : double) :
    (makeAverageIntegral.accumulate g a).ring = g.ring := by
  unfold makeAverageIntegral.accumulate
  simp only []
  split_ifs <;> rfl

@[simp] theorem makeAverageIntegral_ring (g : G) (a : double) :
    (makeAverageIntegral g a).ring = g.ring := by
  unfold makeAverageIntegral
  simp only []
  split_ifs <;> first | simp | (show (makeAverageIntegral.accumulate _ _).ring = _; simp)

@[simp] theorem recordFrequencyVars_ring (g : G) : (recordFrequencyVars g).ring = g.ring := by
  unfold recordFrequencyVars recordFrequencyVars.interval
  simp only []
  split_ifs <;> rfl

@[simp] theorem makeTimeCorrection_frequency_ring (g : G) :
    (makeTimeCorrection.frequency g).ring = g.ring := by
  unfold makeTimeCorrection.frequency getIntegral
  show (recordFrequencyVars g).ring = _
  simp

@[simp] theorem recordOffsets_ring (g : G) (t : Int) : (recordOffsets g t).ring = g.ring := by
  unfold recordOffsets
  simp only []
  split_ifs <;> rfl

theorem integralIsReady_ring (g : G) :
    (integralIsReady g).1.ring
      = { g.ring with
          correctionFifo_idx := if g.ring.correctionFifo_idx + 1 ≥ SECS_PER_MINUTE then 0
            else g.ring.correctionFifo_idx + 1 } := by
  unfold integralIsReady
  simp only []
  by_cases h : g.correctionFifo_idx + 1 ≥ SECS_PER_MINUTE
  · simp [G.ring, h]
  · simp [G.ring, h]

theorem getMovingAverage_ring (g : G) (t : Int) :
    ({ (getMovingAverage g t).1 with avgCorrection := (getMovingAverage g t).2 } : G).ring
      = { correctionFifo := arrSet g.correctionFifo g.correctionFifo_idx t,
          correctionFifoCount := if g.correctionFifoCount < SECS_PER_MINUTE
            then g.correctionFifoCount + 1 else g.correctionFifoCount,
          correctionAccum := if g.correctionFifoCount = SECS_PER_MINUTE
            then g.correctionAccum + t - arrGet g.correctionFifo g.correctionFifo_idx
            else g.correctionAccum + t,
          correctionFifo_idx := g.correctionFifo_idx,
          avgCorrection := ((if g.correctionFifoCount = SECS_PER_MINUTE
            then g.correctionAccum + t - arrGet g.correctionFifo g.correctionFifo_idx
            else g.correctionAccum + t : Int) : double) * PER_MINUTE } := by
  unfold getMovingAverage
  simp only []
  by_cases h1 : g.correctionFifoCount = SECS_PER_MINUTE
  · have h2 : ¬ g.correctionFifoCount < SECS_PER_MINUTE := by omega
    simp [G.ring, h1, h2]
  · by_cases h2 : g.correctionFifoCount < SECS_PER_MINUTE
    · simp [G.ring, h1, h2]
    · simp [G.ring, h1, h2]

theorem controllingSecond_ring (g : G) :
    (controllingSecond g).ring
      = { correctionFifo := arrSet g.correctionFifo g.correctionFifo_idx g.timeCorrection,
          correctionFifoCount := if g.correctionFifoCount < SECS_PER_MINUTE
            then g.correctionFifoCount + 1 else g.correctionFifoCount,
          correctionAccum := if g.correctionFifoCount = SECS_PER_MINUTE
            then g.correctionAccum + g.timeCorrection
              - arrGet g.correctionFifo g.correctionFifo_idx
            else g.correctionAccum + g.timeCorrection,
          correctionFifo_idx := if g.correctionFifo_idx + 1 ≥ SECS_PER_MINUTE then 0
            else g.correctionFifo_idx + 1,
          avgCorrection := ((if g.correctionFifoCount = SECS_PER_MINUTE
            then g.correctionAccum + g.timeCorrection
              - arrGet g.correctionFifo g.correctionFifo_idx
            else g.correctionAccum + g.timeCorrection : Int) : double) * PER_MINUTE } := by
  unfold controllingSecond
  simp only []
  show (recordOffsets _ _).ring = _
  rw [recordOffsets_ring, apply_ite G.ring, makeTimeCorrection_frequency_ring, ite_self,
    integralIsReady_ring, makeAverageIntegral_ring, getMovingAverage_ring]
theorem ring_step_entries (F tcs : List Int) (t : Int) (hlen : F.length = 80)
    (hpt : ∀ i, i < 60 → i < tcs.length →
      F.getD i 0 = tcs.getD (tcs.length - 1 - ((tcs.length - 1 - i) % 60)) 0) :
    ∀ i, i < 60 → i < tcs.length + 1 →
      (F.set (tcs.length % 60) t).getD i 0
        = (tcs ++ [t]).getD (tcs.length - ((tcs.length - i) % 60)) 0 := by
  intro i hi hin
  have hiF : i < (F.set (tcs.length % 60) t).length := by rw [List.length_set]; omega
  by_cases hk : i = tcs.length % 60
  · have h1 : tcs.length - ((tcs.length - i) % 60) = tcs.length := by omega
    rw [h1, List.getD_eq_getElem _ _ hiF,
      List.getD_eq_getElem (tcs ++ [t]) 0 (by simp)]
    subst hk
    simp
  · have hlt : i < tcs.length := by omega
    have h1 : tcs.length - ((tcs.length - i) % 60) < tcs.length := by omega
    have h1' : tcs.length - ((tcs.length - i) % 60) < (tcs ++ [t]).length := by simp; omega
    have h0 : tcs.length - 1 - ((tcs.length - 1 - i) % 60) < tcs.length := by omega
    have hidx : tcs.length - 1 - ((tcs.length - 1 - i) % 60)
        = tcs.length - ((tcs.length - i) % 60) := by omega
    rw [List.getD_eq_getElem _ _ hiF, List.getD_eq_getElem (tcs ++ [t]) 0 h1',
      List.getElem_set_ne (by omega), List.getElem_append_left h1]
    have h2 := hpt i hi hlt
    rw [List.getD_eq_getElem F 0 (by omega), List.getD_eq_getElem tcs 0 h0] at h2
    rw [h2]
    simp only [hidx]

theorem ring_window (F tcs : List Int) (hlen : F.length = 80)
    (hpt : ∀ i, i < 60 → i < tcs.length →
      F.getD i 0 = tcs.getD (tcs.length - 1 - ((tcs.length - 1 - i) % 60)) 0) :
    (F.take (min tcs.length 60)).rotate (tcs.length % 60)
      = tcs.drop (tcs.length - min tcs.length 60) := by
  apply List.ext_getElem
  · simp only [List.length_rotate, List.length_take, List.length_drop]
    omega
  · intro m h1 h2
    simp only [List.length_rotate, List.length_take] at h1
    simp only [List.length_drop] at h2
    rw [List.getElem_rotate, List.getElem_take, List.getElem_drop]
    simp only [List.length_take]
    by_cases hn : tcs.length < 60
    · have e1 : min (min tcs.length 60) F.length = tcs.length := by omega
      have e2 : (m + tcs.length % 60) % min (min tcs.length 60) F.length = m := by
        rw [e1, Nat.mod_eq_of_lt hn, Nat.add_mod_right, Nat.mod_eq_of_lt (by omega)]
      have h0 : tcs.length - 1 - ((tcs.length - 1 - m) % 60) < tcs.length := by omega
      have hidx : tcs.length - 1 - ((tcs.length - 1 - m) % 60)
          = tcs.length - min tcs.length 60 + m := by omega
      have h3 := hpt m (by omega) (by omega)
      rw [List.getD_eq_getElem F 0 (by omega), List.getD_eq_getElem tcs 0 h0] at h3
      simp only [e2]
      rw [h3]
      simp only [hidx]
    · have e1 : min (min tcs.length 60) F.length = 60 := by omega
      have h0 : tcs.length - 1 - ((tcs.length - 1 - (m + tcs.length % 60) % 60) % 60)
          < tcs.length := by omega
      have hidx : tcs.length - 1 - ((tcs.length - 1 - (m + tcs.length % 60) % 60) % 60)
          = tcs.length - min tcs.length 60 + m := by omega
      have h3 := hpt ((m + tcs.length % 60) % 60) (by omega) (by omega)
      rw [List.getD_eq_getElem F 0 (by omega), List.getD_eq_getElem tcs 0 h0] at h3
      simp only [e1]
      rw [h3]
      simp only [hidx]
theorem arrSet_natCast {α : Type} (a : List α) (k : Nat) (v : α) :
    arrSet a (k : Int) v = a.set k v := by
  unfold arrSet
  simp

theorem arrGet_natCast (a : List Int) (k : Nat) : arrGet a (k : Int) = a.getD k 0 := by
  unfold arrGet
  simp

theorem controllingSeconds_append (g : G) (tcs : List Int) (t : Int) :
    controllingSeconds g (tcs ++ [t])
      = controllingSecond { controllingSeconds g tcs with timeCorrection := t } := by
  unfold controllingSeconds
  rw [List.foldl_append]
  rfl

theorem sum_drop_step (tcs : List Int) (t : Int) (hn : 60 ≤ tcs.length) :
    ((tcs ++ [t]).drop (tcs.length + 1 - 60)).sum
      = (tcs.drop (tcs.length - 60)).sum + t - tcs.getD (tcs.length - 60) 0 := by
  have h1 : tcs.length - 60 < tcs.length := by omega
  have h2 : tcs.drop (tcs.length - 60) = tcs[tcs.length - 60] :: tcs.drop (tcs.length - 60 + 1) :=
    List.drop_eq_getElem_cons h1
  have h3 : tcs.length + 1 - 60 = tcs.length - 60 + 1 := by omega
  have h4 := congrArg List.sum h2
  rw [List.sum_cons] at h4
  rw [List.getD_eq_getElem tcs 0 h1, List.drop_append_of_le_length (by omega), h3,
    List.sum_append, List.sum_singleton, h4]
  ring

/-- The state of the moving average after a run of controlling seconds that
starts with an empty ring. -/
theorem controllingSeconds_ring_inv (g0 : G) (hF : g0.correctionFifo.length = 80)
    (hc : g0.correctionFifoCount = 0) (ha : g0.correctionAccum = 0)
    (hi : g0.correctionFifo_idx = 0) (tcs : List Int) :
    (controllingSeconds g0 tcs).correctionFifo.length = 80
    ∧ (controllingSeconds g0 tcs).correctionFifoCount = ((min tcs.length 60 : Nat) : Int)
    ∧ (controllingSeconds g0 tcs).correctionFifo_idx = ((tcs.length % 60 : Nat) : Int)
    ∧ (∀ i, i < 60 → i < tcs.length →
        (controllingSeconds g0 tcs).correctionFifo.getD i 0
          = tcs.getD (tcs.length - 1 - ((tcs.length - 1 - i) % 60)) 0)
    ∧ (controllingSeconds g0 tcs).correctionAccum
        = (tcs.drop (tcs.length - min tcs.length 60)).sum
    ∧ (tcs ≠ [] → (controllingSeconds g0 tcs).avgCorrection
        = (((controllingSeconds g0 tcs).correctionAccum : Int) : double) * PER_MINUTE) := by
  induction tcs using List.reverseRecOn with
  | nil =>
    refine ⟨hF, ?_, ?_, ?_, ?_, ?_⟩
    · simpa [controllingSeconds] using hc
    · simpa [controllingSeconds] using hi
    · intro i _ h; simp at h
    · simpa [controllingSeconds] using ha
    · intro h; exact absurd rfl h
  | append_singleton tcs t ih =>
    obtain ⟨ihF, ihc, ihi, ihp, iha, _⟩ := ih
    have hr := controllingSecond_ring { controllingSeconds g0 tcs with timeCorrection := t }
    rw [← controllingSeconds_append] at hr
    have r1 := congrArg RingFrame.correctionFifo hr
    have r2 := congrArg RingFrame.correctionFifoCount hr
    have r3 := congrArg RingFrame.correctionAccum hr
    have r4 := congrArg RingFrame.correctionFifo_idx hr
    have r5 := congrArg RingFrame.avgCorrection hr
    simp only [G.ring, ihc, ihi, arrSet_natCast, arrGet_natCast, SECS_PER_MINUTE] at r1 r2 r3 r4 r5
    have hlen : (tcs ++ [t]).length = tcs.length + 1 := by simp
    refine ⟨?_, ?_, ?_, ?_, ?_, ?_⟩
    · rw [r1, List.length_set]; exact ihF
    · rw [r2, hlen]
      split_ifs with h <;> omega
    · rw [r4, hlen]
      split_ifs with h <;> omega
    · rw [r1, hlen]
      intro i h1 h2
      have := ring_step_entries _ tcs t ihF ihp i h1 h2
      rw [this]
      congr 1
    · rw [r3, hlen, iha]
      by_cases hn : tcs.length < 60
      · have e1 : ¬ ((min tcs.length 60 : Nat) : Int) = 60 := by omega
        have e2 : tcs.length - min tcs.length 60 = 0 := by omega
        have e3 : tcs.length + 1 - min (tcs.length + 1) 60 = 0 := by omega
        rw [if_neg e1, e2, e3]
        simp
      · have e1 : ((min tcs.length 60 : Nat) : Int) = 60 := by omega
        have e2 : tcs.length - min tcs.length 60 = tcs.length - 60 := by omega
        have e3 : tcs.length + 1 - min (tcs.length + 1) 60 = tcs.length + 1 - 60 := by omega
        rw [if_pos e1, e2, e3, sum_drop_step tcs t (by omega)]
        have e4 := ihp (tcs.length % 60) (by omega) (by omega)
        have e5 : tcs.length - 1 - ((tcs.length - 1 - tcs.length % 60) % 60)
            = tcs.length - 60 := by omega
        rw [e5] at e4
        rw [e4]
    · intro _
      rw [r5, r3]
/-- C3: starting from the state left by `initialize`, after the `n` controlling
seconds of a list of time corrections (each running `getMovingAverage`,
`makeAverageIntegral` and `integralIsReady` as `makeTimeCorrection` does),
`correctionFifoCount` is `min n 60`, `correctionFifo_idx` is `n mod 60`,
`correctionAccum` is the sum of the populated entries of `correctionFifo`, the
populated entries read in ring order from the oldest are exactly the last
`min n 60` time corrections, and for `n ≥ 60` the average correction returned
and stored is the sum of the last 60 time corrections divided by 60 (doubles
being exact rationals). -/
theorem movingAverage_ring_after_controlling_seconds (g0 : G) (c : Configs) (tcs : List Int) :
    (controllingSeconds (initializeController g0 c).1 tcs).correctionFifoCount
        = ((min tcs.length 60 : Nat) : Int)
    ∧ (controllingSeconds (initializeController g0 c).1 tcs).correctionFifo_idx
        = ((tcs.length % 60 : Nat) : Int)
    ∧ (controllingSeconds (initializeController g0 c).1 tcs).correctionAccum
        = (((controllingSeconds (initializeController g0 c).1 tcs).correctionFifo.take
            (min tcs.length 60))).sum
    ∧ (((controllingSeconds (initializeController g0 c).1 tcs).correctionFifo.take
          (min tcs.length 60)).rotate (tcs.length % 60))
        = tcs.drop (tcs.length - min tcs.length 60)
    ∧ (60 ≤ tcs.length →
        (controllingSeconds (initializeController g0 c).1 tcs).avgCorrection
          = (((tcs.drop (tcs.length - 60)).sum : Int) : double) / 60) := by
  have hs := initializeController_servo g0 c
  have hF := congrArg ServoFrame.correctionFifo hs
  have hc := congrArg ServoFrame.correctionFifoCount hs
  have ha := congrArg ServoFrame.correctionAccum hs
  have hi := congrArg ServoFrame.correctionFifo_idx hs
  simp only [G.servo] at hF hc ha hi
  have hlen : (initializeController g0 c).1.correctionFifo.length = 80 := by
    rw [hF]; simp [OFFSETFIFO_LEN]
  obtain ⟨iF, ic, ii, ip, ia, iavg⟩ :=
    controllingSeconds_ring_inv (initializeController g0 c).1 hlen hc ha hi tcs
  have hw := ring_window _ tcs iF ip
  refine ⟨ic, ii, ?_, hw, ?_⟩
  · rw [ia, ← hw]
    exact List.Perm.sum_eq (List.rotate_perm _ _)
  · intro hn
    have hne : tcs ≠ [] := by
      intro h
      rw [h] at hn
      simp at hn
    have e : tcs.length - min tcs.length 60 = tcs.length - 60 := by omega
    rw [iavg hne, ia, e]
    simp [PER_MINUTE, SECS_PER_MINUTE, div_eq_mul_inv]

/-- C3 applied to a run of 61 controlling seconds with the time corrections
0, 1, ..., 60: the average is the sum of 1, ..., 60 divided by 60. -/
theorem movingAverage_ring_after_controlling_seconds_witness :
    (controllingSeconds (initializeController G.startup exampleConfigs).1
        ((List.range 61).map Int.ofNat)).avgCorrection
      = ((((((List.range 61).map Int.ofNat).drop
          (((List.range 61).map Int.ofNat).length - 60)).sum : Int) : double) / 60) :=
  (movingAverage_ring_after_controlling_seconds G.startup exampleConfigs
    ((List.range 61).map Int.ofNat)).2.2.2.2 (by decide)

/-! ## The proportional correction (C4) -/

theorem tdiv_neg_props (z k : Int) (hk : 0 < k) :
    (0 ≤ z → Int.tdiv (-z) k ≤ 0) ∧ (z ≤ 0 → 0 ≤ Int.tdiv (-z) k)
    ∧ |Int.tdiv (-z) k| ≤ |z| ∧ (|z| < k → Int.tdiv (-z) k = 0)
    ∧ |(-z) - Int.tdiv (-z) k * k| < k := by
  rcases le_total 0 z with hz | hz
  · have e : Int.tdiv (-z) k = -(z / k) := by
      rw [Int.neg_tdiv, Int.tdiv_eq_ediv hz hk.le]
    have q0 : 0 ≤ z / k := Int.ediv_nonneg hz hk.le
    have q1 : z / k ≤ z := Int.ediv_le_self k hz
    have q2 : z / k * k ≤ z := Int.ediv_mul_le z hk.ne'
    have q3 : z < (z / k + 1) * k := Int.lt_ediv_add_one_mul_self z hk
    rw [e]
    refine ⟨fun _ => by omega, fun _ => by omega, ?_, ?_, ?_⟩
    · rw [abs_neg, abs_of_nonneg q0, abs_of_nonneg hz]; exact q1
    · intro h
      rw [abs_of_nonneg hz] at h
      rw [Int.ediv_eq_zero_of_lt hz h]; rfl
    · rw [abs_lt]
      constructor <;> nlinarith
  · have hz' : 0 ≤ -z := by omega
    have e : Int.tdiv (-z) k = (-z) / k := Int.tdiv_eq_ediv hz' hk.le
    have q0 : 0 ≤ (-z) / k := Int.ediv_nonneg hz' hk.le
    have q1 : (-z) / k ≤ -z := Int.ediv_le_self k hz'
    have q2 : (-z) / k * k ≤ -z := Int.ediv_mul_le (-z) hk.ne'
    have q3 : -z < ((-z) / k + 1) * k := Int.lt_ediv_add_one_mul_self (-z) hk
    rw [e]
    refine ⟨fun _ => by omega, fun _ => by omega, ?_, ?_, ?_⟩
    · rw [abs_of_nonneg q0, abs_of_nonpos hz]; exact q1
    · intro h
      rw [abs_of_nonpos hz] at h
      exact Int.ediv_eq_zero_of_lt hz' h
    · rw [abs_lt]
      constructor <;> nlinarith

theorem removeNoise_servo_of_spike (g : G) (r : Int)
    (h : (removeNoise.front g r).isDelaySpike = true) :
    (removeNoise g r).1.servo = g.servo ∧ (removeNoise g r).2 = 0 := by
  rw [removeNoise_of_spike g r h]
  exact ⟨removeNoise_front_servo g r, rfl⟩

theorem removeNoise_servo_of_not_spike (g : G) (r : Int)
    (h : (removeNoise.front g r).isDelaySpike = false) :
    (removeNoise g r).1.servo
      = { g.servo with
          hardLimit := (setHardLimit (removeNoise.front g r)
            (removeNoise.front g r).avgCorrection).hardLimit,
          clampAbsolute := (clampJitter (setHardLimit (removeNoise.front g r)
            (removeNoise.front g r).avgCorrection) r).1.clampAbsolute,
          invProportionalGain := if g.isControlling = true then INV_GAIN_1
            else g.invProportionalGain } := by
  have h1 := removeNoise_back_servo (removeNoise.clamp (removeNoise.front g r) r).1
    (removeNoise.clamp (removeNoise.front g r) r).2
  have h2 := removeNoise_clamp_servo (removeNoise.front g r) r
  have h3 := removeNoise_front_servo g r
  rw [h3] at h2
  have hi := congrArg ServoFrame.isControlling h2
  have hg := congrArg ServoFrame.invProportionalGain h2
  simp only [G.servo] at hi hg
  rw [removeNoise_of_not_spike g r h, h1, hi, hg, h2]

theorem removeNoise_invProportionalGain_pos (g : G) (r : Int)
    (h : 0 < g.invProportionalGain) : 0 < (removeNoise g r).1.invProportionalGain := by
  cases hs : (removeNoise.front g r).isDelaySpike
  · have e := congrArg ServoFrame.invProportionalGain (removeNoise_servo_of_not_spike g r hs)
    simp only [G.servo] at e
    rw [e]
    split_ifs
    · decide
    · exact h
  · have e := congrArg ServoFrame.invProportionalGain (removeNoise_servo_of_spike g r hs).1
    simp only [G.servo] at e
    rw [e]
    exact h
theorem makeTimeCorrection_front_of_not_spike (g : G) (p : timeval) (c : ClockReadings)
    (hns : (makeTimeCorrection g p c).1.isDelaySpike = false) :
    (makeTimeCorrection g p c).1.timeCorrection
        = Int.tdiv (-(makeTimeCorrection g p c).1.zeroError)
            (makeTimeCorrection g p c).1.invProportionalGain
    ∧ (makeTimeCorrection g p c).1.invProportionalGain
        = (removeNoise (makeTimeCorrection.sample g p c)
            (makeTimeCorrection.sample g p c).rawError).1.invProportionalGain
    ∧ (makeTimeCorrection g p c).1.zeroError
        = (removeNoise (makeTimeCorrection.sample g p c)
            (makeTimeCorrection.sample g p c).rawError).2 := by
  rw [makeTimeCorrection_isDelaySpike] at hns
  rw [makeTimeCorrection_of_not_spike g p c hns]
  have hf := makeTimeCorrection_correct_front
    { (removeNoise (makeTimeCorrection.sample g p c)
        (makeTimeCorrection.sample g p c).rawError).1 with
      zeroError := (removeNoise (makeTimeCorrection.sample g p c)
        (makeTimeCorrection.sample g p c).rawError).2 } c
  have h1 := congrArg FrontFrame.timeCorrection hf
  have h2 := congrArg FrontFrame.zeroError hf
  have h3 := congrArg FrontFrame.invProportionalGain hf
  simp only [G.front] at h1 h2 h3
  rw [h1, h2, h3]
  exact ⟨rfl, rfl, rfl⟩

/-- C4: in every second that is not flagged as a delay spike (the proportional
gain being positive), `makeTimeCorrection` sets `timeCorrection` to the
quotient of `-zeroError` by `invProportionalGain` truncated toward zero, so it
differs from the exact quotient by less than one; hence the time correction
has the sign opposite to the zero error or is 0, its magnitude is at most
that of the zero error, with gain 4 every zero error of magnitude below 4
gives 0, and opposite zero errors under the same gain give opposite time
corrections. -/
theorem timeCorrection_truncated_quotient (g : G) (pps_t : timeval) (clk : ClockReadings)
    (hgain : 0 < g.invProportionalGain)
    (hns : (makeTimeCorrection g pps_t clk).1.isDelaySpike = false) :
    (makeTimeCorrection g pps_t clk).1.timeCorrection
        = Int.tdiv (-(makeTimeCorrection g pps_t clk).1.zeroError)
            (makeTimeCorrection g pps_t clk).1.invProportionalGain
    ∧ 0 < (makeTimeCorrection g pps_t clk).1.invProportionalGain
    ∧ |(-(makeTimeCorrection g pps_t clk).1.zeroError)
          - (makeTimeCorrection g pps_t clk).1.timeCorrection
            * (makeTimeCorrection g pps_t clk).1.invProportionalGain|
        < (makeTimeCorrection g pps_t clk).1.invProportionalGain
    ∧ (0 ≤ (makeTimeCorrection g pps_t clk).1.zeroError →
        (makeTimeCorrection g pps_t clk).1.timeCorrection ≤ 0)
    ∧ ((makeTimeCorrection g pps_t clk).1.zeroError ≤ 0 →
        0 ≤ (makeTimeCorrection g pps_t clk).1.timeCorrection)
    ∧ |(makeTimeCorrection g pps_t clk).1.timeCorrection|
        ≤ |(makeTimeCorrection g pps_t clk).1.zeroError|
    ∧ ((makeTimeCorrection g pps_t clk).1.invProportionalGain = 4 →
        |(makeTimeCorrection g pps_t clk).1.zeroError| < 4 →
        (makeTimeCorrection g pps_t clk).1.timeCorrection = 0)
    ∧ (∀ (g' : G) (pps_t' : timeval) (clk' : ClockReadings),
        (makeTimeCorrection g' pps_t' clk').1.isDelaySpike = false →
        (makeTimeCorrection g' pps_t' clk').1.invProportionalGain
          = (makeTimeCorrection g pps_t clk).1.invProportionalGain →
        (makeTimeCorrection g' pps_t' clk').1.zeroError
          = -(makeTimeCorrection g pps_t clk).1.zeroError →
        (makeTimeCorrection g' pps_t' clk').1.timeCorrection
          = -(makeTimeCorrection g pps_t clk).1.timeCorrection) := by
  obtain ⟨h1, h2, _⟩ := makeTimeCorrection_front_of_not_spike g pps_t clk hns
  have hpos : 0 < (makeTimeCorrection g pps_t clk).1.invProportionalGain := by
    rw [h2]
    apply removeNoise_invProportionalGain_pos
    have e := congrArg ServoFrame.invProportionalGain (makeTimeCorrection_sample_servo g pps_t clk)
    simp only [G.servo] at e
    rw [e]
    exact hgain
  obtain ⟨p1, p2, p3, p4, p5⟩ := tdiv_neg_props (makeTimeCorrection g pps_t clk).1.zeroError
    (makeTimeCorrection g pps_t clk).1.invProportionalGain hpos
  rw [← h1] at p1 p2 p3 p4 p5
  refine ⟨h1, hpos, p5, p1, p2, p3, ?_, ?_⟩
  · intro h4 hlt
    apply p4
    rw [h4]
    exact hlt
  · intro g' p' c' hns' hg hz
    obtain ⟨h1', _, _⟩ := makeTimeCorrection_front_of_not_spike g' p' c' hns'
    rw [h1', hg, hz, neg_neg, h1, Int.neg_tdiv, neg_neg]

/-- C4 applied to the start state and a timestamp of 207 microseconds: the raw
and zero errors are 200, the gain is 4 and the time correction is -50. -/
theorem timeCorrection_truncated_quotient_witness :
    (makeTimeCorrection startState ⟨0, 207⟩ ⟨0, 0, 0⟩).1.zeroError = 200
    ∧ (makeTimeCorrection startState ⟨0, 207⟩ ⟨0, 0, 0⟩).1.timeCorrection = -50
    ∧ (makeTimeCorrection startState ⟨0, 207⟩ ⟨0, 0, 0⟩).1.timeCorrection
        = Int.tdiv (-(makeTimeCorrection startState ⟨0, 207⟩ ⟨0, 0, 0⟩).1.zeroError)
            (makeTimeCorrection startState ⟨0, 207⟩ ⟨0, 0, 0⟩).1.invProportionalGain :=
  ⟨by decide!, by decide!,
    (timeCorrection_truncated_quotient startState ⟨0, 207⟩ ⟨0, 0, 0⟩ (by decide!)
      (by decide!)).1⟩

/-! ## Delay spikes (C5, C6) -/

@[simp] theorem adjtimex_streak (g : G) : (adjtimex g).streak = g.streak := rfl

@[simp] theorem setClocktoNISTtime_streak (g : G) :
    (setClocktoNISTtime g).streak = g.streak := rfl

@[simp] theorem setClockToGPStime_streak (g : G) :
    (setClockToGPStime g).streak = g.streak := rfl

@[simp] theorem setClockFractionalSecond_streak (g : G) (c : Int) :
    (setClockFractionalSecond g c).streak = g.streak := by
  unfold setClockFractionalSecond
  simp only []
  split_ifs <;> rfl

@[simp] theorem correctFractionalSecond_streak (g : G) (p : timeval) :
    (correctFractionalSecond g p).1.streak = g.streak := by
  unfold correctFractionalSecond
  simp only []
  split_ifs <;> simp

@[simp] theorem detectExteralSystemClockChange_streak (g : G) (p : timeval) :
    (detectExteralSystemClockChange g p).1.streak = g.streak := by
  unfold detectExteralSystemClockChange
  simp only []
  split_ifs <;> rfl

@[simp] theorem doTimeFixups_timeUpdated_streak (g : G) (n1 n2 : Int) :
    (doTimeFixups.timeUpdated g n1 n2).streak = g.streak := by
  unfold doTimeFixups.timeUpdated
  simp only []
  split_ifs <;> rfl

@[simp] theorem doTimeFixups_setTime_streak (g : G) :
    (doTimeFixups.setTime g).streak = g.streak := by
  unfold doTimeFixups.setTime
  simp only []
  split_ifs <;> simp

@[simp] theorem doTimeFixups_clockChange_streak (g : G) (p : timeval) :
    (doTimeFixups.clockChange g p).streak = g.streak := by
  unfold doTimeFixups.clockChange
  simp only []
  split_ifs <;>
    first
    | (simp; done)
    | (show (correctFractionalSecond _ _).1.streak = _; simp)

@[simp] theorem doTimeFixups_streak (g : G) (p : timeval) (n1 n2 : Int) :
    (doTimeFixups g p n1 n2).streak = g.streak := by
  simp [doTimeFixups]

@[simp] theorem makeTimeCorrection_sample_streak (g : G) (p : timeval) (c : ClockReadings) :
    (makeTimeCorrection.sample g p c).streak = g.streak := by
  unfold makeTimeCorrection.sample
  simp only []
  split_ifs
  · show (doTimeFixups _ _ _ _).streak = _
    rw [doTimeFixups_streak]
    rfl
  · rfl

@[simp] theorem buildRawErrorDistrib_streak (g : G) (r : Int) :
    (buildRawErrorDistrib g r).streak = g.streak := by
  unfold buildRawErrorDistrib
  simp only []
  split_ifs <;> simp [G.streak]

@[simp] theorem getTimeSlew_streak (g : G) (r : Int) : (getTimeSlew g r).streak = g.streak := by
  unfold getTimeSlew
  simp only []
  split_ifs <;> rfl

@[simp] theorem buildJitterDistrib_streak (g : G) (r : Int) :
    (buildJitterDistrib g r).streak = g.streak := rfl

@[simp] theorem spikeInput_streak (g : G) (p : timeval) (c : ClockReadings) :
    (spikeInput g p c).streak = g.streak := by
  unfold spikeInput
  show (buildRawErrorDistrib _ _).streak = _
  simp

theorem spikeInput_servo (g : G) (p : timeval) (c : ClockReadings) :
    (spikeInput g p c).servo = { g.servo with seq_num := g.seq_num + 1 } := by
  unfold spikeInput
  show (buildRawErrorDistrib _ _).servo = _
  rw [buildRawErrorDistrib_servo, makeTimeCorrection_sample_servo]

theorem detectDelaySpike_of_limit (g : G) (r : Int) (h : limitCondition g r = true) :
    (detectDelaySpike g r).2 = decide (g.nDelaySpikes < MAX_SPIKES)
    ∧ (detectDelaySpike g r).1.nDelaySpikes
        = (if g.nDelaySpikes < MAX_SPIKES then g.nDelaySpikes + 1 else g.nDelaySpikes)
    ∧ (detectDelaySpike g r).1.minSustainedDelay
        = (if g.nDelaySpikes < MAX_SPIKES then
            (if g.nDelaySpikes = 0 then MAX_SPIKE_LEVEL
             else if r < g.minSustainedDelay then r else g.minSustainedDelay)
           else g.minSustainedDelay)
    ∧ (detectDelaySpike g r).1.clockChanged
        = (if g.nDelaySpikes < MAX_SPIKES then g.clockChanged
           else (decide (g.minSustainedDelay > CLK_CHANGED_LEVEL) || g.clockChanged)) := by
  unfold detectDelaySpike
  simp only [h, if_true, decide_eq_true_eq]
  split_ifs <;> simp_all

theorem detectDelaySpike_of_not_limit (g : G) (r : Int) (h : limitCondition g r = false) :
    (detectDelaySpike g r).2 = false
    ∧ (detectDelaySpike g r).1.nDelaySpikes
        = (if g.nDelaySpikes > 0 then 0 else g.nDelaySpikes) := by
  unfold detectDelaySpike
  simp only [h, decide_eq_true_eq]
  split_ifs <;> simp_all [getAvgNoiseLevel]
theorem removeNoise_spike (g : G) (r : Int) :
    (removeNoise g r).1.spike = (removeNoise.front g r).spike := by
  cases h : (removeNoise.front g r).isDelaySpike
  · rw [removeNoise_of_not_spike g r h, removeNoise_back_spike, removeNoise_clamp_spike]
  · rw [removeNoise_of_spike g r h]

/-- The members of the front-end part that `makeTimeCorrection` takes over
from `removeNoise` unchanged. -/
theorem makeTimeCorrection_front_fields (g : G) (p : timeval) (c : ClockReadings) :
    (makeTimeCorrection g p c).1.front
      = { (removeNoise (makeTimeCorrection.sample g p c)
            (makeTimeCorrection.sample g p c).rawError).1.front with
          zeroError := (makeTimeCorrection g p c).1.zeroError,
          timeCorrection := (makeTimeCorrection g p c).1.timeCorrection,
          slewIsLow := (makeTimeCorrection g p c).1.slewIsLow,
          isControlling := (makeTimeCorrection g p c).1.isControlling } := by
  cases h : (removeNoise (makeTimeCorrection.sample g p c)
      (makeTimeCorrection.sample g p c).rawError).1.isDelaySpike
  · rw [makeTimeCorrection_of_not_spike g p c h]
    have hf := makeTimeCorrection_correct_front
      { (removeNoise (makeTimeCorrection.sample g p c)
          (makeTimeCorrection.sample g p c).rawError).1 with
        zeroError := (removeNoise (makeTimeCorrection.sample g p c)
          (makeTimeCorrection.sample g p c).rawError).2 } c
    have h1 := congrArg FrontFrame.timeCorrection hf
    have h2 := congrArg FrontFrame.zeroError hf
    have h3 := congrArg FrontFrame.slewIsLow hf
    have h4 := congrArg FrontFrame.isControlling hf
    simp only [G.front] at h1 h2 h3 h4
    rw [h1, h2, h3, h4, hf]
    rfl
  · rw [makeTimeCorrection_of_spike g p c h]
    have hf := savePPStime_front
      { (removeNoise (makeTimeCorrection.sample g p c)
          (makeTimeCorrection.sample g p c).rawError).1 with
        zeroError := (removeNoise (makeTimeCorrection.sample g p c)
          (makeTimeCorrection.sample g p c).rawError).2 } 0 c.tod_sec
    have h1 := congrArg FrontFrame.timeCorrection hf
    have h2 := congrArg FrontFrame.zeroError hf
    have h3 := congrArg FrontFrame.slewIsLow hf
    have h4 := congrArg FrontFrame.isControlling hf
    simp only [G.front] at h1 h2 h3 h4
    rw [h1, h2, h3, h4, hf]
    rfl

theorem getTimeSlew_isDelaySpike (g : G) (r : Int) :
    (getTimeSlew g r).isDelaySpike = g.isDelaySpike
    ∧ (getTimeSlew g r).clockChanged = g.clockChanged := by
  unfold getTimeSlew
  simp only []
  split_ifs <;> exact ⟨rfl, rfl⟩

theorem removeNoise_front_spike_fields (g : G) (r : Int) :
    (removeNoise.front g r).isDelaySpike
        = (detectDelaySpike { buildRawErrorDistrib g r with jitter := r } r).2
    ∧ (removeNoise.front g r).clockChanged
        = (detectDelaySpike { buildRawErrorDistrib g r with jitter := r } r).1.clockChanged
    ∧ (removeNoise.front g r).streak
        = (detectDelaySpike { buildRawErrorDistrib g r with jitter := r } r).1.streak := by
  have hs : ∀ x : G, ({ (detectDelaySpike x r).1 with
      isDelaySpike := (detectDelaySpike x r).2 } : G).streak = (detectDelaySpike x r).1.streak :=
    fun _ => rfl
  unfold removeNoise.front
  simp only []
  split_ifs
  · refine ⟨?_, ?_, ?_⟩
    · show (getTimeSlew _ _).isDelaySpike = _
      rw [(getTimeSlew_isDelaySpike _ _).1]
    · show (getTimeSlew _ _).clockChanged = _
      rw [(getTimeSlew_isDelaySpike _ _).2]
    · rw [buildJitterDistrib_streak, getTimeSlew_streak, hs]
  · refine ⟨?_, ?_, ?_⟩
    · rw [(getTimeSlew_isDelaySpike _ _).1]
    · rw [(getTimeSlew_isDelaySpike _ _).2]
    · rw [getTimeSlew_streak, hs]

/-- The spike test made by `makeTimeCorrection` is the call of
`detectDelaySpike` on `spikeInput`: the flag, the streak counter, the tracked
minimum and the clock-change latch after the second are those left by that
call. -/
theorem makeTimeCorrection_spike_fields (g : G) (p : timeval) (c : ClockReadings) :
    (makeTimeCorrection g p c).1.isDelaySpike
        = (detectDelaySpike (spikeInput g p c) (makeTimeCorrection.sample g p c).rawError).2
    ∧ (makeTimeCorrection g p c).1.nDelaySpikes
        = (detectDelaySpike (spikeInput g p c)
            (makeTimeCorrection.sample g p c).rawError).1.nDelaySpikes
    ∧ (makeTimeCorrection g p c).1.minSustainedDelay
        = (detectDelaySpike (spikeInput g p c)
            (makeTimeCorrection.sample g p c).rawError).1.minSustainedDelay
    ∧ (makeTimeCorrection g p c).1.clockChanged
        = (detectDelaySpike (spikeInput g p c)
            (makeTimeCorrection.sample g p c).rawError).1.clockChanged := by
  have hf := makeTimeCorrection_front_fields g p c
  have hs := removeNoise_spike (makeTimeCorrection.sample g p c)
    (makeTimeCorrection.sample g p c).rawError
  obtain ⟨f1, f2, f3⟩ := removeNoise_front_spike_fields (makeTimeCorrection.sample g p c)
    (makeTimeCorrection.sample g p c).rawError
  have a1 := congrArg FrontFrame.isDelaySpike hf
  have a2 := congrArg FrontFrame.nDelaySpikes hf
  have a3 := congrArg FrontFrame.minSustainedDelay hf
  have a4 := congrArg FrontFrame.clockChanged hf
  have b1 := congrArg SpikeFrame.isDelaySpike hs
  have b2 := congrArg SpikeFrame.nDelaySpikes hs
  have b3 := congrArg SpikeFrame.minSustainedDelay hs
  have b4 := congrArg SpikeFrame.clockChanged hs
  have c2 := congrArg StreakFrame.nDelaySpikes f3
  have c3 := congrArg StreakFrame.minSustainedDelay f3
  simp only [G.front, G.spike, G.streak] at a1 a2 a3 a4 b1 b2 b3 b4 c2 c3
  unfold spikeInput
  exact ⟨a1.trans (b1.trans f1), a2.trans (b2.trans c2), a3.trans (b3.trans c3),
    a4.trans (b4.trans f2)⟩
theorem runSeconds_take_succ (g : G) (inputs : List (timeval × ClockReadings)) (k : Nat)
    (hk : k < inputs.length) :
    runSeconds g (inputs.take (k + 1))
      = (makeTimeCorrection (runSeconds g (inputs.take k)) inputs[k].1 inputs[k].2).1 := by
  unfold runSeconds
  rw [List.take_succ, List.foldl_append]
  simp [List.getElem?_eq_getElem hk]

theorem runSeconds_streak_count (g : G) (h0 : g.nDelaySpikes = 0)
    (inputs : List (timeval × ClockReadings))
    (hlim : ∀ k (hk : k < inputs.length),
      limitCondition (spikeInput (runSeconds g (inputs.take k)) inputs[k].1 inputs[k].2)
        (makeTimeCorrection.sample (runSeconds g (inputs.take k))
          inputs[k].1 inputs[k].2).rawError = true) :
    ∀ k, k ≤ inputs.length →
      (runSeconds g (inputs.take k)).nDelaySpikes = ((min k 60 : Nat) : Int) := by
  intro k
  induction k with
  | zero =>
    intro _
    simpa [runSeconds] using h0
  | succ k ih =>
    intro hk
    have hk' : k < inputs.length := by omega
    have e := ih (by omega)
    rw [runSeconds_take_succ g inputs k hk']
    obtain ⟨_, f2, _, _⟩ := makeTimeCorrection_spike_fields (runSeconds g (inputs.take k))
      inputs[k].1 inputs[k].2
    obtain ⟨_, d2, _, _⟩ := detectDelaySpike_of_limit _ _ (hlim k hk')
    have hn := congrArg StreakFrame.nDelaySpikes
      (spikeInput_streak (runSeconds g (inputs.take k)) inputs[k].1 inputs[k].2)
    simp only [G.streak] at hn
    rw [f2, d2, hn, e]
    simp only [MAX_SPIKES]
    split_ifs <;> omega

/-- C5: starting with `nDelaySpikes = 0`, along every run of seconds each of
whose samples satisfies the limit condition when `detectDelaySpike` examines
it, the sample is flagged as a delay spike exactly for the first 60 seconds of
the run and not flagged for the 61st and every later second; and a sample
that does not satisfy the limit condition is not flagged and leaves
`nDelaySpikes` at 0. -/
theorem delaySpike_streak_capped_at_60 :
    (∀ (g : G) (inputs : List (timeval × ClockReadings)), g.nDelaySpikes = 0 →
      (∀ k (hk : k < inputs.length),
        limitCondition (spikeInput (runSeconds g (inputs.take k)) inputs[k].1 inputs[k].2)
          (makeTimeCorrection.sample (runSeconds g (inputs.take k))
            inputs[k].1 inputs[k].2).rawError = true) →
      ∀ k, k < inputs.length →
        (runSeconds g (inputs.take (k + 1))).isDelaySpike = decide (k < 60)
        ∧ (runSeconds g (inputs.take (k + 1))).nDelaySpikes = ((min (k + 1) 60 : Nat) : Int))
    ∧ (∀ (g : G) (rawError : Int), limitCondition g rawError = false → 0 ≤ g.nDelaySpikes →
        (detectDelaySpike g rawError).2 = false
        ∧ (detectDelaySpike g rawError).1.nDelaySpikes = 0) := by
  constructor
  · intro g inputs h0 hlim k hk
    have hc := runSeconds_streak_count g h0 inputs hlim
    refine ⟨?_, hc (k + 1) (by omega)⟩
    rw [runSeconds_take_succ g inputs k hk]
    obtain ⟨f1, _, _, _⟩ := makeTimeCorrection_spike_fields (runSeconds g (inputs.take k))
      inputs[k].1 inputs[k].2
    obtain ⟨d1, _, _, _⟩ := detectDelaySpike_of_limit _ _ (hlim k hk)
    have hn := congrArg StreakFrame.nDelaySpikes
      (spikeInput_streak (runSeconds g (inputs.take k)) inputs[k].1 inputs[k].2)
    simp only [G.streak] at hn
    rw [f1, d1, hn, hc k (by omega)]
    simp only [MAX_SPIKES]
    by_cases h : k < 60
    · have : ((min k 60 : Nat) : Int) < 60 := by omega
      simp [h, this]
    · have : ¬ ((min k 60 : Nat) : Int) < 60 := by omega
      simp [h, this]
  · intro g r h hn
    obtain ⟨d1, d2⟩ := detectDelaySpike_of_not_limit g r h
    refine ⟨d1, ?_⟩
    rw [d2]
    split_ifs <;> omega

/-- C5 applied to the locked state and a burst of 61 seconds with a raw error
of 100: the 60th second is flagged and the 61st is not. -/
theorem delaySpike_streak_capped_at_60_witness :
    (runSeconds lockedState (spikeBurst.take (59 + 1))).isDelaySpike = decide (59 < 60)
    ∧ (runSeconds lockedState (spikeBurst.take (60 + 1))).isDelaySpike = decide (60 < 60) :=
  ⟨(delaySpike_streak_capped_at_60.1 lockedState spikeBurst (by decide!) (by decide!) 59
      (by decide)).1,
    (delaySpike_streak_capped_at_60.1 lockedState spikeBurst (by decide!) (by decide!) 60
      (by decide)).1⟩

/-- C6, the code at a failing input: in the locked state with the latch clear
and no streak, a second with a raw error of 100 followed by 59 seconds with a
raw error of 2000 is suppressed sample by sample; the 61st second, again with
a raw error of 2000, is not flagged and latches `clockChanged`, although the
minimum raw error over the 60 suppressed samples is 100, not above 1000.  The
minimum tracked by the code is 2000: the first sample of a streak only
initialises `minSustainedDelay` to 1000000 and is never compared. -/
theorem clockChanged_latched_despite_low_minimum :
    lockedState.clockChanged = false ∧ lockedState.nDelaySpikes = 0
    ∧ (∀ k, k < 60 → (runSeconds lockedState (stepBurst.take (k + 1))).isDelaySpike = true)
    ∧ (runSeconds lockedState (stepBurst.take 1)).rawError = 100
    ∧ (∀ k, k < 60 → 100 ≤ (runSeconds lockedState (stepBurst.take (k + 1))).rawError)
    ∧ (runSeconds lockedState (stepBurst.take 60)).minSustainedDelay = 2000
    ∧ (runSeconds lockedState (stepBurst.take 60)).clockChanged = false
    ∧ limitCondition (spikeInput (runSeconds lockedState (stepBurst.take 60)) ⟨0, 2007⟩ ⟨0, 0, 0⟩)
        2000 = true
    ∧ (runSeconds lockedState stepBurst).isDelaySpike = false
    ∧ (runSeconds lockedState stepBurst).clockChanged = true := by
  decide!

/-! ## Seconds flagged as delay spikes (C7) -/

theorem logExtends_refl (g : G) : logExtends g g := ⟨[], by simp, by simp⟩

theorem logExtends_of_eq {a b : G} (h : b.sysLog = a.sysLog) : logExtends a b :=
  ⟨[], by simp [h], by simp⟩

theorem logExtends_trans {a b c : G} (h1 : logExtends a b) (h2 : logExtends b c) :
    logExtends a c := by
  obtain ⟨e1, p1, q1⟩ := h1
  obtain ⟨e2, p2, q2⟩ := h2
  refine ⟨e1 ++ e2, by rw [p2, p1, List.append_assoc], ?_⟩
  intro e he
  rcases List.mem_append.mp he with h | h
  · exact q1 e h
  · exact q2 e h

theorem setClocktoNISTtime_log (g : G) : logExtends g (setClocktoNISTtime g) :=
  ⟨[SysCall.adjtimex _], rfl, by simp [SysCall.isFixup]⟩

theorem setClockToGPStime_log (g : G) : logExtends g (setClockToGPStime g) :=
  ⟨[SysCall.adjtimex _], rfl, by simp [SysCall.isFixup]⟩

theorem setClockFractionalSecond_log (g : G) (c : Int) :
    logExtends g (setClockFractionalSecond g c) := by
  unfold setClockFractionalSecond
  simp only []
  split_ifs <;> exact ⟨[SysCall.adjtimex _], rfl, by simp [SysCall.isFixup]⟩

theorem correctFractionalSecond_log (g : G) (p : timeval) :
    logExtends g (correctFractionalSecond g p).1 := by
  unfold correctFractionalSecond
  simp only []
  split_ifs <;> first | exact logExtends_refl g | exact setClockFractionalSecond_log g _

theorem detectExteralSystemClockChange_log (g : G) (p : timeval) :
    (detectExteralSystemClockChange g p).1.sysLog = g.sysLog := by
  unfold detectExteralSystemClockChange
  simp only []
  split_ifs <;> rfl

theorem doTimeFixups_timeUpdated_log (g : G) (n1 n2 : Int) :
    (doTimeFixups.timeUpdated g n1 n2).sysLog = g.sysLog := by
  unfold doTimeFixups.timeUpdated
  simp only []
  split_ifs <;> rfl

theorem doTimeFixups_setTime_log (g : G) : logExtends g (doTimeFixups.setTime g) := by
  unfold doTimeFixups.setTime
  simp only []
  split_ifs
  · exact logExtends_trans (setClocktoNISTtime_log g) (setClockToGPStime_log _)
  · exact setClocktoNISTtime_log g
  · exact setClockToGPStime_log g
  · exact logExtends_refl g

theorem doTimeFixups_clockChange_log (g : G) (p : timeval) :
    logExtends g (doTimeFixups.clockChange g p) := by
  have hstop : ∀ x : G, logExtends x
      { ({ x with blockDetectClockChange := SECS_PER_MINUTE } : G) with
        sysLog := x.sysLog ++ [SysCall.stopTimesyncd] } :=
    fun x => ⟨[SysCall.stopTimesyncd], rfl, by simp [SysCall.isFixup]⟩
  have hd : ∀ x : G, logExtends g x → logExtends g
      (if decide (x.blockDetectClockChange > SECS_PER_MINUTE - 4) = true then
        (correctFractionalSecond x p).1 else x) := by
    intro x hx
    split_ifs
    · exact logExtends_trans hx (correctFractionalSecond_log x p)
    · exact hx
  unfold doTimeFixups.clockChange
  simp only []
  by_cases hb : decide (g.blockDetectClockChange = 0) = true
  · simp only [hb, if_true]
    have h0 : logExtends g (detectExteralSystemClockChange g p).1 :=
      logExtends_of_eq (detectExteralSystemClockChange_log g p)
    by_cases hr : (detectExteralSystemClockChange g p).2 = true
    · simp only [hr, if_true]
      split_ifs
      · exact h0
      · exact h0
      · exact logExtends_trans h0 (correctFractionalSecond_log _ p)
      · exact logExtends_trans (logExtends_trans h0 (correctFractionalSecond_log _ p)) (hstop _)
    · simp only [hr]
      exact hd _ h0
  · simp only [hb]
    exact hd g (logExtends_refl g)

theorem doTimeFixups_log (g : G) (p : timeval) (n1 n2 : Int) :
    logExtends g (doTimeFixups g p n1 n2) := by
  unfold doTimeFixups
  simp only []
  exact logExtends_trans (logExtends_trans
    (logExtends_of_eq (doTimeFixups_timeUpdated_log g n1 n2)) (doTimeFixups_setTime_log _))
    (doTimeFixups_clockChange_log _ p)

theorem buildRawErrorDistrib_sysLog (g : G) (r : Int) :
    (buildRawErrorDistrib g r).sysLog = g.sysLog := by
  unfold buildRawErrorDistrib
  simp only []
  split_ifs <;> rfl

theorem detectDelaySpike_sysLog (g : G) (r : Int) :
    (detectDelaySpike g r).1.sysLog = g.sysLog := by
  unfold detectDelaySpike
  simp only []
  split_ifs <;> rfl

theorem getTimeSlew_sysLog (g : G) (r : Int) : (getTimeSlew g r).sysLog = g.sysLog := by
  unfold getTimeSlew
  simp only []
  split_ifs <;> rfl

theorem removeNoise_front_sysLog (g : G) (r : Int) :
    (removeNoise.front g r).sysLog = g.sysLog := by
  unfold removeNoise.front
  simp only []
  split_ifs
  · show (getTimeSlew _ _).sysLog = _
    rw [getTimeSlew_sysLog]
    show (detectDelaySpike _ _).1.sysLog = _
    rw [detectDelaySpike_sysLog]
    show (buildRawErrorDistrib _ _).sysLog = _
    rw [buildRawErrorDistrib_sysLog]
  · rw [getTimeSlew_sysLog]
    show (detectDelaySpike _ _).1.sysLog = _
    rw [detectDelaySpike_sysLog]
    show (buildRawErrorDistrib _ _).sysLog = _
    rw [buildRawErrorDistrib_sysLog]

theorem savePPStime_sysLog (g : G) (t s : Int) : (savePPStime g t s).sysLog = g.sysLog := by
  unfold savePPStime
  simp only []
  split_ifs <;> rfl

theorem makeTimeCorrection_sample_log (g : G) (p : timeval) (c : ClockReadings) :
    logExtends g (makeTimeCorrection.sample g p c) := by
  unfold makeTimeCorrection.sample
  simp only []
  split_ifs
  · have h := doTimeFixups_log
      ({ ({ g with interruptReceived := true } : G) with seq_num := g.seq_num + 1 } : G)
      p c.nearest1 c.nearest2
    obtain ⟨e, h1, h2⟩ := h
    exact ⟨e, h1, h2⟩
  · exact logExtends_refl g

theorem detectDelaySpike_flagged (g : G) (r : Int) (h : (detectDelaySpike g r).2 = true) :
    limitCondition g r = true ∧ g.nDelaySpikes < MAX_SPIKES := by
  cases hl : limitCondition g r
  · rw [(detectDelaySpike_of_not_limit g r hl).1] at h
    exact absurd h (by decide)
  · rw [(detectDelaySpike_of_limit g r hl).1] at h
    exact ⟨rfl, by simpa using h⟩

theorem detectDelaySpike_of_limit_streak (g : G) (r : Int) (h : limitCondition g r = true) :
    (detectDelaySpike g r).1.rawErrorAvg = g.rawErrorAvg
    ∧ (detectDelaySpike g r).1.noiseLevel = g.noiseLevel := by
  unfold detectDelaySpike
  simp only [h, if_true]
  split_ifs <;> exact ⟨rfl, rfl⟩

theorem makeTimeCorrection_servo_of_spike (g : G) (p : timeval) (c : ClockReadings)
    (h : (makeTimeCorrection g p c).1.isDelaySpike = true) :
    (makeTimeCorrection g p c).1.servo = { g.servo with seq_num := g.seq_num + 1 } := by
  rw [makeTimeCorrection_isDelaySpike] at h
  have hfr := h
  rw [removeNoise_isDelaySpike] at hfr
  rw [makeTimeCorrection_of_spike g p c h, savePPStime_servo]
  show (removeNoise _ _).1.servo = _
  rw [(removeNoise_servo_of_spike _ _ hfr).1, makeTimeCorrection_sample_servo]

/-- C7, as stated, fails: in the locked state with a whole-second correction
of 3 seconds pending, a second with a raw error of 100 is flagged as a delay
spike and yet `makeTimeCorrection` issues a clock command, the set-offset
request of the time fixups, and changes members other than `seq_num`, the
spike counters, the slew accumulator and the histogram: the pending
correction is cleared, its latch is set and the sample records are
overwritten. -/
theorem spike_second_frame_counterexample :
    (makeTimeCorrection pendingSetState ⟨0, 107⟩ ⟨0, 0, 0⟩).1.isDelaySpike = true
    ∧ (makeTimeCorrection pendingSetState ⟨0, 107⟩ ⟨0, 0, 0⟩).1.sysLog
        = pendingSetState.sysLog
          ++ [SysCall.adjtimex ⟨ADJ_SETOFFSET + ADJ_STATUS, 0, 0, STA_PLL, 3, 0⟩]
    ∧ pendingSetState.consensusTimeError = 3
    ∧ (makeTimeCorrection pendingSetState ⟨0, 107⟩ ⟨0, 0, 0⟩).1.consensusTimeError = 0
    ∧ pendingSetState.nistTimeUpdated = false
    ∧ (makeTimeCorrection pendingSetState ⟨0, 107⟩ ⟨0, 0, 0⟩).1.nistTimeUpdated = true
    ∧ pendingSetState.jitter = 0
    ∧ (makeTimeCorrection pendingSetState ⟨0, 107⟩ ⟨0, 0, 0⟩).1.jitter = 100
    ∧ pendingSetState.rawError = 0
    ∧ (makeTimeCorrection pendingSetState ⟨0, 107⟩ ⟨0, 0, 0⟩).1.rawError = 100 := by
  decide!

/-- C7, amended: for every second whose sample `detectDelaySpike` flags as a
spike, `removeNoise` returns 0 and `makeTimeCorrection` issues neither a
one-shot offset nor a frequency adjustment (the requests it adds to the
record are requests of the time fixups only: set-offset requests and the stop
of the system time service); it leaves the servo part of the state unchanged
but for `seq_num`, which advances by one: `hardLimit`, `clampAbsolute`,
`invProportionalGain`, `isControlling`, `slewIsLow`, `activeCount`,
`timeCorrection`, the correction ring (`correctionFifo`,
`correctionFifoCount`, `correctionAccum`, `correctionFifo_idx`,
`avgCorrection`), the integrals (`integral`, `avgIntegral`, `integralCount`,
`integralTimeCorrection`) and `freqOffset`; the noise averages `rawErrorAvg`
and `noiseLevel` are unchanged and `nDelaySpikes` advances by one. -/
theorem spike_second_frame (g : G) (pps_t : timeval) (clk : ClockReadings)
    (h : (makeTimeCorrection g pps_t clk).1.isDelaySpike = true) :
    (removeNoise (makeTimeCorrection.sample g pps_t clk)
        (makeTimeCorrection.sample g pps_t clk).rawError).2 = 0
    ∧ (makeTimeCorrection g pps_t clk).1.zeroError = 0
    ∧ (makeTimeCorrection g pps_t clk).1.servo = { g.servo with seq_num := g.seq_num + 1 }
    ∧ logExtends g (makeTimeCorrection g pps_t clk).1
    ∧ (makeTimeCorrection g pps_t clk).1.nDelaySpikes = g.nDelaySpikes + 1
    ∧ (makeTimeCorrection g pps_t clk).1.rawErrorAvg = g.rawErrorAvg
    ∧ (makeTimeCorrection g pps_t clk).1.noiseLevel = g.noiseLevel := by
  have hrn := h
  rw [makeTimeCorrection_isDelaySpike] at hrn
  have hfr := hrn
  rw [removeNoise_isDelaySpike] at hfr
  have e := makeTimeCorrection_of_spike g pps_t clk hrn
  have er := removeNoise_of_spike _ _ hfr
  obtain ⟨s1, s2⟩ := removeNoise_servo_of_spike _ _ hfr
  obtain ⟨f1, f2, f3, f4⟩ := makeTimeCorrection_spike_fields g pps_t clk
  rw [f1] at h
  obtain ⟨hl, hn⟩ := detectDelaySpike_flagged _ _ h
  obtain ⟨d1, d2, _, _⟩ := detectDelaySpike_of_limit _ _ hl
  obtain ⟨n1, n2⟩ := detectDelaySpike_of_limit_streak _ _ hl
  have hst := spikeInput_streak g pps_t clk
  have k1 := congrArg StreakFrame.nDelaySpikes hst
  have k2 := congrArg StreakFrame.rawErrorAvg hst
  have k3 := congrArg StreakFrame.noiseLevel hst
  simp only [G.streak] at k1 k2 k3
  have hff := makeTimeCorrection_front_fields g pps_t clk
  have a1 := congrArg FrontFrame.rawErrorAvg hff
  have a2 := congrArg FrontFrame.noiseLevel hff
  simp only [G.front] at a1 a2
  obtain ⟨_, _, q3⟩ := removeNoise_front_spike_fields (makeTimeCorrection.sample g pps_t clk)
    (makeTimeCorrection.sample g pps_t clk).rawError
  have b1 := congrArg StreakFrame.rawErrorAvg q3
  have b2 := congrArg StreakFrame.noiseLevel q3
  simp only [G.streak] at b1 b2
  refine ⟨s2, ?_, ?_, ?_, ?_, ?_, ?_⟩
  · rw [e]
    have := congrArg FrontFrame.zeroError (savePPStime_front
      { (removeNoise (makeTimeCorrection.sample g pps_t clk)
          (makeTimeCorrection.sample g pps_t clk).rawError).1 with
        zeroError := (removeNoise (makeTimeCorrection.sample g pps_t clk)
          (makeTimeCorrection.sample g pps_t clk).rawError).2 } 0 clk.tod_sec)
    simp only [G.front] at this
    rw [this]
    exact s2
  · exact makeTimeCorrection_servo_of_spike g pps_t clk
      (by rw [makeTimeCorrection_isDelaySpike]; exact hrn)
  · rw [e]
    refine logExtends_trans (makeTimeCorrection_sample_log g pps_t clk) (logExtends_of_eq ?_)
    rw [savePPStime_sysLog]
    show (removeNoise _ _).1.sysLog = _
    rw [er]
    exact removeNoise_front_sysLog _ _
  · rw [f2, d2, k1, if_pos (by rw [← k1]; exact hn)]
  · rw [a1, er]
    show (removeNoise.front _ _).rawErrorAvg = _
    unfold spikeInput at n1 k2
    rw [b1, n1]
    exact k2
  · rw [a2, er]
    show (removeNoise.front _ _).noiseLevel = _
    unfold spikeInput at n2 k3
    rw [b2, n2]
    exact k3

/-- C7, amended, applied to the locked state with a pending whole-second
correction and a raw error of 100. -/
theorem spike_second_frame_witness :
    (makeTimeCorrection pendingSetState ⟨0, 107⟩ ⟨0, 0, 0⟩).1.zeroError = 0
    ∧ (makeTimeCorrection pendingSetState ⟨0, 107⟩ ⟨0, 0, 0⟩).1.servo
        = { pendingSetState.servo with seq_num := pendingSetState.seq_num + 1 }
    ∧ logExtends pendingSetState (makeTimeCorrection pendingSetState ⟨0, 107⟩ ⟨0, 0, 0⟩).1 :=
  ⟨(spike_second_frame pendingSetState ⟨0, 107⟩ ⟨0, 0, 0⟩ (by decide!)).2.1,
    (spike_second_frame pendingSetState ⟨0, 107⟩ ⟨0, 0, 0⟩ (by decide!)).2.2.1,
    (spike_second_frame pendingSetState ⟨0, 107⟩ ⟨0, 0, 0⟩ (by decide!)).2.2.2.1⟩

/-! ## Acquisition and the proportional gain (C8, C9) -/

theorem getAcquireState_fst (g : G) :
    (getAcquireState g).1 = { g with slewIsLow := (getAcquireState g).1.slewIsLow } := by
  unfold getAcquireState
  simp only []
  split_ifs <;> rfl

theorem makeTimeCorrection_lock_of_not_spike (g : G) (p : timeval) (c : ClockReadings)
    (h : (makeTimeCorrection g p c).1.isDelaySpike = false) :
    (makeTimeCorrection g p c).1.seq_num = g.seq_num + 1
    ∧ (makeTimeCorrection g p c).1.invProportionalGain
        = (if g.isControlling = true then INV_GAIN_1 else g.invProportionalGain)
    ∧ (g.slewIsLow = true → (makeTimeCorrection g p c).1.slewIsLow = true)
    ∧ (makeTimeCorrection g p c).1.isControlling
        = ((makeTimeCorrection g p c).1.slewIsLow
            && decide (SECS_PER_MINUTE ≤ ((g.seq_num + 1 : Nat) : Int))) := by
  rw [makeTimeCorrection_isDelaySpike] at h
  have hfr := h
  rw [removeNoise_isDelaySpike] at hfr
  have hs := removeNoise_servo_of_not_spike _ _ hfr
  rw [makeTimeCorrection_sample_servo] at hs
  have s1 := congrArg ServoFrame.seq_num hs
  have s2 := congrArg ServoFrame.invProportionalGain hs
  have s3 := congrArg ServoFrame.slewIsLow hs
  simp only [G.servo] at s1 s2 s3
  rw [makeTimeCorrection_of_not_spike g p c h]
  have hf := makeTimeCorrection_correct_front
    { (removeNoise (makeTimeCorrection.sample g p c)
        (makeTimeCorrection.sample g p c).rawError).1 with
      zeroError := (removeNoise (makeTimeCorrection.sample g p c)
        (makeTimeCorrection.sample g p c).rawError).2 } c
  have f1 := congrArg FrontFrame.seq_num hf
  have f2 := congrArg FrontFrame.invProportionalGain hf
  have f3 := congrArg FrontFrame.slewIsLow hf
  have f4 := congrArg FrontFrame.isControlling hf
  simp only [G.front] at f1 f2 f3 f4
  have t := makeTimeCorrection_sample_servo g p c
  have t1 := congrArg ServoFrame.isControlling t
  have t2 := congrArg ServoFrame.invProportionalGain t
  simp only [G.servo] at t1 t2
  rw [t1, t2] at s2
  refine ⟨f1.trans s1, f2.trans s2, ?_, ?_⟩
  · intro hl
    rw [f3, getAcquireState_slewIsLow]
    exact Bool.or_eq_true_iff.mpr (Or.inl (s3.trans hl))
  · rw [f4, getAcquireState_snd, f3]
    exact congrArg (fun n : Nat => ((getAcquireState _).1.slewIsLow
      && decide (SECS_PER_MINUTE ≤ (n : Int)))) s1

theorem lockInvariant_step (g : G) (p : timeval) (c : ClockReadings) (h : lockInvariant g) :
    lockInvariant (makeTimeCorrection g p c).1 := by
  obtain ⟨h1, h2, h3⟩ := h
  cases hs : (makeTimeCorrection g p c).1.isDelaySpike
  · obtain ⟨e1, e2, e3, e4⟩ := makeTimeCorrection_lock_of_not_spike g p c hs
    have hc : g.isControlling = true → (makeTimeCorrection g p c).1.isControlling = true := by
      intro hg
      obtain ⟨a, b⟩ := h1 hg
      rw [e4, e3 a]
      simp only [SECS_PER_MINUTE, Bool.true_and, decide_eq_true_eq]
      omega
    refine ⟨?_, ?_, ?_⟩
    · intro hi
      rw [e4] at hi
      simp only [Bool.and_eq_true, decide_eq_true_eq, SECS_PER_MINUTE] at hi
      rw [e1]
      exact ⟨hi.1, by omega⟩
    · rw [e2]
      split_ifs with hg
      · left; rfl
      · rcases h2 with h2 | h2
        · exact absurd (h3 h2) hg
        · right; exact h2
    · rw [e2]
      split_ifs with hg
      · intro _; exact hc hg
      · intro h4
        exact absurd (h3 h4) hg
  · have e := makeTimeCorrection_servo_of_spike g p c hs
    have e1 := congrArg ServoFrame.seq_num e
    have e2 := congrArg ServoFrame.isControlling e
    have e3 := congrArg ServoFrame.slewIsLow e
    have e4 := congrArg ServoFrame.invProportionalGain e
    simp only [G.servo] at e1 e2 e3 e4
    refine ⟨?_, ?_, ?_⟩
    · rw [e1, e2, e3]
      intro hi
      obtain ⟨a, b⟩ := h1 hi
      exact ⟨a, by omega⟩
    · rw [e4]; exact h2
    · rw [e4, e2]; exact h3

theorem runSeconds_append (g : G) (a b : List (timeval × ClockReadings)) :
    runSeconds g (a ++ b) = runSeconds (runSeconds g a) b := by
  unfold runSeconds
  rw [List.foldl_append]

theorem runSeconds_cons (g : G) (i : timeval × ClockReadings)
    (l : List (timeval × ClockReadings)) :
    runSeconds g (i :: l) = runSeconds (makeTimeCorrection g i.1 i.2).1 l := rfl

theorem lockInvariant_run (g : G) (inputs : List (timeval × ClockReadings))
    (h : lockInvariant g) : lockInvariant (runSeconds g inputs) := by
  induction inputs generalizing g with
  | nil => exact h
  | cons i l ih =>
    rw [runSeconds_cons]
    exact ih _ (lockInvariant_step g i.1 i.2 h)

theorem lockInvariant_initializeController (g : G) (c : Configs) :
    lockInvariant (initializeController g c).1 := by
  have hs := initializeController_servo g c
  have h1 := congrArg ServoFrame.isControlling hs
  have h2 := congrArg ServoFrame.invProportionalGain hs
  simp only [G.servo] at h1 h2
  refine ⟨?_, ?_, ?_⟩
  · intro h; rw [h1] at h; exact absurd h (by decide)
  · right; rw [h2]; rfl
  · intro h; rw [h2] at h; exact absurd h (by decide)

theorem makeTimeCorrection_slewIsLow_mono (g : G) (p : timeval) (c : ClockReadings)
    (h : g.slewIsLow = true) : (makeTimeCorrection g p c).1.slewIsLow = true := by
  cases hs : (makeTimeCorrection g p c).1.isDelaySpike
  · exact (makeTimeCorrection_lock_of_not_spike g p c hs).2.2.1 h
  · have e := congrArg ServoFrame.slewIsLow (makeTimeCorrection_servo_of_spike g p c hs)
    simp only [G.servo] at e
    rw [e]
    exact h

theorem runSeconds_slewIsLow_mono (g : G) (inputs : List (timeval × ClockReadings))
    (h : g.slewIsLow = true) : (runSeconds g inputs).slewIsLow = true := by
  induction inputs generalizing g with
  | nil => exact h
  | cons i l ih =>
    rw [runSeconds_cons]
    exact ih _ (makeTimeCorrection_slewIsLow_mono g i.1 i.2 h)

theorem makeTimeCorrection_isControlling_mono (g : G) (p : timeval) (c : ClockReadings)
    (h1 : g.isControlling = true) (h2 : g.slewIsLow = true) (h3 : 60 ≤ g.seq_num) :
    (makeTimeCorrection g p c).1.isControlling = true
    ∧ (makeTimeCorrection g p c).1.slewIsLow = true
    ∧ 60 ≤ (makeTimeCorrection g p c).1.seq_num := by
  cases hs : (makeTimeCorrection g p c).1.isDelaySpike
  · obtain ⟨e1, _, e3, e4⟩ := makeTimeCorrection_lock_of_not_spike g p c hs
    refine ⟨?_, e3 h2, by omega⟩
    rw [e4, e3 h2]
    simp only [SECS_PER_MINUTE, Bool.true_and, decide_eq_true_eq]
    omega
  · have e := makeTimeCorrection_servo_of_spike g p c hs
    have e1 := congrArg ServoFrame.seq_num e
    have e2 := congrArg ServoFrame.isControlling e
    have e3 := congrArg ServoFrame.slewIsLow e
    simp only [G.servo] at e1 e2 e3
    rw [e1, e2, e3]
    exact ⟨h1, h2, by omega⟩

theorem runSeconds_isControlling_mono (g : G) (inputs : List (timeval × ClockReadings))
    (h1 : g.isControlling = true) (h2 : g.slewIsLow = true) (h3 : 60 ≤ g.seq_num) :
    (runSeconds g inputs).isControlling = true := by
  induction inputs generalizing g with
  | nil => exact h1
  | cons i l ih =>
    rw [runSeconds_cons]
    obtain ⟨a, b, d⟩ := makeTimeCorrection_isControlling_mono g i.1 i.2 h1 h2 h3
    exact ih _ a b d

/-- C8: `getAcquireState` changes `slewIsLow` only, setting it exactly when
it was already set or the slew accumulator is empty (`slewAccum_cnt == 0`)
and `|avgSlew| < SLEW_MAX` (300), and it returns true exactly when `slewIsLow`
(after latching) holds and `seq_num >= 60`.  Along every sequence of
`makeTimeCorrection` steps, a `slewIsLow` that is true stays true; an
`isControlling` that is true stays true in every state in which it holds
together with `slewIsLow` and `seq_num >= 60`, as it does whenever a step has
set it, and so in every state reached from `initialize` by
`makeTimeCorrection` steps. -/
theorem acquire_state_latches (g g0 : G) (c : Configs)
    (inputs before after : List (timeval × ClockReadings)) :
    (getAcquireState g).1
        = { g with slewIsLow := (g.slewIsLow
              || (decide (g.slewAccum_cnt = 0) && decide (|g.avgSlew| < SLEW_MAX))) }
    ∧ (getAcquireState g).2
        = ((g.slewIsLow || (decide (g.slewAccum_cnt = 0) && decide (|g.avgSlew| < SLEW_MAX)))
            && decide (SECS_PER_MINUTE ≤ (g.seq_num : Int)))
    ∧ (g.slewIsLow = true → (runSeconds g inputs).slewIsLow = true)
    ∧ (g.isControlling = true → g.slewIsLow = true → 60 ≤ g.seq_num →
        (runSeconds g inputs).isControlling = true)
    ∧ ((runSeconds (initializeController g0 c).1 before).isControlling = true →
        (runSeconds (initializeController g0 c).1 (before ++ after)).isControlling = true) := by
  refine ⟨?_, ?_, runSeconds_slewIsLow_mono g inputs,
    runSeconds_isControlling_mono g inputs, ?_⟩
  · rw [← getAcquireState_slewIsLow]
    exact getAcquireState_fst g
  · rw [← getAcquireState_slewIsLow]
    exact getAcquireState_snd g
  · intro h
    rw [runSeconds_append]
    have hi := lockInvariant_run _ before (lockInvariant_initializeController g0 c)
    obtain ⟨a, b⟩ := hi.1 h
    exact runSeconds_isControlling_mono _ after h a b

theorem acquire_state_latches_witness :
    lockedState.slewIsLow = true
    ∧ lockedState.isControlling = true
    ∧ 60 ≤ lockedState.seq_num
    ∧ (runSeconds (initializeController G.startup exampleConfigs).1 quietMinute).isControlling
        = true
    ∧ (runSeconds lockedState spikeBurst).slewIsLow = true
    ∧ (runSeconds lockedState spikeBurst).isControlling = true
    ∧ (runSeconds (initializeController G.startup exampleConfigs).1
        (quietMinute ++ spikeBurst)).isControlling = true :=
  have h1 : lockedState.slewIsLow = true := by decide!
  have h2 : lockedState.isControlling = true := by decide!
  have h3 : 60 ≤ lockedState.seq_num := by decide!
  have h4 : (runSeconds (initializeController G.startup exampleConfigs).1
      quietMinute).isControlling = true := by decide!
  have t := acquire_state_latches lockedState G.startup exampleConfigs spikeBurst
    quietMinute spikeBurst
  ⟨h1, h2, h3, h4, t.2.2.1 h1, t.2.2.2.1 h2 h1 h3, t.2.2.2.2 h4⟩

/-- C9: in every state reached from `initialize` by `makeTimeCorrection`
steps, `invProportionalGain` is 1 (`INV_GAIN_1`) or 4 (`INV_GAIN_0`), a gain of 1
implies that `isControlling` is true, and the gain is 4 in every such state
in which `isControlling` is not true, hence for as long as `isControlling`
has never been true. -/
theorem gain_is_1_or_4_on_reachable_states (g0 : G) (c : Configs)
    (inputs : List (timeval × ClockReadings)) :
    ((runSeconds (initializeController g0 c).1 inputs).invProportionalGain = 1
      ∨ (runSeconds (initializeController g0 c).1 inputs).invProportionalGain = 4)
    ∧ ((runSeconds (initializeController g0 c).1 inputs).invProportionalGain = 1 →
        (runSeconds (initializeController g0 c).1 inputs).isControlling = true)
    ∧ ((runSeconds (initializeController g0 c).1 inputs).isControlling = false →
        (runSeconds (initializeController g0 c).1 inputs).invProportionalGain = 4) := by
  have hi := lockInvariant_run _ inputs (lockInvariant_initializeController g0 c)
  refine ⟨hi.2.1, hi.2.2, ?_⟩
  intro h
  rcases hi.2.1 with h1 | h4
  · rw [hi.2.2 h1] at h
    exact absurd h (by decide)
  · exact h4

theorem gain_is_1_or_4_on_reachable_states_witness :
    (runSeconds (initializeController G.startup exampleConfigs).1
        (quietMinute ++ [(⟨0, 7⟩, ⟨0, 0, 0⟩)])).invProportionalGain = 1
    ∧ (runSeconds (initializeController G.startup exampleConfigs).1
        (quietMinute ++ [(⟨0, 7⟩, ⟨0, 0, 0⟩)])).isControlling = true
    ∧ (runSeconds (initializeController G.startup exampleConfigs).1
        [(⟨0, 7⟩, ⟨0, 0, 0⟩)]).isControlling = false
    ∧ (runSeconds (initializeController G.startup exampleConfigs).1
        [(⟨0, 7⟩, ⟨0, 0, 0⟩)]).invProportionalGain = 4 :=
  have h1 : (runSeconds (initializeController G.startup exampleConfigs).1
      (quietMinute ++ [(⟨0, 7⟩, ⟨0, 0, 0⟩)])).invProportionalGain = 1 := by decide!
  have h2 : (runSeconds (initializeController G.startup exampleConfigs).1
      [(⟨0, 7⟩, ⟨0, 0, 0⟩)]).isControlling = false := by decide!
  ⟨h1,
    (gain_is_1_or_4_on_reachable_states G.startup exampleConfigs
      (quietMinute ++ [(⟨0, 7⟩, ⟨0, 0, 0⟩)])).2.1 h1,
    h2,
    (gain_is_1_or_4_on_reachable_states G.startup exampleConfigs
      [(⟨0, 7⟩, ⟨0, 0, 0⟩)]).2.2 h2⟩

/-! ## The set-offset request of `setClockFractionalSecond` (C10) -/

/-- C10, as stated, fails at the correction 0: `setClockFractionalSecond(0)`
writes the pair (-1, 1000000) into the set-offset request, and 1000000 is not
below 1000000. -/
theorem setClockFractionalSecond_zero_counterexample :
    (setClockFractionalSecond startState 0).t3.time_tv_sec = -1
    ∧ (setClockFractionalSecond startState 0).t3.time_tv_usec = 1000000
    ∧ ¬ ((setClockFractionalSecond startState 0).t3.time_tv_usec < 1000000)
    ∧ (setClockFractionalSecond startState 0).sysLog
        = startState.sysLog
          ++ [SysCall.adjtimex ⟨ADJ_SETOFFSET + ADJ_STATUS, 0, 0, STA_PLL, -1, 1000000⟩] := by
  decide!

/-- C10, amended: for every correction `c` with `0 < c < 2000000`,
`setClockFractionalSecond(c)` issues exactly one request, a set-offset
request (`ADJ_SETOFFSET | ADJ_STATUS`, status `STA_PLL`) whose pair
`(dsec, dusec)` satisfies `dsec * 1000000 + dusec ≡ -c (mod 1000000)` and
`0 <= dusec < 1000000`; `dsec` is 0 or -1. -/
theorem setClockFractionalSecond_request (g : G) (c : Int) (h0 : 0 < c) (h1 : c < 2000000) :
    (setClockFractionalSecond g c).sysLog
        = g.sysLog ++ [SysCall.adjtimex (setClockFractionalSecond g c).t3]
    ∧ (setClockFractionalSecond g c).t3.modes = ADJ_SETOFFSET + ADJ_STATUS
    ∧ (setClockFractionalSecond g c).t3.status = STA_PLL
    ∧ ((setClockFractionalSecond g c).t3.time_tv_sec * 1000000
          + (setClockFractionalSecond g c).t3.time_tv_usec) % 1000000 = (-c) % 1000000
    ∧ 0 ≤ (setClockFractionalSecond g c).t3.time_tv_usec
    ∧ (setClockFractionalSecond g c).t3.time_tv_usec < 1000000
    ∧ ((setClockFractionalSecond g c).t3.time_tv_sec = 0
        ∨ (setClockFractionalSecond g c).t3.time_tv_sec = -1) := by
  unfold setClockFractionalSecond adjtimex
  simp only [decide_eq_true_eq, USECS_PER_SEC]
  split_ifs with ha hb
  · refine ⟨rfl, rfl, rfl, ?_, ?_, ?_, Or.inr rfl⟩
    · show (-1 * 1000000 + (1000000 - c)) % 1000000 = (-c) % 1000000
      congr 1; ring
    · show 0 ≤ 1000000 - c
      omega
    · show 1000000 - c < 1000000
      omega
  · refine ⟨rfl, rfl, rfl, ?_, ?_, ?_, Or.inr rfl⟩
    · show (-1 * 1000000 + (2 * 1000000 - c)) % 1000000 = (-c) % 1000000
      omega
    · show 0 ≤ 2 * 1000000 - c
      omega
    · show 2 * 1000000 - c < 1000000
      omega
  · refine ⟨rfl, rfl, rfl, ?_, ?_, ?_, Or.inl rfl⟩
    · show (0 * 1000000 + (1000000 - c)) % 1000000 = (-c) % 1000000
      omega
    · show 0 ≤ 1000000 - c
      omega
    · show 1000000 - c < 1000000
      omega

theorem setClockFractionalSecond_request_witness :
    (0 : Int) < 250000 ∧ (250000 : Int) < 2000000
    ∧ (setClockFractionalSecond startState 250000).t3.time_tv_sec = -1
    ∧ (setClockFractionalSecond startState 250000).t3.time_tv_usec = 750000
    ∧ ((setClockFractionalSecond startState 250000).t3.time_tv_sec * 1000000
          + (setClockFractionalSecond startState 250000).t3.time_tv_usec) % 1000000
        = (-250000) % 1000000 :=
  ⟨by decide, by decide, by decide!, by decide!,
    (setClockFractionalSecond_request startState 250000 (by decide) (by decide)).2.2.2.1⟩

/-! ## The request of `setClockFractionalSecond`, case by case (C11) -/

/-- C11: for every correction `c`, in particular for every `c` with
`0 <= c < 2000000`, `setClockFractionalSecond(c)` requests the pair
`(dsec, dusec) = (-1, 1000000 - c)` if `c < 500000`, `(-1, 2000000 - c)` if
`c > 1000000` and `(0, 1000000 - c)` otherwise, and it records that request;
`c = 400000` gives `(-1, 600000)`, `c = 600000` gives `(0, 400000)` and
`c = 1200000` gives `(-1, 800000)`. -/
theorem setClockFractionalSecond_cases (g : G) (c : Int) :
    ((setClockFractionalSecond g c).t3.time_tv_sec, (setClockFractionalSecond g c).t3.time_tv_usec)
        = (if c < 500000 then (-1, 1000000 - c)
           else if c > 1000000 then (-1, 2000000 - c)
           else (0, 1000000 - c))
    ∧ (setClockFractionalSecond g c).sysLog
        = g.sysLog ++ [SysCall.adjtimex (setClockFractionalSecond g c).t3]
    ∧ ((setClockFractionalSecond g 400000).t3.time_tv_sec,
        (setClockFractionalSecond g 400000).t3.time_tv_usec) = (-1, 600000)
    ∧ ((setClockFractionalSecond g 600000).t3.time_tv_sec,
        (setClockFractionalSecond g 600000).t3.time_tv_usec) = (0, 400000)
    ∧ ((setClockFractionalSecond g 1200000).t3.time_tv_sec,
        (setClockFractionalSecond g 1200000).t3.time_tv_usec) = (-1, 800000) := by
  refine ⟨?_, ?_, rfl, rfl, rfl⟩
  · unfold setClockFractionalSecond adjtimex
    simp only [decide_eq_true_eq, USECS_PER_SEC]
    split_ifs <;> rfl
  · unfold setClockFractionalSecond adjtimex
    simp only [decide_eq_true_eq, USECS_PER_SEC]
    split_ifs <;> rfl

/-! ## The fractional-second correction and the raw error (C12) -/

/-- C12, the code at a failing input: in a locked state whose clock second
differs from the counter of seconds, a timestamp of 250007 microseconds makes
`doTimeFixups` issue the fractional-second correction for `c = 250007` (the
set-offset request `(-1, 749993)`, followed by the stop of the system time
service), and `correctFractionalSecond` returns the timestamp with
`tv_usec = 0`; yet the raw error of that same call of `makeTimeCorrection` is
`signedFractionalSeconds(250007 - 7) = 250000`, computed from the timestamp as
observed, not `signedFractionalSeconds(0 - 7) = -7`: `doTimeFixups` receives
`pps_t` by value, so the subtraction is made on its copy. -/
theorem rawError_ignores_fractional_correction :
    jumpState.isControlling = true ∧ jumpState.startingFromRestore = 0
    ∧ jumpState.zeroOffset = 7
    ∧ (correctFractionalSecond jumpState ⟨0, 250007⟩).2.1.tv_usec = 0
    ∧ (makeTimeCorrection.sample jumpState ⟨0, 250007⟩ ⟨0, 0, 0⟩).sysLog
        = jumpState.sysLog
          ++ [SysCall.adjtimex ⟨ADJ_SETOFFSET + ADJ_STATUS, 0, 0, STA_PLL, -1, 749993⟩,
              SysCall.stopTimesyncd]
    ∧ (makeTimeCorrection.sample jumpState ⟨0, 250007⟩ ⟨0, 0, 0⟩).rawError = 250000
    ∧ (makeTimeCorrection jumpState ⟨0, 250007⟩ ⟨0, 0, 0⟩).1.rawError = 250000
    ∧ signedFractionalSeconds ((250007 - 250007) - jumpState.zeroOffset) = -7 := by
  decide!

/-! ## Detection of an external clock change (C13) -/

/-- C13: `detectExteralSystemClockChange` returns true exactly when
`startingFromRestore == 0`, `isControlling`, `seq_num > 10`, `|avgSlew| < 300`
and (`t_now != t_count`, or `hardLimit == 1` with `clockChanged` set); when it
returns true, `t_count == t_now` afterwards (`t_now` being unchanged), and
when it returns false the state is unchanged. -/
theorem detectExteralSystemClockChange_spec (g : G) (pps_t : timeval) :
    ((detectExteralSystemClockChange g pps_t).2 = true ↔
        (g.startingFromRestore = 0 ∧ g.isControlling = true ∧ 10 < g.seq_num
          ∧ |g.avgSlew| < 300
          ∧ (g.t_now ≠ g.t_count ∨ (g.hardLimit = 1 ∧ g.clockChanged = true))))
    ∧ ((detectExteralSystemClockChange g pps_t).2 = true →
        (detectExteralSystemClockChange g pps_t).1.t_count
            = (detectExteralSystemClockChange g pps_t).1.t_now
          ∧ (detectExteralSystemClockChange g pps_t).1.t_now = g.t_now)
    ∧ ((detectExteralSystemClockChange g pps_t).2 = false →
        (detectExteralSystemClockChange g pps_t).1 = g) := by
  unfold detectExteralSystemClockChange
  simp only [SLEW_LEN, SLEW_MAX, HARD_LIMIT_1]
  split_ifs with h1 h2 h3 h4 <;>
    simp_all [Int.cast_ofNat]

theorem detectExteralSystemClockChange_spec_witness :
    (detectExteralSystemClockChange jumpState ⟨0, 0⟩).2 = true
    ∧ (detectExteralSystemClockChange jumpState ⟨0, 0⟩).1.t_count
        = (detectExteralSystemClockChange jumpState ⟨0, 0⟩).1.t_now
    ∧ (detectExteralSystemClockChange jumpState ⟨0, 0⟩).1.t_now = 1000
    ∧ (detectExteralSystemClockChange startState ⟨0, 0⟩).2 = false
    ∧ (detectExteralSystemClockChange startState ⟨0, 0⟩).1 = startState :=
  have h1 : (detectExteralSystemClockChange jumpState ⟨0, 0⟩).2 = true := by decide!
  have h2 : (detectExteralSystemClockChange startState ⟨0, 0⟩).2 = false := by decide!
  ⟨h1, ((detectExteralSystemClockChange_spec jumpState ⟨0, 0⟩).2.1 h1).1,
    ((detectExteralSystemClockChange_spec jumpState ⟨0, 0⟩).2.1 h1).2.trans (by decide!), h2,
    (detectExteralSystemClockChange_spec startState ⟨0, 0⟩).2.2 h2⟩

/-! ## The restart decision of `readPPS_SetTime` (C14) -/

theorem makeTimeCorrection_snd (g : G) (p : timeval) (c : ClockReadings) :
    (makeTimeCorrection g p c).2 = 0 := by
  unfold makeTimeCorrection makeTimeCorrection.correct
  simp only []
  split_ifs <;> rfl

theorem readPPS_SetTime_of_read (g : G) (c : Configs) (rv : Int) (tm : timeval) (nearest : Int)
    (t_mono : timespec) (clk : ClockReadings) (hrv : 0 ≤ rv) :
    readPPS_SetTime g c rv tm nearest t_mono clk
      = readPPS_SetTime.restart (readPPS_SetTime.corrected g tm nearest t_mono clk) c := by
  unfold readPPS_SetTime readPPS_SetTime.corrected
  simp only []
  rw [if_neg (by simpa using hrv), if_neg (by rw [makeTimeCorrection_snd]; decide)]

/-- C14: after a successful PPS read (`rv >= 0`), `readPPS_SetTime`
reinitialises the controller and returns 1 exactly when, on the state left by
`makeTimeCorrection`, either `startingFromRestore == 0` and (`isControlling`
is false and `seq_num >= 60`, or `isControlling` and `hardLimit > 1024` and
`|avgSlew| > 300`), or `startingFromRestore != 0` and `isControlling` and
`|avgSlew| > 300`; otherwise it returns 0 and leaves the state of
`makeTimeCorrection` as it is. -/
theorem readPPS_SetTime_restart_iff (g : G) (c : Configs) (rv : Int) (tm : timeval)
    (nearest : Int) (t_mono : timespec) (clk : ClockReadings) (hrv : 0 ≤ rv) :
    ((readPPS_SetTime g c rv tm nearest t_mono clk).2 = 1 ↔
        (((readPPS_SetTime.corrected g tm nearest t_mono clk).startingFromRestore = 0
            ∧ (((readPPS_SetTime.corrected g tm nearest t_mono clk).isControlling = false
                  ∧ 60 ≤ (readPPS_SetTime.corrected g tm nearest t_mono clk).seq_num)
                ∨ ((readPPS_SetTime.corrected g tm nearest t_mono clk).isControlling = true
                  ∧ 1024 < (readPPS_SetTime.corrected g tm nearest t_mono clk).hardLimit
                  ∧ 300 < |(readPPS_SetTime.corrected g tm nearest t_mono clk).avgSlew|)))
          ∨ ((readPPS_SetTime.corrected g tm nearest t_mono clk).startingFromRestore ≠ 0
            ∧ (readPPS_SetTime.corrected g tm nearest t_mono clk).isControlling = true
            ∧ 300 < |(readPPS_SetTime.corrected g tm nearest t_mono clk).avgSlew|)))
    ∧ ((readPPS_SetTime g c rv tm nearest t_mono clk).2 = 1 →
        (readPPS_SetTime g c rv tm nearest t_mono clk).1
          = (initializeController (readPPS_SetTime.corrected g tm nearest t_mono clk) c).1)
    ∧ ((readPPS_SetTime g c rv tm nearest t_mono clk).2 ≠ 1 →
        (readPPS_SetTime g c rv tm nearest t_mono clk).2 = 0
          ∧ (readPPS_SetTime g c rv tm nearest t_mono clk).1
              = readPPS_SetTime.corrected g tm nearest t_mono clk) := by
  rw [readPPS_SetTime_of_read g c rv tm nearest t_mono clk hrv]
  generalize readPPS_SetTime.corrected g tm nearest t_mono clk = g1
  unfold readPPS_SetTime.restart
  simp only [SECS_PER_MINUTE, HARD_LIMIT_1024, SLEW_MAX]
  split_ifs with h1 h2 h3 <;> simp_all [Int.cast_ofNat, and_assoc]

theorem readPPS_SetTime_restart_iff_witness :
    (0 : Int) ≤ 0
    ∧ (readPPS_SetTime lostLockState exampleConfigs 0 ⟨0, 7⟩ 0 ⟨0, 0⟩ ⟨0, 0, 0⟩).2 = 1
    ∧ (readPPS_SetTime lostLockState exampleConfigs 0 ⟨0, 7⟩ 0 ⟨0, 0⟩ ⟨0, 0, 0⟩).1
        = (initializeController
            (readPPS_SetTime.corrected lostLockState ⟨0, 7⟩ 0 ⟨0, 0⟩ ⟨0, 0, 0⟩) exampleConfigs).1
    ∧ (readPPS_SetTime startState exampleConfigs 0 ⟨0, 7⟩ 0 ⟨0, 0⟩ ⟨0, 0, 0⟩).2 = 0
    ∧ (readPPS_SetTime startState exampleConfigs 0 ⟨0, 7⟩ 0 ⟨0, 0⟩ ⟨0, 0, 0⟩).1
        = readPPS_SetTime.corrected startState ⟨0, 7⟩ 0 ⟨0, 0⟩ ⟨0, 0, 0⟩ :=
  have h1 : (readPPS_SetTime lostLockState exampleConfigs 0 ⟨0, 7⟩ 0 ⟨0, 0⟩ ⟨0, 0, 0⟩).2 = 1 := by
    decide!
  have h2 : (readPPS_SetTime startState exampleConfigs 0 ⟨0, 7⟩ 0 ⟨0, 0⟩ ⟨0, 0, 0⟩).2 ≠ 1 := by
    decide!
  ⟨by decide, h1,
    (readPPS_SetTime_restart_iff lostLockState exampleConfigs 0 ⟨0, 7⟩ 0 ⟨0, 0⟩ ⟨0, 0, 0⟩
      (by decide)).2.1 h1,
    ((readPPS_SetTime_restart_iff startState exampleConfigs 0 ⟨0, 7⟩ 0 ⟨0, 0⟩ ⟨0, 0, 0⟩
      (by decide)).2.2 h2).1,
    ((readPPS_SetTime_restart_iff startState exampleConfigs 0 ⟨0, 7⟩ 0 ⟨0, 0⟩ ⟨0, 0, 0⟩
      (by decide)).2.2 h2).2⟩

/-! ## The state left by a restart (C15) -/

theorem getConfigs_noise (g : G) (c : Configs) : (getConfigs g c).noise = g.noise := by
  unfold getConfigs getConfigs.values getConfigs.distribs
  simp only []
  split_ifs <;> rfl

theorem initializeController_cpu_noise (g : G) (c : Configs) :
    (initializeController.cpu g c).noise = g.noise := by
  unfold initializeController.cpu
  simp only []
  split_ifs <;> rfl

theorem initializeController_noise (g : G) (c : Configs) :
    (initializeController g c).1.noiseLevel = 0
    ∧ (initializeController g c).1.avgSlew = 0
    ∧ (initializeController g c).1.rawErrorAvg = g.rawErrorAvg
    ∧ (initializeController g c).1.sysLog
        = g.sysLog ++ [SysCall.adjtimex ⟨ADJ_FREQUENCY, 0, 0, 0, 0, 0⟩] := by
  have h : (initializeController g c).1.noise
      = (0, 0, g.rawErrorAvg, g.sysLog ++ [SysCall.adjtimex ⟨ADJ_FREQUENCY, 0, 0, 0, 0, 0⟩]) := by
    unfold initializeController
    simp only []
    rw [initializeController_cpu_noise, getConfigs_noise]
    rfl
  have h1 := congrArg Prod.fst h
  have h2 := congrArg (fun x => x.2.1) h
  have h3 := congrArg (fun x => x.2.2.1) h
  have h4 := congrArg (fun x => x.2.2.2) h
  exact ⟨h1, h2, h3, h4⟩

/-- C15, as stated, fails: one second after the start the running average
`rawErrorAvg` is 10, and a restart leaves it at 10, not at 0. -/
theorem initialize_keeps_rawErrorAvg_counterexample :
    oneSecondState.rawErrorAvg = 10
    ∧ (initializeController oneSecondState exampleConfigs).1.rawErrorAvg = 10
    ∧ (initializeController oneSecondState exampleConfigs).1.rawErrorAvg ≠ 0 := by
  decide!

/-- C15, amended: a restart (`initialize`) returns the members of the
controller state to their start-up values: `seq_num = 0`, `activeCount = 0`,
`isControlling = false`, `slewIsLow = false`, `hardLimit = 32768`,
`invProportionalGain = 4`, the correction ring with its sum, count and index
zeroed, all ten integrals, `avgIntegral` and `integralCount` zeroed,
`freqOffset = 0` with a zero frequency request issued, `noiseLevel = 0` and
`avgSlew = 0`; the file-scope average `rawErrorAvg`, which is not a member of
the state structure, keeps its value. -/
theorem initialize_resets_controller (g : G) (c : Configs) :
    (initializeController g c).1.seq_num = 0
    ∧ (initializeController g c).1.activeCount = 0
    ∧ (initializeController g c).1.isControlling = false
    ∧ (initializeController g c).1.slewIsLow = false
    ∧ (initializeController g c).1.hardLimit = 32768
    ∧ (initializeController g c).1.invProportionalGain = 4
    ∧ (initializeController g c).1.correctionFifo = List.replicate 80 0
    ∧ (initializeController g c).1.correctionAccum = 0
    ∧ (initializeController g c).1.correctionFifoCount = 0
    ∧ (initializeController g c).1.correctionFifo_idx = 0
    ∧ (initializeController g c).1.integral = List.replicate 10 0
    ∧ (initializeController g c).1.avgIntegral = 0
    ∧ (initializeController g c).1.integralCount = 0
    ∧ (initializeController g c).1.freqOffset = 0
    ∧ (initializeController g c).1.sysLog
        = g.sysLog ++ [SysCall.adjtimex ⟨ADJ_FREQUENCY, 0, 0, 0, 0, 0⟩]
    ∧ (initializeController g c).1.noiseLevel = 0
    ∧ (initializeController g c).1.avgSlew = 0
    ∧ (initializeController g c).1.rawErrorAvg = g.rawErrorAvg := by
  have hs := initializeController_servo g c
  obtain ⟨n1, n2, n3, n4⟩ := initializeController_noise g c
  have s1 := congrArg ServoFrame.seq_num hs
  have s2 := congrArg ServoFrame.activeCount hs
  have s3 := congrArg ServoFrame.isControlling hs
  have s4 := congrArg ServoFrame.slewIsLow hs
  have s5 := congrArg ServoFrame.hardLimit hs
  have s6 := congrArg ServoFrame.invProportionalGain hs
  have s7 := congrArg ServoFrame.correctionFifo hs
  have s8 := congrArg ServoFrame.correctionAccum hs
  have s9 := congrArg ServoFrame.correctionFifoCount hs
  have s10 := congrArg ServoFrame.correctionFifo_idx hs
  have s11 := congrArg ServoFrame.integral hs
  have s12 := congrArg ServoFrame.avgIntegral hs
  have s13 := congrArg ServoFrame.integralCount hs
  have s14 := congrArg ServoFrame.freqOffset hs
  simp only [G.servo] at s1 s2 s3 s4 s5 s6 s7 s8 s9 s10 s11 s12 s13 s14
  exact ⟨s1, s2, s3, s4, s5, s6, s7, s8, s9, s10, s11, s12, s13, s14, n4, n1, n2, n3⟩

/-! ## The sorted list: lemmas on the array operations -/

theorem arrGet_ofNat {α : Type} [Inhabited α] (a : List α) (k : Nat) :
    arrGet a (k : Int) = a.getD k default := by
  unfold arrGet
  simp

theorem arrGet_of_lt {α : Type} [Inhabited α] (a : List α) (k : Nat) (h : k < a.length) :
    arrGet a (k : Int) = a[k] := by
  rw [arrGet_ofNat, List.getD_eq_getElem _ _ h]

theorem shiftLoop_length (idx : Int) (fuel : Nat) (i : Int) (lst : List intPair) :
    (OrderedList.shiftLoop idx fuel i lst).length = lst.length := by
  induction fuel generalizing i lst with
  | zero => rfl
  | succ m ih =>
    unfold OrderedList.shiftLoop
    split_ifs
    · rw [ih]
      unfold arrSet
      split_ifs <;> simp
    · rfl

theorem shiftLoop_getElem? (a fuel : Nat) (lst : List intPair) (k : Nat) :
    (OrderedList.shiftLoop (a : Int) fuel ((a : Int) + fuel - 1) lst)[k]?
      = if a < k ∧ k ≤ a + fuel ∧ k < lst.length then lst[k - 1]? else lst[k]? := by
  induction fuel generalizing lst with
  | zero =>
    unfold OrderedList.shiftLoop
    rw [if_neg (by omega)]
  | succ m ih =>
    unfold OrderedList.shiftLoop
    rw [if_pos (by push_cast; omega)]
    have e1 : (a : Int) + ((m + 1 : Nat) : Int) - 1 - 1 = (a : Int) + (m : Int) - 1 := by
      push_cast; omega
    have e2 : (a : Int) + ((m + 1 : Nat) : Int) - 1 + 1 = ((a + m + 1 : Nat) : Int) := by
      push_cast; omega
    have e3 : (a : Int) + ((m + 1 : Nat) : Int) - 1 = ((a + m : Nat) : Int) := by
      push_cast; omega
    rw [e1, e2, e3, ih, arrSet_natCast, arrGet_ofNat, List.length_set]
    by_cases hk : a < k ∧ k ≤ a + m ∧ k < lst.length
    · rw [if_pos hk, if_pos ⟨hk.1, by omega, hk.2.2⟩, List.getElem?_set_ne (by omega)]
    · rw [if_neg hk]
      by_cases hk2 : k = a + m + 1
      · subst hk2
        by_cases hl : a + m + 1 < lst.length
        · rw [if_pos ⟨by omega, by omega, hl⟩, List.getElem?_set_self hl]
          have : a + m < lst.length := by omega
          rw [List.getD_eq_getElem _ _ this, List.getElem?_eq_getElem (by omega)]
          simp
        · rw [if_neg (by omega)]
          rw [List.getElem?_eq_none (by rw [List.length_set]; omega),
            List.getElem?_eq_none (by omega)]
      · rw [if_neg (by omega), List.getElem?_set_ne (by omega)]
theorem insert_ln (l : OrderedList) (idx v : Int) :
    (l.insert idx v).ln = l.ln + 1 ∧ (l.insert idx v).size = l.size
    ∧ (l.insert idx v).count = l.count := ⟨rfl, rfl, rfl⟩

theorem insert_lst (l : OrderedList) (a n : Nat) (v : Int) (hn : l.ln = n) (ha : a ≤ n)
    (hlen : n < l.lst.length) :
    (l.insert a v).lst
      = (OrderedList.shiftLoop (a : Int) (n - a + 1) ((a : Int) + ((n - a + 1 : Nat) : Int) - 1)
          l.lst).set a ⟨v, 1⟩ := by
  unfold OrderedList.insert
  simp only [hn]
  have e1 : ((n : Int) - (a : Int) + 1).toNat = n - a + 1 := by omega
  have e2 : (n : Int) = (a : Int) + ((n - a + 1 : Nat) : Int) - 1 := by push_cast; omega
  rw [e1, ← e2, arrSet_natCast, arrSet_natCast, List.set_set]
  congr 1
  have h : a < (OrderedList.shiftLoop (a : Int) (n - a + 1) (n : Int) l.lst).length := by
    rw [shiftLoop_length]; omega
  rw [arrGet_ofNat, List.getD_eq_getElem _ _ (by rw [List.length_set]; exact h)]
  simp

theorem insert_entries (l : OrderedList) (a n : Nat) (v : Int) (hn : l.ln = n) (ha : a ≤ n)
    (hlen : n < l.lst.length) :
    (l.insert a v).entries = l.entries.take a ++ ⟨v, 1⟩ :: l.entries.drop a := by
  have h1 := insert_lst l a n v hn ha hlen
  unfold OrderedList.entries
  rw [h1, (insert_ln l a v).1, hn]
  have t1 : ((n : Int) + 1).toNat = n + 1 := by omega
  have t2 : (n : Int).toNat = n := by omega
  rw [t1, t2]
  apply List.ext_getElem?
  intro k
  rw [List.getElem?_take, List.getElem?_set, shiftLoop_getElem?, shiftLoop_length]
  rcases Nat.lt_trichotomy k a with hk | hk | hk
  · rw [if_pos (by omega), if_neg (by omega), if_neg (by omega),
      List.getElem?_append_left (by rw [List.length_take, List.length_take]; omega),
      List.getElem?_take, if_pos hk, List.getElem?_take, if_pos (by omega)]
  · subst hk
    rw [if_pos (by omega), if_pos rfl, if_pos (by omega),
      List.getElem?_append_right (by rw [List.length_take, List.length_take]; omega)]
    have : k - (List.take k (List.take n l.lst)).length = 0 := by
      rw [List.length_take, List.length_take]; omega
    rw [this]
    simp
  · by_cases hk2 : k < n + 1
    · rw [if_pos hk2, if_neg (by omega), if_pos ⟨hk, by omega, by omega⟩,
        List.getElem?_append_right (by rw [List.length_take, List.length_take]; omega)]
      have : k - (List.take a (List.take n l.lst)).length = (k - a - 1) + 1 := by
        rw [List.length_take, List.length_take]; omega
      rw [this, List.getElem?_cons_succ, List.getElem?_drop, List.getElem?_take,
        if_pos (by omega)]
      congr 1
      omega
    · rw [if_neg hk2, List.getElem?_append_right
        (by rw [List.length_take, List.length_take]; omega)]
      have : k - (List.take a (List.take n l.lst)).length = (k - a - 1) + 1 := by
        rw [List.length_take, List.length_take]; omega
      rw [this, List.getElem?_cons_succ, List.getElem?_drop, List.getElem?_take,
        if_neg (by omega)]
theorem searchLoop_spec (lst : List intPair) (v : Int) (fuel : Nat) (high low : Int)
    (h1 : -1 ≤ low) (h2 : low < high) (h3 : high - low ≤ fuel + 1)
    (i1 : low = -1 ∨ (arrGet lst low).val < v) (i2 : v ≤ (arrGet lst high).val) :
    low < OrderedList.searchLoop lst v fuel high low
    ∧ OrderedList.searchLoop lst v fuel high low ≤ high
    ∧ v ≤ (arrGet lst (OrderedList.searchLoop lst v fuel high low)).val
    ∧ (OrderedList.searchLoop lst v fuel high low = 0
        ∨ (arrGet lst (OrderedList.searchLoop lst v fuel high low - 1)).val < v) := by
  induction fuel generalizing high low with
  | zero =>
    unfold OrderedList.searchLoop
    have e : high = low + 1 := by push_cast at h3; omega
    subst e
    refine ⟨h2, le_refl _, i2, ?_⟩
    rcases i1 with i1 | i1
    · left; omega
    · right
      rw [show low + 1 - 1 = low by omega]
      exact i1
  | succ m ih =>
    unfold OrderedList.searchLoop
    by_cases hc : high - low > 1
    · rw [if_pos hc]
      simp only []
      have hj : Int.tdiv (high + low) 2 = (high + low) / 2 :=
        Int.tdiv_eq_ediv (by omega) (by omega)
      rw [hj]
      have j1 : low < (high + low) / 2 := by omega
      have j2 : (high + low) / 2 < high := by omega
      by_cases hv : v ≤ (arrGet lst ((high + low) / 2)).val
      · rw [if_pos hv]
        obtain ⟨a, b, c, d⟩ := ih ((high + low) / 2) low h1 j1 (by push_cast at h3 ⊢; omega) i1 hv
        exact ⟨a, by omega, c, d⟩
      · rw [if_neg hv]
        obtain ⟨a, b, c, d⟩ := ih high ((high + low) / 2) (by omega) j2
          (by push_cast at h3 ⊢; omega) (Or.inr (by omega)) i2
        exact ⟨by omega, b, c, d⟩
    · rw [if_neg hc]
      have e : high = low + 1 := by omega
      subst e
      refine ⟨h2, le_refl _, i2, ?_⟩
      rcases i1 with i1 | i1
      · left; omega
      · right
        rw [show low + 1 - 1 = low by omega]
        exact i1

theorem insertEntry_append (v : Int) (a b : List intPair) (h : ∀ p ∈ a, p.val < v) :
    insertEntry v (a ++ b) = a ++ insertEntry v b := by
  induction a with
  | nil => rfl
  | cons p ps ih =>
    have hp : p.val < v := h p (List.mem_cons_self _ _)
    show insertEntry v (p :: (ps ++ b)) = p :: (ps ++ insertEntry v b)
    rw [insertEntry, if_neg (by omega), if_neg (by omega),
      ih (fun q hq => h q (List.mem_cons_of_mem _ hq))]
theorem insertEntry_new (v : Int) (es : List intPair) (r : Nat)
    (hlt : ∀ p ∈ es.take r, p.val < v)
    (hge : es.length ≤ r ∨ ∃ h : r < es.length, v < es[r].val) :
    insertEntry v es = es.take r ++ ⟨v, 1⟩ :: es.drop r := by
  conv_lhs => rw [← List.take_append_drop r es]
  rw [insertEntry_append v _ _ hlt]
  congr 1
  rcases hge with hge | ⟨h, hge⟩
  · rw [List.drop_eq_nil_of_le hge]
    rfl
  · rw [List.drop_eq_getElem_cons h, insertEntry, if_pos hge]

theorem insertEntry_incr (v : Int) (es : List intPair) (r : Nat)
    (hlt : ∀ p ∈ es.take r, p.val < v) (h : r < es.length) (he : es[r].val = v) :
    insertEntry v es = es.set r ⟨es[r].val, es[r].nVals + 1⟩ := by
  rw [List.set_eq_take_append_cons_drop, if_pos h]
  conv_lhs => rw [← List.take_append_drop r es]
  rw [insertEntry_append v _ _ hlt]
  congr 1
  rw [List.drop_eq_getElem_cons h, insertEntry, if_neg (by omega), if_pos he.symm]

theorem lt_of_sorted_prefix (v : Int) (es : List intPair) (r : Nat) (hr : r ≤ es.length)
    (hs : (es.map intPair.val).Pairwise (fun a b => a < b))
    (hp : r = 0 ∨ ∃ h : r - 1 < es.length, es[r - 1].val < v) :
    ∀ p ∈ es.take r, p.val < v := by
  intro p hp2
  rcases hp with hp | ⟨h, hp⟩
  · subst hp
    simp at hp2
  · obtain ⟨i, hi, rfl⟩ := List.getElem_of_mem hp2
    rw [List.length_take] at hi
    rw [List.getElem_take]
    have hi2 : i < r := by omega
    by_cases hir : i = r - 1
    · subst hir
      exact hp
    · have hlt : i < r - 1 := by omega
      rw [List.pairwise_iff_getElem] at hs
      have := hs i (r - 1) (by rw [List.length_map]; omega) (by rw [List.length_map]; omega) hlt
      rw [List.getElem_map, List.getElem_map] at this
      omega

theorem sum_nVals_ge_length (es : List intPair) (h : ∀ p ∈ es, 1 ≤ p.nVals) :
    (es.length : Int) ≤ (es.map intPair.nVals).sum := by
  induction es with
  | nil => simp
  | cons p ps ih =>
    have h1 := h p (List.mem_cons_self _ _)
    have h2 := ih (fun q hq => h q (List.mem_cons_of_mem _ hq))
    rw [List.map_cons, List.sum_cons, List.length_cons]
    push_cast
    omega
theorem arrSet_length {α : Type} (a : List α) (i : Int) (v : α) :
    (arrSet a i v).length = a.length := by
  unfold arrSet
  split_ifs <;> simp

theorem insert_length (l : OrderedList) (idx v : Int) :
    (l.insert idx v).lst.length = l.lst.length := by
  unfold OrderedList.insert
  simp only []
  rw [arrSet_length, arrSet_length, shiftLoop_length]

theorem entries_length (l : OrderedList) (n : Nat) (hn : l.ln = n) (hl : n ≤ l.lst.length) :
    l.entries.length = n := by
  unfold OrderedList.entries
  rw [hn, List.length_take]
  simp only [Int.toNat_ofNat]
  omega

theorem entries_getElem (l : OrderedList) (n i : Nat) (hn : l.ln = n) (hl : n ≤ l.lst.length)
    (hi : i < n) :
    arrGet l.lst (i : Int) = l.entries[i]?.getD default
    ∧ l.entries[i]? = some (arrGet l.lst (i : Int)) := by
  have h1 : l.entries[i]? = l.lst[i]? := by
    unfold OrderedList.entries
    rw [hn, List.getElem?_take, if_pos (by simpa using hi)]
  rw [h1, arrGet_of_lt _ _ (by omega), List.getElem?_eq_getElem (by omega)]
  exact ⟨rfl, rfl⟩

/-- The outcome of `insert(idx, val)` when the specification places the value
at `idx`. -/
theorem insert_result (l : OrderedList) (a n : Nat) (v : Int) (hn : l.ln = n) (ha : a ≤ n)
    (hlen : n < l.lst.length)
    (hspec : insertEntry v l.entries = l.entries.take a ++ ⟨v, 1⟩ :: l.entries.drop a) :
    (l.insert a v).entries = insertEntry v l.entries
    ∧ (l.insert a v).count = l.count
    ∧ (l.insert a v).size = l.size
    ∧ (l.insert a v).lst.length = l.lst.length
    ∧ (l.insert a v).ln = (insertEntry v l.entries).length := by
  have hl := entries_length l n hn (by omega)
  refine ⟨?_, rfl, rfl, insert_length l a v, ?_⟩
  · rw [hspec]
    exact insert_entries l a n v hn ha hlen
  · rw [(insert_ln l a v).1, hspec, hn, List.length_append, List.length_cons, List.length_take,
      List.length_drop, hl]
    push_cast
    omega

/-- The outcome of the increment of a multiplicity when the specification
replaces the entry at `r`. -/
theorem increment_result (l : OrderedList) (r n : Nat) (v : Int) (p : intPair) (R : OrderedList)
    (hn : l.ln = n) (hlen : n ≤ l.lst.length) (hspec : insertEntry v l.entries = l.entries.set r p)
    (hR : R = { ln := (n : Int), size := l.size, count := l.count,
                lst := arrSet l.lst (r : Int) p }) :
    R.entries = insertEntry v l.entries
    ∧ R.count = l.count
    ∧ R.size = l.size
    ∧ R.lst.length = l.lst.length
    ∧ R.ln = (insertEntry v l.entries).length := by
  have hl := entries_length l n hn hlen
  subst hR
  refine ⟨?_, rfl, rfl, ?_, ?_⟩
  · rw [hspec]
    unfold OrderedList.entries
    simp only []
    rw [arrSet_natCast, List.set_take, hn]
  · show (arrSet l.lst (r : Int) p).length = l.lst.length
    exact arrSet_length _ _ _
  · rw [hspec, List.length_set, hl]
theorem entries_get (l : OrderedList) (n i : Nat) (hn : l.ln = n) (hl : n ≤ l.lst.length)
    (hi : i < l.entries.length) : l.entries[i] = arrGet l.lst (i : Int) := by
  have hlen := entries_length l n hn hl
  rw [arrGet_of_lt _ _ (by omega)]
  unfold OrderedList.entries
  rw [List.getElem_take]

theorem binaryInsert_entries (l : OrderedList) (v : Int) (hwf : l.wellFormed)
    (hc : l.count < l.size) :
    (l.binaryInsert v).1.entries = insertEntry v l.entries
    ∧ (l.binaryInsert v).1.count = l.count + 1
    ∧ (l.binaryInsert v).1.size = l.size
    ∧ (l.binaryInsert v).1.lst.length = l.lst.length
    ∧ (l.binaryInsert v).1.ln = (insertEntry v l.entries).length := by
  obtain ⟨h0, hsz, hlen, hs, hpos, hcnt⟩ := hwf
  obtain ⟨n, hn⟩ : ∃ n : Nat, l.ln = n := ⟨l.ln.toNat, by omega⟩
  have hesl : l.entries.length = n := entries_length l n hn (by omega)
  have hnc : (n : Int) ≤ l.count := by
    have := sum_nVals_ge_length _ hpos
    omega
  have hnl : n < l.lst.length := by omega
  unfold OrderedList.binaryInsert
  rw [if_neg (by omega)]
  generalize hl' : ({ l with count := l.count + 1 } : OrderedList) = l'
  have e1 : l'.ln = n := by rw [← hl']; exact hn
  have e2 : l'.lst = l.lst := by rw [← hl']
  have e3 : l'.entries = l.entries := by rw [← hl']; rfl
  have e4 : l'.count = l.count + 1 := by rw [← hl']
  have e5 : l'.size = l.size := by rw [← hl']
  rw [← e3, ← e4, ← e5, ← e2]
  rw [← e3] at hs hesl
  rw [← e2] at hnl
  clear hl' e2 e3 e4 e5 hpos hcnt hc hnc hlen hsz h0 hn
  have eg : ∀ i (hi : i < l'.entries.length), l'.entries[i] = arrGet l'.lst (i : Int) :=
    fun i hi => entries_get l' n i e1 (by omega) hi
  simp only []
  rw [e1]
  by_cases hn0 : n = 0
  · subst hn0
    simp only [Nat.cast_zero, true_or, if_true]
    have := insert_result l' 0 0 v e1 (le_refl _) hnl
      (insertEntry_new v _ 0 (by simp) (Or.inl (by omega)))
    simpa using this
  · obtain ⟨m, rfl⟩ : ∃ m, n = m + 1 := ⟨n - 1, by omega⟩
    have c1 : (((m + 1 : Nat) : Int) - 1) = (m : Int) := by push_cast; omega
    rw [c1]
    by_cases ha : ((m + 1 : Nat) : Int) = 0 ∨ v > (arrGet l'.lst (m : Int)).val
    · simp only [if_pos ha]
      have hv : (arrGet l'.lst (m : Int)).val < v := by
        rcases ha with ha | ha
        · omega
        · exact ha
      refine insert_result l' (m + 1) (m + 1) v e1 (le_refl _) hnl
        (insertEntry_new v _ (m + 1) ?_ (Or.inl (by omega)))
      refine lt_of_sorted_prefix v _ (m + 1) (by omega) hs (Or.inr ⟨by omega, ?_⟩)
      rw [eg]
      exact hv
    · rw [if_neg ha]
      have hv : v ≤ (arrGet l'.lst (m : Int)).val := by
        by_contra hcon
        exact ha (Or.inr (by omega))
      by_cases hb : ((m + 1 : Nat) : Int) = 1
      · rw [if_pos hb]
        have hm : m = 0 := by omega
        subst hm
        have hv0 : v ≤ (arrGet l'.lst 0).val := hv
        by_cases hv1 : v < (arrGet l'.lst 0).val
        · rw [if_pos hv1]
          have := insert_result l' 0 1 v e1 (by omega) hnl
            (insertEntry_new v _ 0 (by simp) (Or.inr ⟨by omega, by rw [eg]; exact hv1⟩))
          simpa using this
        · have hv2 : ¬ v > (arrGet l'.lst 0).val := by omega
          rw [if_neg hv1, if_neg hv2]
          have he : (arrGet l'.lst ((0 : Nat) : Int)).val = v := by
            simp only [Nat.cast_zero]
            omega
          have hsp := insertEntry_incr v l'.entries 0 (by simp) (by omega)
            (by rw [eg]; exact he)
          rw [eg] at hsp
          exact increment_result l' 0 1 v _ _ e1 (by omega) hsp rfl
      · rw [if_neg hb]
        have hm : 1 ≤ m := by omega
        have hf : ((m : Int) + 1).toNat = m + 1 := by omega
        rw [hf]
        obtain ⟨s1, s2, s3, s4⟩ := searchLoop_spec l'.lst v (m + 1) (m : Int) (-1) (le_refl _)
          (by omega) (by push_cast; omega) (Or.inl rfl) hv
        generalize OrderedList.searchLoop l'.lst v (m + 1) (m : Int) (-1) = r at s1 s2 s3 s4 ⊢
        obtain ⟨k, rfl⟩ : ∃ k : Nat, r = k := ⟨r.toNat, by omega⟩
        have hk : k < l'.entries.length := by omega
        have hlt : ∀ p ∈ l'.entries.take k, p.val < v := by
          refine lt_of_sorted_prefix v _ k (by omega) hs ?_
          by_cases hk0 : k = 0
          · left; exact hk0
          · right
            rcases s4 with s4 | s4
            · omega
            · refine ⟨by omega, ?_⟩
              rw [eg]
              have : (((k - 1 : Nat) : Int)) = (k : Int) - 1 := by omega
              rw [this]
              exact s4
        by_cases he : (arrGet l'.lst (k : Int)).val = v
        · rw [if_pos he]
          have hsp := insertEntry_incr v l'.entries k hlt hk (by rw [eg]; exact he)
          rw [eg] at hsp
          exact increment_result l' k (m + 1) v _ _ e1 (by omega) hsp rfl
        · rw [if_neg he]
          refine insert_result l' k (m + 1) v e1 (by omega) hnl
            (insertEntry_new v _ k hlt (Or.inr ⟨hk, ?_⟩))
          rw [eg]
          omega
theorem insertEntry_val_mem (v : Int) (es : List intPair) (q : intPair)
    (h : q ∈ insertEntry v es) : q.val = v ∨ q.val ∈ es.map intPair.val := by
  induction es with
  | nil =>
    rw [insertEntry, List.mem_singleton] at h
    left
    rw [h]
  | cons p ps ih =>
    rw [insertEntry] at h
    split_ifs at h with h1 h2
    · rcases List.mem_cons.mp h with h | h
      · left; rw [h]
      · right; exact List.mem_map_of_mem _ h
    · rcases List.mem_cons.mp h with h | h
      · left; rw [h]; exact h2.symm
      · right
        rw [List.map_cons]
        exact List.mem_cons_of_mem _ (List.mem_map_of_mem _ h)
    · rcases List.mem_cons.mp h with h | h
      · right; rw [h, List.map_cons]; exact List.mem_cons_self _ _
      · rcases ih h with h | h
        · left; exact h
        · right; rw [List.map_cons]; exact List.mem_cons_of_mem _ h

theorem insertEntry_sorted (v : Int) (es : List intPair)
    (hs : (es.map intPair.val).Pairwise (fun a b => a < b)) :
    ((insertEntry v es).map intPair.val).Pairwise (fun a b => a < b) := by
  induction es with
  | nil =>
    rw [insertEntry]
    simp
  | cons p ps ih =>
    rw [List.map_cons, List.pairwise_cons] at hs
    obtain ⟨hp, hps⟩ := hs
    rw [insertEntry]
    split_ifs with h1 h2
    · rw [List.map_cons, List.map_cons, List.pairwise_cons, List.pairwise_cons]
      refine ⟨?_, hp, hps⟩
      intro b hb
      rcases List.mem_cons.mp hb with hb | hb
      · rw [hb]; exact h1
      · exact lt_trans h1 (hp b hb)
    · rw [List.map_cons, List.pairwise_cons]
      exact ⟨hp, hps⟩
    · rw [List.map_cons, List.pairwise_cons]
      refine ⟨?_, ih hps⟩
      intro b hb
      obtain ⟨q, hq, rfl⟩ := List.mem_map.mp hb
      rcases insertEntry_val_mem v ps q hq with h | h
      · rw [h]; omega
      · exact hp _ h

theorem insertEntry_pos (v : Int) (es : List intPair) (h : ∀ p ∈ es, 1 ≤ p.nVals) :
    ∀ p ∈ insertEntry v es, 1 ≤ p.nVals := by
  induction es with
  | nil =>
    intro p hp
    rw [insertEntry, List.mem_singleton] at hp
    rw [hp]
  | cons q qs ih =>
    have hq := h q (List.mem_cons_self _ _)
    have hqs : ∀ p ∈ qs, 1 ≤ p.nVals := fun p hp => h p (List.mem_cons_of_mem _ hp)
    intro p hp
    rw [insertEntry] at hp
    split_ifs at hp with h1 h2
    · rcases List.mem_cons.mp hp with hp | hp
      · rw [hp]
      · exact h p hp
    · rcases List.mem_cons.mp hp with hp | hp
      · rw [hp]
        show 1 ≤ q.nVals + 1
        omega
      · exact hqs p hp
    · rcases List.mem_cons.mp hp with hp | hp
      · rw [hp]; exact hq
      · exact ih hqs p hp

theorem insertEntry_sum (v : Int) (es : List intPair) :
    ((insertEntry v es).map intPair.nVals).sum = (es.map intPair.nVals).sum + 1 := by
  induction es with
  | nil => rfl
  | cons q qs ih =>
    rw [insertEntry]
    split_ifs with h1 h2
    · simp only [List.map_cons, List.sum_cons]
      omega
    · simp only [List.map_cons, List.sum_cons]
      omega
    · simp only [List.map_cons, List.sum_cons]
      rw [ih]
      omega

theorem samples_insertEntry (v : Int) (es : List intPair) (h : ∀ p ∈ es, 1 ≤ p.nVals) :
    samples (insertEntry v es) = v ::ₘ samples es := by
  induction es with
  | nil =>
    unfold samples
    rw [insertEntry]
    simp
  | cons q qs ih =>
    have hq := h q (List.mem_cons_self _ _)
    have hqs : ∀ p ∈ qs, 1 ≤ p.nVals := fun p hp => h p (List.mem_cons_of_mem _ hp)
    have hc : ∀ (p : intPair) (ps : List intPair),
        samples (p :: ps) = Multiset.replicate p.nVals.toNat p.val + samples ps := fun p ps => by
      unfold samples
      rw [List.map_cons, List.sum_cons]
    rw [insertEntry]
    split_ifs with h1 h2
    · rw [hc ⟨v, 1⟩]
      simp
    · rw [hc, hc]
      have : (q.nVals + 1).toNat = q.nVals.toNat + 1 := by omega
      simp only []
      rw [this, Multiset.replicate_succ, h2, Multiset.cons_add]
    · rw [hc, hc, ih hqs, Multiset.add_cons]

theorem insertEntry_absent (v : Int) (es : List intPair) (h : v ∉ es.map intPair.val) :
    ⟨v, 1⟩ ∈ insertEntry v es := by
  induction es with
  | nil =>
    rw [insertEntry]
    exact List.mem_singleton.mpr rfl
  | cons q qs ih =>
    rw [List.map_cons, List.mem_cons, not_or] at h
    rw [insertEntry]
    split_ifs with h1 h2
    · exact List.mem_cons_self _ _
    · exact absurd h2 h.1
    · exact List.mem_cons_of_mem _ (ih h.2)

theorem insertEntry_present (v : Int) (es : List intPair)
    (hs : (es.map intPair.val).Pairwise (fun a b => a < b)) (p : intPair) (hp : p ∈ es)
    (hv : p.val = v) : ⟨v, p.nVals + 1⟩ ∈ insertEntry v es := by
  induction es with
  | nil => exact absurd hp (List.not_mem_nil _)
  | cons q qs ih =>
    rw [List.map_cons, List.pairwise_cons] at hs
    obtain ⟨hq, hqs⟩ := hs
    rw [insertEntry]
    rcases List.mem_cons.mp hp with hpq | hpq
    · subst hpq
      rw [if_neg (by omega), if_pos hv.symm, hv]
      exact List.mem_cons_self _ _
    · have := hq p.val (List.mem_map_of_mem _ hpq)
      rw [if_neg (by omega), if_neg (by omega)]
      exact List.mem_cons_of_mem _ (ih hqs hpq)

theorem binaryInsert_wellFormed (l : OrderedList) (v : Int) (hwf : l.wellFormed)
    (hc : l.count < l.size) : (l.binaryInsert v).1.wellFormed := by
  obtain ⟨b1, b2, b3, b4, b5⟩ := binaryInsert_entries l v hwf hc
  have hwf2 := hwf
  obtain ⟨h0, hsz, hlen, hs, hpos, hcnt⟩ := hwf
  have hsum := insertEntry_sum v l.entries
  have hge := sum_nVals_ge_length _ (insertEntry_pos v l.entries hpos)
  refine ⟨?_, ?_, ?_, ?_, ?_, ?_⟩
  · rw [b5]; omega
  · rw [b5, b3]; omega
  · rw [b4, b3]; exact hlen
  · rw [b1]; exact insertEntry_sorted v _ hs
  · rw [b1]; exact insertEntry_pos v _ hpos
  · rw [b1, b2, hsum, hcnt]

theorem binaryInsert_full (l : OrderedList) (v : Int) (h : l.count = l.size) :
    l.binaryInsert v = (l, l.size) := by
  unfold OrderedList.binaryInsert
  rw [if_pos h]
theorem gapIndex_lt (gap : Int) (es : List intPair) (h : es ≠ []) :
    gapIndex gap es < es.length := by
  induction es with
  | nil => exact absurd rfl h
  | cons p ps ih =>
    cases ps with
    | nil => simp [gapIndex]
    | cons q rest =>
      rw [gapIndex]
      split_ifs
      · simp
      · have := ih (List.cons_ne_nil _ _)
        simp only [List.length_cons] at this ⊢
        omega

theorem gapIndex_spec (gap : Int) (es : List intPair) :
    (∀ i p q, i < gapIndex gap es → es[i]? = some p → es[i + 1]? = some q → q.val - p.val < gap)
    ∧ (∀ p q, es[gapIndex gap es]? = some p → es[gapIndex gap es + 1]? = some q →
        q.val - p.val ≥ gap) := by
  induction es with
  | nil => simp [gapIndex]
  | cons a as ih =>
    cases as with
    | nil => simp [gapIndex]
    | cons b rest =>
      obtain ⟨ih1, ih2⟩ := ih
      rw [gapIndex]
      split_ifs with hg
      · refine ⟨fun i p q hi => absurd hi (by omega), ?_⟩
        intro p q hp hq
        simp only [List.getElem?_cons_zero, Option.some.injEq, zero_add,
          List.getElem?_cons_succ] at hp hq
        rw [← hp, ← hq]
        exact hg
      · constructor
        · intro i p q hi hp hq
          cases i with
          | zero =>
            simp only [List.getElem?_cons_zero, Option.some.injEq, zero_add,
              List.getElem?_cons_succ] at hp hq
            rw [← hp, ← hq]
            omega
          | succ j =>
            rw [List.getElem?_cons_succ] at hp hq
            exact ih1 j p q (by omega) hp hq
        · intro p q hp hq
          rw [List.getElem?_cons_succ] at hp hq
          exact ih2 p q hp hq

theorem averageLoop_spec (l : OrderedList) (gap : Int) (n : Nat) (hn : l.ln = n)
    (hl : n ≤ l.lst.length) (fuel i : Nat) (hi : i + fuel = n) (s c : Int) :
    OrderedList.averageLoop l gap fuel (i : Int) s c
      = (s + ((((l.entries.drop i).take (gapIndex gap (l.entries.drop i) + 1)).map
            (fun p => p.nVals * p.val)).sum),
         c + ((((l.entries.drop i).take (gapIndex gap (l.entries.drop i) + 1)).map
            intPair.nVals).sum)) := by
  have hlen := entries_length l n hn hl
  induction fuel generalizing i s c with
  | zero =>
    unfold OrderedList.averageLoop
    rw [List.drop_eq_nil_of_le (by omega)]
    simp
  | succ k ih =>
    unfold OrderedList.averageLoop
    rw [if_pos (by rw [hn]; omega)]
    simp only []
    have hd : l.entries.drop i = l.entries[i] :: l.entries.drop (i + 1) :=
      List.drop_eq_getElem_cons (by omega)
    have hgi : arrGet l.lst (i : Int) = l.entries[i] := (entries_get l n i hn hl (by omega)).symm
    by_cases hlast : i + 1 < n
    · have hd2 : l.entries.drop (i + 1) = l.entries[i + 1] :: l.entries.drop (i + 1 + 1) :=
        List.drop_eq_getElem_cons (by omega)
      have hgi2 : arrGet l.lst ((i : Int) + 1) = l.entries[i + 1] := by
        have := (entries_get l n (i + 1) hn hl (by omega)).symm
        push_cast at this
        exact this
      by_cases hg : l.entries[i + 1].val - l.entries[i].val ≥ gap
      · rw [if_pos ⟨by rw [hn]; omega, by rw [hgi, hgi2]; exact hg⟩, hd, hd2, gapIndex,
          if_pos hg, hgi]
        simp only [zero_add, List.take_succ_cons, List.take_zero, List.map_cons, List.map_nil,
          List.sum_cons, List.sum_nil, add_zero]
      · rw [if_neg (by rw [hgi, hgi2]; exact fun h => hg h.2)]
        have := ih (i + 1) (by omega) (s + (arrGet l.lst (i : Int)).nVals * (arrGet l.lst (i : Int)).val)
          (c + (arrGet l.lst (i : Int)).nVals)
        push_cast at this
        rw [this, hd]
        conv_rhs => rw [hd2, gapIndex, if_neg hg, ← hd2]
        rw [hgi]
        simp only [List.take_succ_cons, List.map_cons, List.sum_cons]
        refine Prod.ext ?_ ?_
        · simp only []
          ring
        · simp only []
          ring
    · have hin : i + 1 = n := by omega
      rw [if_neg (by rw [hn]; omega)]
      have := ih (i + 1) (by omega) (s + (arrGet l.lst (i : Int)).nVals * (arrGet l.lst (i : Int)).val)
        (c + (arrGet l.lst (i : Int)).nVals)
      push_cast at this
      rw [this, hd, List.drop_eq_nil_of_le (by omega), hgi]
      simp only [gapIndex, zero_add, List.take_succ_cons, List.take_zero, List.take_nil,
        List.map_cons, List.map_nil, List.sum_cons, List.sum_nil, add_zero]

theorem averageBelow_eq (l : OrderedList) (gap : Int) (h0 : 0 ≤ l.ln)
    (hl : l.ln ≤ l.lst.length) :
    l.averageBelow gap
      = if l.entries = [] then 0
        else weightedMean (l.entries.take (gapIndex gap l.entries + 1)) := by
  obtain ⟨n, hn⟩ : ∃ n : Nat, l.ln = n := ⟨l.ln.toNat, by omega⟩
  have hnl : n ≤ l.lst.length := by omega
  have hlen := entries_length l n hn hnl
  unfold OrderedList.averageBelow
  by_cases hz : n = 0
  · subst hz
    have hn0 : l.ln = 0 := by simpa using hn
    rw [if_pos hn0, if_pos (List.length_eq_zero.mp hlen)]
  · rw [if_neg (by omega), if_neg (by
      intro h
      rw [h] at hlen
      exact hz hlen.symm)]
    simp only []
    have := averageLoop_spec l gap n hn hnl n 0 (by omega) 0 0
    rw [hn]
    simp only [Int.toNat_ofNat]
    rw [Nat.cast_zero] at this
    rw [this]
    unfold weightedMean
    simp

/-! ## The sorted list: insertion and its array accesses (C16) -/

theorem shiftLoop_accesses_first (idx : Int) (n : Nat) (i : Int) (h : idx ≤ i) :
    i + 1 ∈ OrderedList.shiftLoop.accesses idx (n + 1) i := by
  unfold OrderedList.shiftLoop.accesses
  rw [if_pos h]
  simp

theorem searchLoop_bounds (lst : List intPair) (v : Int) (fuel : Nat) :
    ∀ (high low : Int), -1 ≤ low → low < high →
      low < OrderedList.searchLoop lst v fuel high low
      ∧ OrderedList.searchLoop lst v fuel high low ≤ high := by
  induction fuel with
  | zero => exact fun high low _ h2 => ⟨h2, le_refl _⟩
  | succ n ih =>
    intro high low h1 h2
    unfold OrderedList.searchLoop
    by_cases hc : high - low > 1
    · rw [if_pos hc]
      simp only []
      have hj : Int.tdiv (high + low) 2 = (high + low) / 2 :=
        Int.tdiv_eq_ediv (by omega) (by omega)
      rw [hj]
      split_ifs with hv
      · obtain ⟨a, b⟩ := ih ((high + low) / 2) low h1 (by omega)
        exact ⟨a, by omega⟩
      · obtain ⟨a, b⟩ := ih high ((high + low) / 2) (by omega) (by omega)
        exact ⟨by omega, b⟩
    · rw [if_neg hc]
      exact ⟨h2, le_refl _⟩

theorem searchLoop_accesses_bounds (lst : List intPair) (v : Int) (fuel : Nat) :
    ∀ (high low : Int), -1 ≤ low → low < high →
      ∀ i ∈ OrderedList.searchLoop.accesses lst v fuel high low, low < i ∧ i < high := by
  induction fuel with
  | zero =>
    intro high low _ _ i hi
    unfold OrderedList.searchLoop.accesses at hi
    exact absurd hi (List.not_mem_nil _)
  | succ n ih =>
    intro high low h1 h2 i hi
    unfold OrderedList.searchLoop.accesses at hi
    by_cases hc : high - low > 1
    · rw [if_pos hc] at hi
      simp only [] at hi
      have hj : Int.tdiv (high + low) 2 = (high + low) / 2 :=
        Int.tdiv_eq_ediv (by omega) (by omega)
      rw [hj] at hi
      split_ifs at hi with hv
      · rcases List.mem_cons.mp hi with h | h
        · omega
        · obtain ⟨a, b⟩ := ih ((high + low) / 2) low h1 (by omega) i h
          exact ⟨a, by omega⟩
      · rcases List.mem_cons.mp hi with h | h
        · omega
        · obtain ⟨a, b⟩ := ih high ((high + low) / 2) (by omega) (by omega) i h
          exact ⟨by omega, b⟩
    · rw [if_neg hc] at hi
      exact absurd hi (List.not_mem_nil _)

theorem shiftLoop_accesses_bounds (idx : Int) (n : Nat) :
    ∀ (i : Int), ∀ x ∈ OrderedList.shiftLoop.accesses idx n i, idx ≤ x ∧ x ≤ i + 1 := by
  induction n with
  | zero =>
    intro i x hx
    unfold OrderedList.shiftLoop.accesses at hx
    exact absurd hx (List.not_mem_nil _)
  | succ m ih =>
    intro i x hx
    unfold OrderedList.shiftLoop.accesses at hx
    by_cases hc : i ≥ idx
    · rw [if_pos hc] at hx
      rcases List.mem_cons.mp hx with h | h
      · omega
      · rcases List.mem_cons.mp h with h | h
        · omega
        · obtain ⟨a, b⟩ := ih (i - 1) x h
          exact ⟨a, by omega⟩
    · rw [if_neg hc] at hx
      exact absurd hx (List.not_mem_nil _)

theorem insert_accesses_bounds (l : OrderedList) (idx : Int) (h0 : 0 ≤ idx) (h1 : idx ≤ l.ln) :
    ∀ x ∈ OrderedList.insert.accesses l idx, 0 ≤ x ∧ x ≤ l.ln + 1 := by
  intro x hx
  unfold OrderedList.insert.accesses at hx
  rcases List.mem_append.mp hx with h | h
  · obtain ⟨a, b⟩ := shiftLoop_accesses_bounds idx _ l.ln x h
    exact ⟨by omega, b⟩
  · simp only [List.mem_cons, List.mem_singleton, List.not_mem_nil, or_false, or_self] at h
    omega

theorem insert_accesses_top (l : OrderedList) (idx : Int) (h1 : idx ≤ l.ln) :
    l.ln + 1 ∈ OrderedList.insert.accesses l idx := by
  unfold OrderedList.insert.accesses
  obtain ⟨n, hn⟩ : ∃ n : Nat, (l.ln - idx + 1).toNat = n + 1 :=
    ⟨(l.ln - idx).toNat, by omega⟩
  rw [hn]
  exact List.mem_append_left _ (shiftLoop_accesses_first idx n l.ln h1)

/-- The accesses of `binaryInsert`: the reads of the search stay among the
entries, and an access beyond them is made only by a call of `insert`, which
raises `ln` by one and reaches the element of index `ln + 1`. -/
theorem binaryInsert_accesses_cases (l : OrderedList) (v : Int) (h0 : 0 ≤ l.ln) :
    (∀ i ∈ OrderedList.binaryInsert.accesses l v,
      (0 ≤ i ∧ i ≤ l.ln - 1)
      ∨ ((l.binaryInsert v).1.ln = l.ln + 1 ∧ 0 ≤ i ∧ i ≤ l.ln + 1))
    ∧ ((l.binaryInsert v).1.ln = l.ln + 1 →
        l.ln + 1 ∈ OrderedList.binaryInsert.accesses l v) := by
  have hins : ∀ idx : Int, OrderedList.insert.accesses { l with count := l.count + 1 } idx
      = OrderedList.insert.accesses l idx := fun _ => rfl
  unfold OrderedList.binaryInsert OrderedList.binaryInsert.accesses
  by_cases hc : l.count = l.size
  · rw [if_pos hc, if_pos hc]
    exact ⟨fun i hi => absurd hi (List.not_mem_nil _), fun h => by simp only [] at h; omega⟩
  · rw [if_neg hc, if_neg hc]
    simp only [hins]
    by_cases hz : l.ln = 0
    · rw [if_pos (Or.inl hz), if_pos hz]
      refine ⟨fun i hi => Or.inr ⟨rfl, ?_⟩, fun _ => insert_accesses_top l l.ln (le_refl _)⟩
      exact insert_accesses_bounds l l.ln h0 (le_refl _) i hi
    · rw [if_neg hz]
      by_cases hg : v > (arrGet l.lst (l.ln - 1)).val
      · rw [if_pos (Or.inr hg), if_pos hg]
        refine ⟨fun i hi => ?_, fun _ =>
          List.mem_cons_of_mem _ (insert_accesses_top l l.ln (le_refl _))⟩
        rcases List.mem_cons.mp hi with h | h
        · exact Or.inl ⟨by omega, by omega⟩
        · exact Or.inr ⟨rfl, insert_accesses_bounds l l.ln h0 (le_refl _) i h⟩
      · rw [if_neg (not_or.mpr ⟨hz, hg⟩), if_neg hg]
        by_cases h1 : l.ln = 1
        · rw [if_pos h1, if_pos h1]
          by_cases ha : v < (arrGet l.lst 0).val
          · rw [if_pos ha, if_pos ha]
            refine ⟨fun i hi => ?_, fun _ => List.mem_cons_of_mem _
              (List.mem_cons_of_mem _ (insert_accesses_top l 0 h0))⟩
            rcases List.mem_cons.mp hi with h | h
            · exact Or.inl ⟨by omega, by omega⟩
            · rcases List.mem_cons.mp h with h | h
              · exact Or.inl ⟨by omega, by omega⟩
              · exact Or.inr ⟨rfl, insert_accesses_bounds l 0 (le_refl _) h0 i h⟩
          · rw [if_neg ha, if_neg ha]
            by_cases hb : v > (arrGet l.lst 0).val
            · rw [if_pos hb, if_pos hb]
              refine ⟨fun i hi => ?_, fun _ => List.mem_cons_of_mem _ (List.mem_cons_of_mem _
                (List.mem_cons_of_mem _ (insert_accesses_top l l.ln (le_refl _))))⟩
              rcases List.mem_cons.mp hi with h | h
              · exact Or.inl ⟨by omega, by omega⟩
              · rcases List.mem_cons.mp h with h | h
                · exact Or.inl ⟨by omega, by omega⟩
                · rcases List.mem_cons.mp h with h | h
                  · exact Or.inl ⟨by omega, by omega⟩
                  · exact Or.inr ⟨rfl, insert_accesses_bounds l l.ln h0 (le_refl _) i h⟩
            · rw [if_neg hb, if_neg hb]
              refine ⟨fun i hi => ?_, fun h => ?_⟩
              · simp only [List.mem_cons, List.mem_singleton, List.not_mem_nil, or_false] at hi
                exact Or.inl ⟨by omega, by omega⟩
              · simp only [] at h
                omega
        · rw [if_neg h1, if_neg h1]
          obtain ⟨s1, s2⟩ := searchLoop_bounds l.lst v (l.ln - 1 + 1).toNat (l.ln - 1) (-1)
            (le_refl _) (by omega)
          have hacc := searchLoop_accesses_bounds l.lst v (l.ln - 1 + 1).toNat (l.ln - 1) (-1)
            (le_refl _) (by omega)
          by_cases he : (arrGet l.lst (OrderedList.searchLoop l.lst v (l.ln - 1 + 1).toNat
              (l.ln - 1) (-1))).val = v
          · rw [if_pos he, if_pos he]
            refine ⟨fun i hi => ?_, fun h => ?_⟩
            · rcases List.mem_cons.mp hi with h | h
              · exact Or.inl ⟨by omega, by omega⟩
              · rcases List.mem_append.mp h with h | h
                · obtain ⟨a, b⟩ := hacc i h
                  exact Or.inl ⟨by omega, by omega⟩
                · simp only [List.mem_cons, List.mem_singleton, List.not_mem_nil, or_false,
                    or_self] at h
                  exact Or.inl ⟨by omega, by omega⟩
            · simp only [] at h
              omega
          · rw [if_neg he, if_neg he]
            refine ⟨fun i hi => ?_, fun _ => List.mem_cons_of_mem _ (List.mem_append_right _
              (List.mem_cons_of_mem _ (insert_accesses_top l _ (by omega))))⟩
            rcases List.mem_cons.mp hi with h | h
            · exact Or.inl ⟨by omega, by omega⟩
            · rcases List.mem_append.mp h with h | h
              · obtain ⟨a, b⟩ := hacc i h
                exact Or.inl ⟨by omega, by omega⟩
              · rcases List.mem_cons.mp h with h | h
                · exact Or.inl ⟨by omega, by omega⟩
                · exact Or.inr ⟨rfl, insert_accesses_bounds l _ (by omega) (by omega) i h⟩

theorem insertEntry_length_present (v : Int) (es : List intPair)
    (hs : (es.map intPair.val).Pairwise (fun a b => a < b)) (h : v ∈ es.map intPair.val) :
    (insertEntry v es).length = es.length := by
  induction es with
  | nil => exact absurd h (List.not_mem_nil _)
  | cons q qs ih =>
    rw [List.map_cons, List.pairwise_cons] at hs
    obtain ⟨hq, hqs⟩ := hs
    rw [List.map_cons, List.mem_cons] at h
    rw [insertEntry]
    by_cases h1 : v < q.val
    · rcases h with h | h
      · omega
      · have := hq v h
        omega
    · rw [if_neg h1]
      by_cases h2 : v = q.val
      · rw [if_pos h2]
        rfl
      · rw [if_neg h2]
        rcases h with h | h
        · exact absurd h h2
        · rw [List.length_cons, List.length_cons, ih hqs h]

theorem insertEntry_length_absent (v : Int) (es : List intPair) (h : v ∉ es.map intPair.val) :
    (insertEntry v es).length = es.length + 1 := by
  induction es with
  | nil => rfl
  | cons q qs ih =>
    rw [List.map_cons, List.mem_cons, not_or] at h
    rw [insertEntry]
    by_cases h1 : v < q.val
    · rw [if_pos h1]
      rfl
    · rw [if_neg h1, if_neg h.1, List.length_cons, List.length_cons, ih h.2]

/-- C16, the code against the claim.  For a sorted list (capacity `size`,
entries with strictly ascending values, multiplicities at least one, `count`
the number of recorded samples) whose sample count is below its capacity:
if the list has fewer than `size - 1` entries or `v` is one of its values,
every array element that `binaryInsert(v)` accesses lies within the array and
the call leaves a sorted list of the same capacity whose entries are those of
the list with `v` placed in ascending order, a new entry `(v, 1)` if `v` was
absent, otherwise the entry of `v` with its multiplicity incremented; the
multiset of recorded samples gains exactly one occurrence of `v` and the
sample count rises by one, staying within the capacity.  If the list has
`size - 1` entries and `v` is not one of its values, which the claim covers,
`binaryInsert(v)` accesses the element of index `size`, outside the array:
the shift loop of `List::insert` starts at `i = ln` and writes `lst[ln + 1]`.
Once the sample count equals the capacity, `binaryInsert` accesses no element
and leaves the list unchanged (returning `size`). -/
theorem binaryInsert_sorted_insertion (l : OrderedList) (v : Int) (hwf : l.wellFormed) :
    (l.count < l.size → (l.ln + 1 < l.size ∨ v ∈ l.entries.map intPair.val) →
        (∀ i ∈ OrderedList.binaryInsert.accesses l v, 0 ≤ i ∧ i < l.size)
        ∧ (l.binaryInsert v).1.wellFormed
        ∧ (l.binaryInsert v).1.entries = insertEntry v l.entries
        ∧ samples (l.binaryInsert v).1.entries = v ::ₘ samples l.entries
        ∧ (v ∉ l.entries.map intPair.val → ⟨v, 1⟩ ∈ (l.binaryInsert v).1.entries)
        ∧ (∀ p ∈ l.entries, p.val = v → ⟨v, p.nVals + 1⟩ ∈ (l.binaryInsert v).1.entries)
        ∧ (l.binaryInsert v).1.count = l.count + 1
        ∧ (l.binaryInsert v).1.size = l.size
        ∧ (l.binaryInsert v).1.count ≤ (l.binaryInsert v).1.size)
    ∧ (l.count < l.size → l.ln + 1 = l.size → v ∉ l.entries.map intPair.val →
        l.size ∈ OrderedList.binaryInsert.accesses l v)
    ∧ (l.count = l.size →
        l.binaryInsert v = (l, l.size) ∧ OrderedList.binaryInsert.accesses l v = []) := by
  obtain ⟨hA, hB⟩ := binaryInsert_accesses_cases l v hwf.1
  have hlen : (l.entries.length : Int) = l.ln := by
    have := entries_length l l.ln.toNat (by have := hwf.1; omega)
      (by have := hwf.1; have := hwf.2.1; have := hwf.2.2.1; omega)
    have := hwf.1
    omega
  refine ⟨fun hc hb => ?_, fun hc hfull habs => ?_, fun hc => ⟨binaryInsert_full l v hc, ?_⟩⟩
  · obtain ⟨b1, b2, b3, _, b5⟩ := binaryInsert_entries l v hwf hc
    refine ⟨fun i hi => ?_, binaryInsert_wellFormed l v hwf hc, b1, ?_, ?_, ?_, b2, b3, ?_⟩
    · rcases hA i hi with h | h
      · have := hwf.2.1
        exact ⟨h.1, by omega⟩
      · rcases hb with hb | hb
        · exact ⟨h.2.1, by omega⟩
        · have hl := insertEntry_length_present v l.entries hwf.2.2.2.1 hb
          have := h.1
          rw [b5, hl] at this
          omega
    · rw [b1]
      exact samples_insertEntry v _ hwf.2.2.2.2.1
    · intro h
      rw [b1]
      exact insertEntry_absent v _ h
    · intro p hp hv
      rw [b1]
      exact insertEntry_present v _ hwf.2.2.2.1 p hp hv
    · rw [b2, b3]
      omega
  · obtain ⟨_, _, _, _, b5⟩ := binaryInsert_entries l v hwf hc
    have hl := insertEntry_length_absent v l.entries habs
    have := hB (by rw [b5, hl]; push_cast; omega)
    rw [hfull] at this
    exact this
  · unfold OrderedList.binaryInsert.accesses
    rw [if_pos hc]

theorem binaryInsert_sorted_insertion_witness :
    exampleList.wellFormed ∧ exampleList.count < exampleList.size
    ∧ exampleList.ln + 1 < exampleList.size
    ∧ (∀ i ∈ OrderedList.binaryInsert.accesses exampleList 3, 0 ≤ i ∧ i < exampleList.size)
    ∧ (exampleList.binaryInsert 3).1.wellFormed
    ∧ (exampleList.binaryInsert 3).1.entries = [⟨1, 2⟩, ⟨3, 1⟩, ⟨5, 1⟩]
    ∧ (exampleList.binaryInsert 3).1.count = 4
    ∧ ((exampleList.binaryInsert 3).1.binaryInsert 7).1 = (exampleList.binaryInsert 3).1
    ∧ twoOfThree.wellFormed ∧ twoOfThree.size = 3 ∧ twoOfThree.count = 2
    ∧ twoOfThree.entries = [⟨4, 1⟩, ⟨9, 1⟩]
    ∧ OrderedList.binaryInsert.accesses twoOfThree 1 = [1, 0, 0, 2, 3, 1, 2, 0, 1, 0, 0]
    ∧ 3 ∈ OrderedList.binaryInsert.accesses twoOfThree 1 :=
  have hw : exampleList.wellFormed := by decide
  have hc : exampleList.count < exampleList.size := by decide
  have hb : exampleList.ln + 1 < exampleList.size := by decide
  have h := (binaryInsert_sorted_insertion exampleList 3 hw).1 hc (Or.inl hb)
  have hf : (exampleList.binaryInsert 3).1.count = (exampleList.binaryInsert 3).1.size := by decide
  have ht : twoOfThree.wellFormed := by decide
  ⟨hw, hc, hb, h.1, h.2.1, h.2.2.1.trans (by decide), h.2.2.2.2.2.2.1,
    by rw [((binaryInsert_sorted_insertion (exampleList.binaryInsert 3).1 7 h.2.1).2.2 hf).1],
    ht, by decide, by decide, by decide, by decide,
    (binaryInsert_sorted_insertion twoOfThree 1 ht).2.1 (by decide) (by decide) (by decide)⟩

/-! ## The sorted list: the mean below a gap (C17, C18) -/

/-- C17: for every list whose `ln` entries lie within its array (every sorted
list in particular) and every gap, `averageBelow(gap)` returns 0 if the list
is empty and otherwise the mean, weighted by multiplicity, of the entries at
the indices `0..k`, where `k` is the first index whose successor's value
exceeds the value at `k` by at least `gap`, and the last index if there is no
such successor. -/
theorem averageBelow_walk (l : OrderedList) (gap : Int) (h0 : 0 ≤ l.ln)
    (hl : l.ln ≤ l.lst.length) :
    l.averageBelow gap
        = (if l.entries = [] then 0
           else weightedMean (l.entries.take (gapIndex gap l.entries + 1)))
    ∧ (l.entries ≠ [] → gapIndex gap l.entries < l.entries.length)
    ∧ (∀ i p q, i < gapIndex gap l.entries → l.entries[i]? = some p →
        l.entries[i + 1]? = some q → q.val - p.val < gap)
    ∧ (∀ p q, l.entries[gapIndex gap l.entries]? = some p →
        l.entries[gapIndex gap l.entries + 1]? = some q → q.val - p.val ≥ gap) :=
  ⟨averageBelow_eq l gap h0 hl, gapIndex_lt gap l.entries, (gapIndex_spec gap l.entries).1,
    (gapIndex_spec gap l.entries).2⟩

theorem averageBelow_walk_witness :
    (0 : Int) ≤ exampleList.ln ∧ exampleList.ln ≤ exampleList.lst.length
    ∧ exampleList.entries = [⟨1, 2⟩, ⟨5, 1⟩]
    ∧ gapIndex 3 exampleList.entries = 0
    ∧ exampleList.averageBelow 3 = 1
    ∧ exampleList.averageBelow 5 = 7 / 3 :=
  have h0 : (0 : Int) ≤ exampleList.ln := by decide
  have hl : exampleList.ln ≤ exampleList.lst.length := by decide
  ⟨h0, hl, by decide, by decide,
    (averageBelow_walk exampleList 3 h0 hl).1.trans (by decide!),
    (averageBelow_walk exampleList 5 h0 hl).1.trans (by decide!)⟩

/-- C18, the code at the failing input: after -100, -2, -1, 0, 1, 2 and 90
have been inserted into an empty list of capacity 10 (every array access of
the seven insertions lies within the array), the list holds the seven values
in ascending order, each once, and `averageBelow(80)` returns -100: the walk
stops at the first entry, because -2 - (-100) = 98 is at least 80.  The mean
of the values below 80, which the claim and the description of the method
give, is (-100 + -2 + -1 + 0 + 1 + 2)/6 = -50/3. -/
theorem averageBelow_example :
    (∀ i ∈ insertAll.accesses (OrderedList.new 10) gapSamples, 0 ≤ i ∧ i < 10)
    ∧ (insertAll (OrderedList.new 10) gapSamples).entries
        = [⟨-100, 1⟩, ⟨-2, 1⟩, ⟨-1, 1⟩, ⟨0, 1⟩, ⟨1, 1⟩, ⟨2, 1⟩, ⟨90, 1⟩]
    ∧ gapIndex 80 (insertAll (OrderedList.new 10) gapSamples).entries = 0
    ∧ (insertAll (OrderedList.new 10) gapSamples).averageBelow 80 = -100
    ∧ weightedMean ((insertAll (OrderedList.new 10) gapSamples).entries.filter
        (fun p => decide (p.val < 80))) = ((-100 + -2 + -1 + 0 + 1 + 2 : Int) : double) / 6
    ∧ (insertAll (OrderedList.new 10) gapSamples).averageBelow 80
        ≠ ((-100 + -2 + -1 + 0 + 1 + 2 : Int) : double) / 6 := by
  refine ⟨by decide, by decide, by decide, by decide!, by decide!, by decide!⟩

/-! ## The signed fractional second (C19) -/

theorem buildRawErrorDistrib_rawError (g : G) (r : Int) :
    (buildRawErrorDistrib g r).rawError = g.rawError := by
  unfold buildRawErrorDistrib
  simp only []
  split_ifs <;> rfl

theorem detectDelaySpike_rawError (g : G) (r : Int) :
    (detectDelaySpike g r).1.rawError = g.rawError := by
  unfold detectDelaySpike getAvgNoiseLevel
  simp only []
  split_ifs <;> rfl

theorem getTimeSlew_rawError (g : G) (r : Int) : (getTimeSlew g r).rawError = g.rawError := by
  unfold getTimeSlew
  simp only []
  split_ifs <;> rfl

theorem buildJitterDistrib_rawError (g : G) (r : Int) :
    (buildJitterDistrib g r).rawError = g.rawError := by
  unfold buildJitterDistrib
  simp only []

theorem removeNoise_front_rawError (g : G) (r : Int) :
    (removeNoise.front g r).rawError = g.rawError := by
  unfold removeNoise.front
  simp only []
  split_ifs
  · rw [buildJitterDistrib_rawError, getTimeSlew_rawError]
    show (detectDelaySpike _ _).1.rawError = _
    rw [detectDelaySpike_rawError]
    show (buildRawErrorDistrib _ _).rawError = _
    rw [buildRawErrorDistrib_rawError]
  · rw [getTimeSlew_rawError]
    show (detectDelaySpike _ _).1.rawError = _
    rw [detectDelaySpike_rawError]
    show (buildRawErrorDistrib _ _).rawError = _
    rw [buildRawErrorDistrib_rawError]

theorem removeNoise_rawError (g : G) (r : Int) : (removeNoise g r).1.rawError = g.rawError := by
  cases hs : (removeNoise.front g r).isDelaySpike
  · rw [removeNoise_of_not_spike g r hs]
    have h1 := congrArg SpikeFrame.rawError (removeNoise_back_spike
      (removeNoise.clamp (removeNoise.front g r) r).1 (removeNoise.clamp (removeNoise.front g r) r).2)
    have h2 := congrArg SpikeFrame.rawError (removeNoise_clamp_spike (removeNoise.front g r) r)
    simp only [G.spike] at h1 h2
    rw [h1, h2, removeNoise_front_rawError]
  · rw [removeNoise_of_spike g r hs]
    exact removeNoise_front_rawError g r

theorem makeTimeCorrection_sample_rawError (g : G) (p : timeval) (c : ClockReadings) :
    (makeTimeCorrection.sample g p c).rawError
      = signedFractionalSeconds (p.tv_usec - g.zeroOffset) := by
  have hz : ∀ x : G, x.servo.zeroOffset = x.zeroOffset := fun _ => rfl
  unfold makeTimeCorrection.sample
  simp only []
  split_ifs
  · show signedFractionalSeconds (p.tv_usec - (doTimeFixups _ _ _ _).zeroOffset) = _
    rw [← hz, doTimeFixups_servo]
    rfl
  · rfl

theorem makeTimeCorrection_rawError (g : G) (p : timeval) (c : ClockReadings) :
    (makeTimeCorrection g p c).1.rawError = signedFractionalSeconds (p.tv_usec - g.zeroOffset) := by
  have hf := congrArg FrontFrame.rawError (makeTimeCorrection_front_fields g p c)
  simp only [G.front] at hf
  rw [hf, removeNoise_rawError]
  exact makeTimeCorrection_sample_rawError g p c

/-- C19: for every `x` with `0 <= x < 1000000`, `signedFractionalSeconds(x)`
is `x` if `x <= 500000` and `x - 1000000` otherwise, so the result lies in
`[-499999, 500000]`; and `makeTimeCorrection` sets `rawError` to
`signedFractionalSeconds(pps_usec - zeroOffset)`, `pps_usec` being the
fractional second of its argument. -/
theorem signedFractionalSeconds_spec (x : Int) (h0 : 0 ≤ x) (h1 : x < 1000000)
    (g : G) (pps_t : timeval) (clk : ClockReadings) :
    signedFractionalSeconds x = (if x ≤ 500000 then x else x - 1000000)
    ∧ -499999 ≤ signedFractionalSeconds x
    ∧ signedFractionalSeconds x ≤ 500000
    ∧ (makeTimeCorrection g pps_t clk).1.rawError
        = signedFractionalSeconds (pps_t.tv_usec - g.zeroOffset) := by
  refine ⟨?_, ?_, ?_, makeTimeCorrection_rawError g pps_t clk⟩
  all_goals
    unfold signedFractionalSeconds
    simp only [USECS_PER_SEC]
    split_ifs <;> omega

theorem signedFractionalSeconds_spec_witness :
    signedFractionalSeconds 750000 = -250000
    ∧ (makeTimeCorrection startState ⟨0, 207⟩ ⟨0, 0, 0⟩).1.rawError
        = signedFractionalSeconds (207 - startState.zeroOffset) :=
  ⟨(signedFractionalSeconds_spec 750000 (by decide) (by decide) startState ⟨0, 207⟩ ⟨0, 0, 0⟩).1,
    (signedFractionalSeconds_spec 750000 (by decide) (by decide) startState ⟨0, 207⟩
      ⟨0, 0, 0⟩).2.2.2⟩

/-! ## The counters of samples and of active cycles (C20) -/

theorem getAcquireState_counts (g : G) : (getAcquireState g).1.counts = g.counts := by
  unfold getAcquireState
  simp only []
  split_ifs <;> rfl

theorem getMovingAverage_counts (g : G) (t : Int) :
    (getMovingAverage g t).1.counts = g.counts := by
  unfold getMovingAverage
  simp only []
  split_ifs <;> rfl

theorem makeAverageIntegral_accumulate_counts (g : G) (a : double) :
    (makeAverageIntegral.accumulate g a).counts = g.counts := by
  unfold makeAverageIntegral.accumulate
  simp only []
  split_ifs <;> rfl

theorem makeAverageIntegral_counts (g : G) (a : double) :
    (makeAverageIntegral g a).counts = g.counts := by
  unfold makeAverageIntegral
  simp only []
  split_ifs <;>
    first
    | rfl
    | (show (makeAverageIntegral.accumulate _ _).counts = _
       rw [makeAverageIntegral_accumulate_counts])

theorem integralIsReady_counts (g : G) : (integralIsReady g).1.counts = g.counts := by
  unfold integralIsReady
  simp only []
  split_ifs <;> rfl

theorem recordFrequencyVars_counts (g : G) : (recordFrequencyVars g).counts = g.counts := by
  unfold recordFrequencyVars recordFrequencyVars.interval
  simp only []
  split_ifs <;> rfl

theorem makeTimeCorrection_frequency_counts (g : G) :
    (makeTimeCorrection.frequency g).counts = g.counts := by
  unfold makeTimeCorrection.frequency getIntegral
  show (recordFrequencyVars g).counts = _
  rw [recordFrequencyVars_counts]

theorem recordOffsets_counts (g : G) (t : Int) : (recordOffsets g t).counts = g.counts := by
  unfold recordOffsets
  simp only []
  split_ifs <;> rfl

theorem savePPStime_counts (g : G) (t s : Int) : (savePPStime g t s).counts = g.counts := by
  unfold savePPStime
  simp only []
  split_ifs <;> rfl

theorem controllingSecond_counts (g : G) :
    (controllingSecond g).counts = (g.seq_num, g.activeCount + 1) := by
  have h1 : ∀ x : G, ({ (getMovingAverage x x.timeCorrection).1 with
      avgCorrection := (getMovingAverage x x.timeCorrection).2 } : G).counts = x.counts := fun x => by
    show (getMovingAverage _ _).1.counts = _
    rw [getMovingAverage_counts]
  have h2 : ∀ x : G, ({ x with activeCount := x.activeCount + 1 } : G).counts
      = (x.counts.1, x.counts.2 + 1) := fun _ => rfl
  unfold controllingSecond
  simp only []
  split_ifs <;>
  · rw [h2]
    simp only [recordOffsets_counts, makeTimeCorrection_frequency_counts, integralIsReady_counts,
      makeAverageIntegral_counts, h1]
    rfl

theorem makeTimeCorrection_correct_counts (g : G) (c : ClockReadings) :
    (makeTimeCorrection.correct g c).1.counts
      = (g.seq_num, g.activeCount
          + (if (makeTimeCorrection.correct g c).1.isControlling = true then 1 else 0)) := by
  have e1 : ∀ (y : G) (t s : Int),
      (savePPStime (controllingSecond y) t s).isControlling = y.isControlling := fun y t s =>
    congrArg FrontFrame.isControlling
      ((savePPStime_front (controllingSecond y) t s).trans (controllingSecond_front y))
  have e2 : ∀ (y : G) (t s : Int), (savePPStime y t s).isControlling = y.isControlling :=
    fun y t s => congrArg FrontFrame.isControlling (savePPStime_front y t s)
  unfold makeTimeCorrection.correct
  simp only []
  split_ifs with h1 h2 h2
  · rw [savePPStime_counts, controllingSecond_counts]
    show ((getAcquireState _).1.counts.1, (getAcquireState _).1.counts.2 + 1) = _
    rw [getAcquireState_counts]
    rfl
  · rw [e1] at h2
    exact absurd h1 h2
  · rw [e2] at h2
    exact absurd h2 h1
  · rw [savePPStime_counts]
    show ((getAcquireState _).1.counts.1, (getAcquireState _).1.counts.2) = _
    rw [getAcquireState_counts]
    rfl

theorem makeTimeCorrection_counts (g : G) (p : timeval) (c : ClockReadings) :
    (makeTimeCorrection g p c).1.seq_num = g.seq_num + 1
    ∧ (makeTimeCorrection g p c).1.activeCount
        = g.activeCount + (if (makeTimeCorrection g p c).1.isDelaySpike = false
            ∧ (makeTimeCorrection g p c).1.isControlling = true then 1 else 0) := by
  cases hs : (makeTimeCorrection g p c).1.isDelaySpike
  · have h := hs
    rw [makeTimeCorrection_isDelaySpike] at h
    have hfr := h
    rw [removeNoise_isDelaySpike] at hfr
    have hsv := removeNoise_servo_of_not_spike _ _ hfr
    rw [makeTimeCorrection_sample_servo] at hsv
    have s1 := congrArg ServoFrame.seq_num hsv
    have s2 := congrArg ServoFrame.activeCount hsv
    simp only [G.servo] at s1 s2
    have hc := makeTimeCorrection_correct_counts
      { (removeNoise (makeTimeCorrection.sample g p c)
          (makeTimeCorrection.sample g p c).rawError).1 with
        zeroError := (removeNoise (makeTimeCorrection.sample g p c)
          (makeTimeCorrection.sample g p c).rawError).2 } c
    rw [← makeTimeCorrection_of_not_spike g p c h] at hc
    have c1 := congrArg Prod.fst hc
    have c2 := congrArg Prod.snd hc
    simp only [G.counts] at c1 c2
    refine ⟨c1.trans s1, ?_⟩
    rw [c2]
    simp only [true_and]
    exact congrArg (fun n : Nat => n + (if (makeTimeCorrection g p c).1.isControlling = true
      then 1 else 0)) s2
  · have e := makeTimeCorrection_servo_of_spike g p c hs
    have e1 := congrArg ServoFrame.seq_num e
    have e2 := congrArg ServoFrame.activeCount e
    simp only [G.servo] at e1 e2
    refine ⟨e1, ?_⟩
    rw [e2]
    simp

theorem runSeconds_counts (g : G) (inputs : List (timeval × ClockReadings)) :
    (runSeconds g inputs).seq_num = g.seq_num + inputs.length
    ∧ (runSeconds g inputs).activeCount ≤ g.activeCount + inputs.length := by
  induction inputs generalizing g with
  | nil => exact ⟨rfl, le_refl _⟩
  | cons i l ih =>
    rw [runSeconds_cons]
    obtain ⟨a, b⟩ := ih (makeTimeCorrection g i.1 i.2).1
    obtain ⟨c1, c2⟩ := makeTimeCorrection_counts g i.1 i.2
    rw [a, c1, List.length_cons]
    refine ⟨by omega, ?_⟩
    refine le_trans b ?_
    rw [c2]
    split_ifs <;> omega

/-- C20: in every state reached from `initialize` by `makeTimeCorrection`
steps, `activeCount <= seq_num`, and `seq_num` is the number of samples
processed; every call of `makeTimeCorrection` raises `seq_num` by one, and it
raises `activeCount` by one if the sample is not flagged as a delay spike and
`isControlling` holds after the call, and leaves it unchanged otherwise. -/
theorem activeCount_le_seq_num (g0 : G) (c : Configs) (inputs : List (timeval × ClockReadings))
    (g : G) (pps_t : timeval) (clk : ClockReadings) :
    (runSeconds (initializeController g0 c).1 inputs).activeCount
        ≤ (runSeconds (initializeController g0 c).1 inputs).seq_num
    ∧ (runSeconds (initializeController g0 c).1 inputs).seq_num = inputs.length
    ∧ (makeTimeCorrection g pps_t clk).1.seq_num = g.seq_num + 1
    ∧ (makeTimeCorrection g pps_t clk).1.activeCount
        = g.activeCount + (if (makeTimeCorrection g pps_t clk).1.isDelaySpike = false
            ∧ (makeTimeCorrection g pps_t clk).1.isControlling = true then 1 else 0) := by
  obtain ⟨a, b⟩ := runSeconds_counts (initializeController g0 c).1 inputs
  have hs := initializeController_servo g0 c
  have s1 := congrArg ServoFrame.seq_num hs
  have s2 := congrArg ServoFrame.activeCount hs
  simp only [G.servo] at s1 s2
  rw [s1] at a
  rw [s2] at b
  refine ⟨by omega, by omega, makeTimeCorrection_counts g pps_t clk⟩

/-! ## The counter of seconds in `detectMissedPPS` (C21) -/

theorem cround_ge_one (x : double) (h : 1 ≤ x) : 1 ≤ cround x := by
  unfold cround
  rw [if_pos (by linarith)]
  exact Int.le_floor.mpr (by push_cast; linarith)

theorem detectMissedPPS_unblock_keep (g : G) (h : g.blockDetectClockChange ≠ 1) :
    (detectMissedPPS.unblock g).t_count = g.t_count
    ∧ (detectMissedPPS.unblock g).t_now = g.t_now
    ∧ (detectMissedPPS.unblock g).t_mono_last = g.t_mono_last
    ∧ (detectMissedPPS.unblock g).seq_num = g.seq_num
    ∧ (detectMissedPPS.unblock g).startingFromRestore = g.startingFromRestore := by
  unfold detectMissedPPS.unblock
  simp only []
  split_ifs with h1 h2
  · simp only [decide_eq_true_eq] at h2
    omega
  · exact ⟨rfl, rfl, rfl, rfl, rfl⟩
  · exact ⟨rfl, rfl, rfl, rfl, rfl⟩

theorem detectMissedPPS_unblock_frame (g : G) :
    (detectMissedPPS.unblock g).t_now = g.t_now
    ∧ (detectMissedPPS.unblock g).t_mono_last = g.t_mono_last
    ∧ (detectMissedPPS.unblock g).seq_num = g.seq_num
    ∧ (detectMissedPPS.unblock g).startingFromRestore = g.startingFromRestore := by
  unfold detectMissedPPS.unblock
  simp only []
  split_ifs <;> exact ⟨rfl, rfl, rfl, rfl⟩

theorem detectMissedPPS_start_advance (g : G) :
    (detectMissedPPS.advance (detectMissedPPS.start g)).t_count
      = (if g.seq_num = 0 ∨ g.startingFromRestore ≠ 0 then g.t_now else g.t_count)
        + cround (g.t_mono_now
            - (if g.seq_num < 2 ∨ g.startingFromRestore ≠ 0 then g.t_mono_now - 1
               else g.t_mono_last)) := by
  unfold detectMissedPPS.advance detectMissedPPS.start
  simp only []
  split_ifs <;> simp_all

theorem detectMissedPPS_t_count (g : G) (nearest : Int) (t_mono : timespec) :
    (detectMissedPPS g nearest t_mono).t_count
      = (if g.seq_num = 0 ∨ g.startingFromRestore ≠ 0 then nearest
         else (detectMissedPPS.unblock { g with t_now := nearest }).t_count)
        + cround (((t_mono.tv_sec : double) + (1 / 1000000000) * (t_mono.tv_nsec : double))
            - (if g.seq_num < 2 ∨ g.startingFromRestore ≠ 0
               then ((t_mono.tv_sec : double) + (1 / 1000000000) * (t_mono.tv_nsec : double)) - 1
               else g.t_mono_last)) := by
  obtain ⟨u1, u2, u3, u4⟩ := detectMissedPPS_unblock_frame { g with t_now := nearest }
  show (detectMissedPPS.advance (detectMissedPPS.start
    { detectMissedPPS.unblock { g with t_now := nearest } with
      t_mono_now := (t_mono.tv_sec : double) + (1 / 1000000000) * (t_mono.tv_nsec : double) })).t_count
    = _
  rw [detectMissedPPS_start_advance]
  generalize detectMissedPPS.unblock { g with t_now := nearest } = u at u1 u2 u3 u4 ⊢
  simp only [] at u1 u2 u3 u4 ⊢
  rw [u1, u2, u3, u4]

theorem detectMissedPPS_unblock_reset (g : G) (h : g.blockDetectClockChange = 1) :
    (detectMissedPPS.unblock g).t_count = g.t_now := by
  unfold detectMissedPPS.unblock
  simp only [h]
  rfl

/-- C21, as stated, fails: with the detection of clock changes blocked for one
more second, the counter of seconds at 1005 and the clock at second 1000, a
call of `detectMissedPPS` one second of monotonic time after the previous one
leaves `t_count` at 1001, below 1005 + 1: when the block ends the counter is
set to the second of the clock before it advances. -/
theorem detectMissedPPS_resync_counterexample :
    unblockState.t_count = 1005
    ∧ ((1 : Int) : double) + (1 / 1000000000) * ((0 : Int) : double) - unblockState.t_mono_last ≥ 1
    ∧ (detectMissedPPS unblockState 1000 ⟨1, 0⟩).t_count = 1001
    ∧ ¬ (unblockState.t_count + 1 ≤ (detectMissedPPS unblockState 1000 ⟨1, 0⟩).t_count) := by
  decide!

/-- C21, amended: for every call of `detectMissedPPS` in which the monotonic
clock reading exceeds the recorded reading `t_mono_last` by at least one
second: if the call does not set the counter to the clock second
(`seq_num != 0`, `startingFromRestore == 0` and `blockDetectClockChange` does
not reach zero in this call), `t_count` after the call is at least `t_count`
before the call plus 1, namely `t_count` plus the rounded difference of the
readings, which is 1 while `seq_num < 2`; if the call sets the counter to the
clock second (`seq_num == 0`, `startingFromRestore != 0` or
`blockDetectClockChange` reaches zero in this call), `t_count` after the call
is that second plus the rounded difference of the readings, at least that
second plus 1; where `seq_num < 2` or `startingFromRestore != 0` the call
first sets `t_mono_last` to the reading minus one second, so that the rounded
difference is 1. -/
theorem detectMissedPPS_advances (g : G) (nearest : Int) (t_mono : timespec)
    (hd : 1 ≤ ((t_mono.tv_sec : double) + (1 / 1000000000) * (t_mono.tv_nsec : double))
      - g.t_mono_last) :
    (g.seq_num ≠ 0 → g.startingFromRestore = 0 → g.blockDetectClockChange ≠ 1 →
      g.t_count + 1 ≤ (detectMissedPPS g nearest t_mono).t_count
      ∧ (2 ≤ g.seq_num → (detectMissedPPS g nearest t_mono).t_count
          = g.t_count + cround (((t_mono.tv_sec : double)
              + (1 / 1000000000) * (t_mono.tv_nsec : double)) - g.t_mono_last))
      ∧ (g.seq_num < 2 → (detectMissedPPS g nearest t_mono).t_count = g.t_count + 1))
    ∧ ((g.seq_num = 0 ∨ g.startingFromRestore ≠ 0 ∨ g.blockDetectClockChange = 1) →
      nearest + 1 ≤ (detectMissedPPS g nearest t_mono).t_count
      ∧ (2 ≤ g.seq_num → g.startingFromRestore = 0 →
          (detectMissedPPS g nearest t_mono).t_count
            = nearest + cround (((t_mono.tv_sec : double)
                + (1 / 1000000000) * (t_mono.tv_nsec : double)) - g.t_mono_last))
      ∧ ((g.seq_num < 2 ∨ g.startingFromRestore ≠ 0) →
          (detectMissedPPS g nearest t_mono).t_count = nearest + 1)) := by
  have h1 : cround (1 : double) = 1 := by decide!
  have hge := cround_ge_one _ hd
  refine ⟨fun hseq hres hblock => ?_, fun hset => ?_⟩
  · have hk := (detectMissedPPS_unblock_keep { g with t_now := nearest } hblock).1
    rw [detectMissedPPS_t_count, if_neg (by rw [hres]; simp [hseq]), hk]
    refine ⟨?_, ?_, ?_⟩
    · split_ifs with h
      · rw [sub_sub_cancel, h1]
      · show g.t_count + 1 ≤ g.t_count + _
        omega
    · intro h2
      rw [if_neg (by rw [hres]; simp; omega)]
    · intro h2
      rw [if_pos (Or.inl h2), sub_sub_cancel, h1]
  · have hbase : (if g.seq_num = 0 ∨ g.startingFromRestore ≠ 0 then nearest
        else (detectMissedPPS.unblock { g with t_now := nearest }).t_count) = nearest := by
      by_cases hi : g.seq_num = 0 ∨ g.startingFromRestore ≠ 0
      · rw [if_pos hi]
      · rw [if_neg hi]
        have hb : g.blockDetectClockChange = 1 := by
          rcases hset with h | h | h
          · exact absurd (Or.inl h) hi
          · exact absurd (Or.inr h) hi
          · exact h
        exact detectMissedPPS_unblock_reset { g with t_now := nearest } hb
    rw [detectMissedPPS_t_count, hbase]
    refine ⟨?_, ?_, ?_⟩
    · split_ifs with h
      · rw [sub_sub_cancel, h1]
      · show nearest + 1 ≤ nearest + _
        omega
    · intro h2 hres
      rw [if_neg (by rw [hres]; simp; omega)]
    · intro h2
      rw [if_pos (by rcases h2 with h | h; exact Or.inl h; exact Or.inr h), sub_sub_cancel, h1]

theorem detectMissedPPS_advances_witness :
    lockedState.t_count + 1 ≤ (detectMissedPPS lockedState 1000 ⟨3, 0⟩).t_count
    ∧ (detectMissedPPS lockedState 1000 ⟨3, 0⟩).t_count = lockedState.t_count + 3
    ∧ (detectMissedPPS unblockState 1000 ⟨1, 0⟩).t_count = 1000 + 1
    ∧ (detectMissedPPS startState 1000 ⟨7, 0⟩).t_count = 1000 + 1 :=
  have h := (detectMissedPPS_advances lockedState 1000 ⟨3, 0⟩ (by decide!)).1 (by decide!)
    (by decide!) (by decide!)
  have u := (detectMissedPPS_advances unblockState 1000 ⟨1, 0⟩ (by decide!)).2
    (Or.inr (Or.inr (by decide!)))
  have s := (detectMissedPPS_advances startState 1000 ⟨7, 0⟩ (by decide!)).2
    (Or.inl (by decide!))
  ⟨h.1, (h.2.1 (by decide!)).trans (by decide!), (u.2.1 (by decide!) (by decide!)).trans
    (by decide!), s.2.2 (Or.inl (by decide!))⟩

/-! ## The sleep before each second (C22) -/

/-- C22: for every fractional second `usec` in `[0, 1000000)`,
`setSyncDelay(-500, usec)` returns a delay with `tv_sec = 0` and
`0 <= tv_nsec < 1000000000`, a whole number of microseconds `d = tv_nsec / 1000`
with `(usec + d) mod 1000000 = 999500`, and `d = 1000000 - usec - 500`
whenever that value is not negative: the loop wakes 500 microseconds before a
second boundary. -/
theorem setSyncDelay_wakes_before_second (usec : Int) (h0 : 0 ≤ usec) (h1 : usec < 1000000) :
    (setSyncDelay (-500) usec).tv_sec = 0
    ∧ 0 ≤ (setSyncDelay (-500) usec).tv_nsec
    ∧ (setSyncDelay (-500) usec).tv_nsec < 1000000000
    ∧ (setSyncDelay (-500) usec).tv_nsec % 1000 = 0
    ∧ (usec + (setSyncDelay (-500) usec).tv_nsec / 1000) % 1000000 = 999500
    ∧ (0 ≤ 1000000 - usec - 500 →
        (setSyncDelay (-500) usec).tv_nsec / 1000 = 1000000 - usec - 500) := by
  unfold setSyncDelay
  simp only [USECS_PER_SEC]
  split_ifs with a b
  · omega
  · refine ⟨rfl, ?_, ?_, ?_, ?_, ?_⟩ <;> simp only [] <;> omega
  · refine ⟨rfl, ?_, ?_, ?_, ?_, ?_⟩ <;> simp only [] <;> omega

theorem setSyncDelay_wakes_before_second_witness :
    (setSyncDelay (-500) 999700).tv_sec = 0
    ∧ (setSyncDelay (-500) 999700).tv_nsec = 999800000
    ∧ (999700 + (setSyncDelay (-500) 999700).tv_nsec / 1000) % 1000000 = 999500 :=
  ⟨(setSyncDelay_wakes_before_second 999700 (by decide) (by decide)).1, by decide,
    (setSyncDelay_wakes_before_second 999700 (by decide) (by decide)).2.2.2.2.1⟩

/-! ## Lost interrupts (C23) -/

theorem checkPPSInterrupt_count_spec (g : G) :
    ((checkPPSInterrupt.count g).2 = true ↔
        (g.seq_num : Int) > 0 ∧ g.exit_requested = false ∧ g.interruptReceived = false
          ∧ g.exitOnLostPPS = true ∧ g.interruptLossCount + 1 ≥ 3600)
    ∧ (checkPPSInterrupt.count g).1.interruptLossCount
        = (if (g.seq_num : Int) > 0 ∧ g.exit_requested = false then
            (if g.interruptReceived = false then g.interruptLossCount + 1 else 0)
           else g.interruptLossCount)
    ∧ (checkPPSInterrupt.count g).1.seq_num = g.seq_num
    ∧ (checkPPSInterrupt.count g).1.exit_requested = g.exit_requested
    ∧ (checkPPSInterrupt.count g).1.exitOnLostPPS = g.exitOnLostPPS
    ∧ (checkPPSInterrupt.count g).1.interruptReceived = g.interruptReceived := by
  unfold checkPPSInterrupt.count
  simp only [SECS_PER_HOUR]
  split_ifs <;> simp_all

theorem checkPPSInterrupt_spec (g : G) :
    ((checkPPSInterrupt g).2 = -1 ↔
        (g.seq_num : Int) > 0 ∧ g.exit_requested = false ∧ g.interruptReceived = false
          ∧ g.exitOnLostPPS = true ∧ g.interruptLossCount + 1 ≥ 3600)
    ∧ ((checkPPSInterrupt g).2 = -1 ∨ (checkPPSInterrupt g).2 = 0)
    ∧ (checkPPSInterrupt g).1.interruptLossCount
        = (if (g.seq_num : Int) > 0 ∧ g.exit_requested = false then
            (if g.interruptReceived = false then g.interruptLossCount + 1 else 0)
           else g.interruptLossCount)
    ∧ (checkPPSInterrupt g).1.seq_num = g.seq_num
    ∧ (checkPPSInterrupt g).1.exit_requested = g.exit_requested
    ∧ (checkPPSInterrupt g).1.exitOnLostPPS = g.exitOnLostPPS
    ∧ (checkPPSInterrupt g).1.interruptReceived = false := by
  obtain ⟨c1, c2, c3, c4, c5, c6⟩ := checkPPSInterrupt_count_spec g
  unfold checkPPSInterrupt
  simp only []
  by_cases h : (checkPPSInterrupt.count g).2 = true
  · rw [if_pos h]
    exact ⟨⟨fun _ => c1.mp h, fun _ => rfl⟩, Or.inl rfl, c2, c3, c4, c5,
      c6.trans (c1.mp h).2.2.1⟩
  · rw [if_neg h]
    refine ⟨⟨fun hn => ?_, fun hc => absurd (c1.mpr hc) h⟩, Or.inr rfl, c2, c3, c4, c5, rfl⟩
    exact absurd (show (0 : Int) = -1 from hn) (by decide)

theorem lostSeconds_spec (g : G) (h1 : (g.seq_num : Int) > 0) (h2 : g.exit_requested = false)
    (h3 : g.interruptReceived = false) (n : Nat) :
    (lostSeconds g n).seq_num = g.seq_num
    ∧ (lostSeconds g n).exit_requested = false
    ∧ (lostSeconds g n).exitOnLostPPS = g.exitOnLostPPS
    ∧ (lostSeconds g n).interruptReceived = false
    ∧ (lostSeconds g n).interruptLossCount = g.interruptLossCount + (n : Int) := by
  induction n with
  | zero => exact ⟨rfl, h2, rfl, h3, by simp [lostSeconds]⟩
  | succ n ih =>
    obtain ⟨i1, i2, i3, i4, i5⟩ := ih
    obtain ⟨-, -, s3, s4, s5, s6, s7⟩ := checkPPSInterrupt_spec (lostSeconds g n)
    show (checkPPSInterrupt (lostSeconds g n)).1.seq_num = g.seq_num
      ∧ (checkPPSInterrupt (lostSeconds g n)).1.exit_requested = false
      ∧ (checkPPSInterrupt (lostSeconds g n)).1.exitOnLostPPS = g.exitOnLostPPS
      ∧ (checkPPSInterrupt (lostSeconds g n)).1.interruptReceived = false
      ∧ (checkPPSInterrupt (lostSeconds g n)).1.interruptLossCount
          = g.interruptLossCount + ((n + 1 : Nat) : Int)
    rw [s4, s5, s6, s3, s7, i1, i2, i3, i4, i5, if_pos ⟨h1, rfl⟩, if_pos rfl]
    refine ⟨rfl, rfl, rfl, rfl, ?_⟩
    push_cast
    ring

/-- C23, as stated, fails: before the first PPS sample (`seq_num` is zero) a
call of `checkPPSInterrupt` that finds no sample received leaves the
consecutive-loss counter at 0 instead of increasing it by one, and the same
holds after ten such calls. -/
theorem checkPPSInterrupt_counter_counterexample :
    waitingState.seq_num = 0 ∧ waitingState.interruptReceived = false
    ∧ waitingState.exitOnLostPPS = true
    ∧ waitingState.interruptLossCount = 0
    ∧ (checkPPSInterrupt waitingState).1.interruptLossCount = 0
    ∧ (checkPPSInterrupt waitingState).2 = 0
    ∧ (lostSeconds waitingState 10).interruptLossCount = 0 := by
  decide!

/-- C23, amended: `checkPPSInterrupt` returns -1 if and only if `seq_num > 0`,
exit has not been requested, no PPS sample was received since the previous
call, `exitOnLostPPS` is set and the consecutive-loss counter after being
incremented is at least 3600; otherwise it returns 0.  While `seq_num > 0` and
exit has not been requested, the counter increases by exactly one per call
without a received sample and is reset to 0 by any call that finds a sample
was received; otherwise the call leaves the counter unchanged.  So with
`seq_num > 0`, no exit requested and `exitOnLostPPS` set, the fatal return
happens first on the 3600th consecutive loss. -/
theorem checkPPSInterrupt_fatal_iff (g : G) :
    ((checkPPSInterrupt g).2 = -1 ↔
        (g.seq_num : Int) > 0 ∧ g.exit_requested = false ∧ g.interruptReceived = false
          ∧ g.exitOnLostPPS = true ∧ g.interruptLossCount + 1 ≥ 3600)
    ∧ ((checkPPSInterrupt g).2 = -1 ∨ (checkPPSInterrupt g).2 = 0)
    ∧ (checkPPSInterrupt g).1.interruptLossCount
        = (if (g.seq_num : Int) > 0 ∧ g.exit_requested = false then
            (if g.interruptReceived = false then g.interruptLossCount + 1 else 0)
           else g.interruptLossCount)
    ∧ ((g.seq_num : Int) > 0 → g.exit_requested = false → g.interruptReceived = false →
        g.exitOnLostPPS = true → g.interruptLossCount = 0 →
        (∀ n : Nat, n < 3599 → (checkPPSInterrupt (lostSeconds g n)).2 = 0)
        ∧ (checkPPSInterrupt (lostSeconds g 3599)).2 = -1) := by
  obtain ⟨s1, s2, s3, -⟩ := checkPPSInterrupt_spec g
  refine ⟨s1, s2, s3, fun h1 h2 h3 h4 h5 => ⟨fun n hn => ?_, ?_⟩⟩
  · obtain ⟨i1, i2, i3, i4, i5⟩ := lostSeconds_spec g h1 h2 h3 n
    obtain ⟨t1, t2, -⟩ := checkPPSInterrupt_spec (lostSeconds g n)
    rcases t2 with t2 | t2
    · have := t1.mp t2
      rw [i5, h5] at this
      omega
    · exact t2
  · obtain ⟨i1, i2, i3, i4, i5⟩ := lostSeconds_spec g h1 h2 h3 3599
    refine (checkPPSInterrupt_spec (lostSeconds g 3599)).1.mpr ?_
    rw [i1, i2, i3, i4, i5, h5]
    exact ⟨h1, rfl, rfl, h4, by decide⟩

theorem checkPPSInterrupt_fatal_iff_witness :
    (checkPPSInterrupt (lostSeconds lostPPSState 3598)).2 = 0
    ∧ (checkPPSInterrupt (lostSeconds lostPPSState 3599)).2 = -1 :=
  ⟨((checkPPSInterrupt_fatal_iff lostPPSState).2.2.2 (by decide) rfl rfl rfl rfl).1 3598
      (by decide),
    ((checkPPSInterrupt_fatal_iff lostPPSState).2.2.2 (by decide) rfl rfl rfl rfl).2⟩

/-! ## The ten integrals of the average correction (C24) -/

theorem arrGet_arrSet_ne {α : Type} [Inhabited α] (a : List α) (i j : Int) (v : α) (h : i ≠ j) :
    arrGet (arrSet a i v) j = arrGet a j := by
  unfold arrGet arrSet
  by_cases hj : j < 0
  · rw [if_pos hj, if_pos hj]
  · rw [if_neg hj, if_neg hj]
    by_cases hi : i < 0
    · rw [if_pos hi]
    · rw [if_neg hi]
      have hne : i.toNat ≠ j.toNat := by omega
      simp only [List.getD_eq_getElem?_getD, List.getElem?_set_ne hne]

theorem arrGet_arrSet_self {α : Type} [Inhabited α] (a : List α) (i : Nat) (v : α)
    (h : i < a.length) : arrGet (arrSet a (i : Int) v) (i : Int) = v := by
  unfold arrGet arrSet
  rw [if_neg (by omega), if_neg (by omega)]
  simp only [Int.toNat_ofNat, List.getD_eq_getElem?_getD]
  rw [List.getElem?_set_self (by simpa using h)]
  rfl

theorem getAcquireState_integ (g : G) : (getAcquireState g).1.integ = g.integ := by
  unfold getAcquireState
  simp only []
  split_ifs <;> rfl

theorem getMovingAverage_integ (g : G) (t : Int) :
    (getMovingAverage g t).1.integ = g.integ ∧ (getMovingAverage g t).1.hardLimit = g.hardLimit := by
  unfold getMovingAverage
  simp only []
  split_ifs <;> exact ⟨rfl, rfl⟩

theorem integralIsReady_integ (g : G) :
    (integralIsReady g).1.integ
      = (if g.correctionFifo_idx + 1 ≥ 60 then 0 else g.correctionFifo_idx + 1,
          g.integralCount, g.avgIntegral, g.integral) := by
  unfold integralIsReady
  simp only [SECS_PER_MINUTE, decide_eq_true_eq]
  split_ifs <;> rfl

theorem recordFrequencyVars_integ (g : G) : (recordFrequencyVars g).integ = g.integ := by
  unfold recordFrequencyVars recordFrequencyVars.interval
  simp only []
  split_ifs <;> rfl

theorem makeTimeCorrection_frequency_integ (g : G) :
    (makeTimeCorrection.frequency g).integ = g.integ := by
  unfold makeTimeCorrection.frequency getIntegral
  show (recordFrequencyVars g).integ = _
  rw [recordFrequencyVars_integ]

theorem recordOffsets_integ (g : G) (t : Int) : (recordOffsets g t).integ = g.integ := by
  unfold recordOffsets
  simp only []
  split_ifs <;> rfl

theorem savePPStime_integ (g : G) (t s : Int) : (savePPStime g t s).integ = g.integ := by
  unfold savePPStime
  simp only []
  split_ifs <;> rfl

theorem makeAverageIntegral_accumulate_spec (g : G) (a : double) :
    (makeAverageIntegral.accumulate g a).correctionFifo_idx = g.correctionFifo_idx
    ∧ (makeAverageIntegral.accumulate g a).integral
        = (if 50 ≤ g.correctionFifo_idx then
            arrSet g.integral (g.correctionFifo_idx - 50)
              (arrGet g.integral (g.correctionFifo_idx - 50) + a)
           else g.integral)
    ∧ (makeAverageIntegral.accumulate g a).integralCount
        = (if 50 ≤ g.correctionFifo_idx then
            (if g.correctionFifo_idx = 50 then 0 else g.integralCount)
              + (if g.hardLimit = 1 then 1 else 0)
           else g.integralCount)
    ∧ (makeAverageIntegral.accumulate g a).avgIntegral
        = (if 50 ≤ g.correctionFifo_idx then
            (if g.correctionFifo_idx = 50 then 0 else g.avgIntegral)
              + (if g.hardLimit = 1 then
                  arrGet (arrSet g.integral (g.correctionFifo_idx - 50)
                    (arrGet g.integral (g.correctionFifo_idx - 50) + a))
                    (g.correctionFifo_idx - 50)
                 else 0)
           else g.avgIntegral) := by
  unfold makeAverageIntegral.accumulate
  simp only [SECS_PER_MINUTE, NUM_INTEGRALS, HARD_LIMIT_1, decide_eq_true_eq]
  have e : (60 : Int) - 10 = 50 := by decide
  rw [e]
  by_cases h1 : g.correctionFifo_idx ≥ 50
  · have h1' : 50 ≤ g.correctionFifo_idx := h1
    rw [if_pos h1]
    simp only [if_pos h1']
    by_cases h2 : g.correctionFifo_idx - 50 = 0
    · have h2' : g.correctionFifo_idx = 50 := by omega
      simp only [if_pos h2, if_pos h2']
      split_ifs <;> simp
    · have h2' : ¬ g.correctionFifo_idx = 50 := by omega
      simp only [if_neg h2, if_neg h2']
      split_ifs <;> simp
  · have h1' : ¬ 50 ≤ g.correctionFifo_idx := h1
    rw [if_neg h1]
    simp only [if_neg h1']
    simp

theorem makeAverageIntegral_spec (g : G) (a : double) :
    (makeAverageIntegral g a).correctionFifo_idx = g.correctionFifo_idx
    ∧ (makeAverageIntegral g a).integral = (makeAverageIntegral.accumulate g a).integral
    ∧ (makeAverageIntegral g a).integralCount = (makeAverageIntegral.accumulate g a).integralCount
    ∧ (makeAverageIntegral g a).hardLimit = g.hardLimit
    ∧ (makeAverageIntegral g a).avgIntegral
        = (if g.correctionFifo_idx = 59 ∧ (makeAverageIntegral.accumulate g a).integralCount = 10
            then (makeAverageIntegral.accumulate g a).avgIntegral * (1 / 10)
           else (makeAverageIntegral.accumulate g a).avgIntegral) := by
  have e1 := (makeAverageIntegral_accumulate_spec g a).1
  have e2 : (makeAverageIntegral.accumulate g a).hardLimit = g.hardLimit :=
    congrArg FrontFrame.hardLimit (makeAverageIntegral_accumulate_front g a)
  have e3 : PER_NUM_INTEGRALS = 1 / 10 := by decide!
  unfold makeAverageIntegral
  simp only [SECS_PER_MINUTE, NUM_INTEGRALS, decide_eq_true_eq, Bool.and_eq_true]
  have e : (60 : Int) - 1 = 59 := by decide
  rw [e, e1, e3]
  by_cases h : g.correctionFifo_idx = 59 ∧ (makeAverageIntegral.accumulate g a).integralCount = 10
  · rw [if_pos h, if_pos h]
    exact ⟨rfl, rfl, rfl, e2, rfl⟩
  · rw [if_neg h, if_neg h]
    exact ⟨e1, rfl, rfl, e2, rfl⟩

theorem controllingSecond_integ (g : G) :
    (controllingSecond g).integ
      = (if g.correctionFifo_idx + 1 ≥ 60 then 0 else g.correctionFifo_idx + 1,
          (makeAverageIntegral { (getMovingAverage g g.timeCorrection).1 with
              avgCorrection := (getMovingAverage g g.timeCorrection).2 }
            (getMovingAverage g g.timeCorrection).2).integralCount,
          (makeAverageIntegral { (getMovingAverage g g.timeCorrection).1 with
              avgCorrection := (getMovingAverage g g.timeCorrection).2 }
            (getMovingAverage g g.timeCorrection).2).avgIntegral,
          (makeAverageIntegral { (getMovingAverage g g.timeCorrection).1 with
              avgCorrection := (getMovingAverage g g.timeCorrection).2 }
            (getMovingAverage g g.timeCorrection).2).integral) := by
  have hi := congrArg Prod.fst (getMovingAverage_integ g g.timeCorrection).1
  simp only [G.integ] at hi
  have hm := (makeAverageIntegral_spec { (getMovingAverage g g.timeCorrection).1 with
      avgCorrection := (getMovingAverage g g.timeCorrection).2 }
    (getMovingAverage g g.timeCorrection).2).1
  simp only [] at hm
  have h2 : ∀ x : G, ({ x with activeCount := x.activeCount + 1 } : G).integ = x.integ :=
    fun _ => rfl
  unfold controllingSecond
  simp only []
  rw [h2, recordOffsets_integ, apply_ite G.integ, makeTimeCorrection_frequency_integ, ite_self,
    integralIsReady_integ, hm, hi]

theorem controllingSecond_avgCorrection (g : G) :
    (controllingSecond g).avgCorrection = (getMovingAverage g g.timeCorrection).2 := by
  have h1 := congrArg RingFrame.avgCorrection (controllingSecond_ring g)
  have h2 := congrArg RingFrame.avgCorrection (getMovingAverage_ring g g.timeCorrection)
  simp only [G.ring] at h1 h2
  rw [h1, h2]

/-- C24, as stated, fails: the integrals are not reset at the start of a
minute.  After 110 controlling seconds with a time correction of 60
microseconds each, 50 seconds into the second minute, the integrals hold the
contributions 51, ..., 60 of the first minute; the call of
`makeAverageIntegral` of that second adds the average correction 60 to
`integral[0]`, which becomes 111, and at the second minute-roll the integrals
are 111, ..., 120, the sums of the contributions of both minutes, while the
contributions of the second minute alone are 60 each. -/
theorem integral_not_reset_counterexample :
    secondMinuteState.correctionFifo_idx = 50
    ∧ secondMinuteState.integral = [51, 52, 53, 54, 55, 56, 57, 58, 59, 60]
    ∧ (makeAverageIntegral secondMinuteState 60).integral
        = [111, 52, 53, 54, 55, 56, 57, 58, 59, 60]
    ∧ (controllingSeconds startState (List.replicate 60 60)).correctionFifo_idx = 0
    ∧ (controllingSeconds startState (List.replicate 60 60)).integral
        = [51, 52, 53, 54, 55, 56, 57, 58, 59, 60]
    ∧ (controllingSeconds startState (List.replicate 111 60)).avgCorrection = 60
    ∧ (controllingSeconds startState (List.replicate 120 60)).avgCorrection = 60
    ∧ (controllingSeconds startState (List.replicate 120 60)).correctionFifo_idx = 0
    ∧ (controllingSeconds startState (List.replicate 120 60)).integral
        = [111, 112, 113, 114, 115, 116, 117, 118, 119, 120] := by
  decide!

/-- C24, amended: none of the ten integrals `integral[0..9]` is reset at the
start of a minute (in the second with `correctionFifo_idx = 50` only
`avgIntegral` and `integralCount` restart from zero): in the second with
`correctionFifo_idx = 50 + i`, `makeAverageIntegral` adds `avgCorrection` to
`integral[i]` and leaves the other integrals as they are, in a second with
`correctionFifo_idx < 50` it leaves all of them as they are, and so does the
controlling second of `makeTimeCorrection` with its average correction; at
minute-roll `integral[i]` contains the contributions of all the minutes since
`initialize` zeroed it, one per minute. -/
theorem makeAverageIntegral_accumulates (g : G) (a : double) :
    (makeAverageIntegral g a).integral
        = (if 50 ≤ g.correctionFifo_idx then
            arrSet g.integral (g.correctionFifo_idx - 50)
              (arrGet g.integral (g.correctionFifo_idx - 50) + a)
           else g.integral)
    ∧ (∀ i : Nat, i < g.integral.length →
        arrGet (makeAverageIntegral g a).integral (i : Int)
          = arrGet g.integral (i : Int)
            + (if g.correctionFifo_idx = 50 + (i : Int) then a else 0))
    ∧ (controllingSecond g).integral
        = (if 50 ≤ g.correctionFifo_idx then
            arrSet g.integral (g.correctionFifo_idx - 50)
              (arrGet g.integral (g.correctionFifo_idx - 50) + (controllingSecond g).avgCorrection)
           else g.integral)
    ∧ (g.correctionFifo_idx = 50 →
        (makeAverageIntegral g a).integralCount = (if g.hardLimit = 1 then 1 else 0)
        ∧ (makeAverageIntegral g a).avgIntegral
            = (if g.hardLimit = 1 then arrGet (makeAverageIntegral g a).integral 0 else 0)) := by
  obtain ⟨a1, a2, a3, a4⟩ := makeAverageIntegral_accumulate_spec g a
  obtain ⟨m1, m2, m3, m4, m5⟩ := makeAverageIntegral_spec g a
  have hint : (makeAverageIntegral g a).integral
      = (if 50 ≤ g.correctionFifo_idx then
          arrSet g.integral (g.correctionFifo_idx - 50)
            (arrGet g.integral (g.correctionFifo_idx - 50) + a)
         else g.integral) := m2.trans a2
  refine ⟨hint, fun i hi => ?_, ?_, fun h50 => ?_⟩
  · rw [hint]
    by_cases h : 50 ≤ g.correctionFifo_idx
    · rw [if_pos h]
      by_cases hi2 : g.correctionFifo_idx = 50 + (i : Int)
      · have e : g.correctionFifo_idx - 50 = (i : Int) := by omega
        rw [if_pos hi2, e, arrGet_arrSet_self _ _ _ hi]
      · rw [if_neg hi2, arrGet_arrSet_ne _ _ _ _ (by omega), add_zero]
    · rw [if_neg h, if_neg (by omega), add_zero]
  · have hc := congrArg (fun t => t.2.2.2) (controllingSecond_integ g)
    simp only [G.integ] at hc
    obtain ⟨g1, g2⟩ := getMovingAverage_integ g g.timeCorrection
    have gi := congrArg Prod.fst g1
    have gl := congrArg (fun t => t.2.2.2) g1
    simp only [G.integ] at gi gl
    obtain ⟨b1, b2, -⟩ := makeAverageIntegral_accumulate_spec
      { (getMovingAverage g g.timeCorrection).1 with
        avgCorrection := (getMovingAverage g g.timeCorrection).2 }
      (getMovingAverage g g.timeCorrection).2
    obtain ⟨-, n2, -⟩ := makeAverageIntegral_spec
      { (getMovingAverage g g.timeCorrection).1 with
        avgCorrection := (getMovingAverage g g.timeCorrection).2 }
      (getMovingAverage g g.timeCorrection).2
    simp only [] at b2
    rw [hc, n2, b2, gi, gl, controllingSecond_avgCorrection]
  · have h50' : (50 : Int) ≤ g.correctionFifo_idx := by omega
    have hn : ¬ (g.correctionFifo_idx = 59
        ∧ (makeAverageIntegral.accumulate g a).integralCount = 10) := fun h => by omega
    rw [if_pos h50', if_pos h50] at a3 a4
    rw [if_pos h50'] at hint
    rw [if_neg hn] at m5
    rw [m3, a3, m5, a4, hint, zero_add, zero_add, h50, sub_self]
    exact ⟨rfl, rfl⟩

theorem makeAverageIntegral_accumulates_witness :
    arrGet (makeAverageIntegral secondMinuteState 60).integral ((0 : Nat) : Int)
        = arrGet secondMinuteState.integral ((0 : Nat) : Int)
          + (if secondMinuteState.correctionFifo_idx = 50 + ((0 : Nat) : Int) then 60 else 0)
    ∧ (makeAverageIntegral secondMinuteState 60).integralCount
        = (if secondMinuteState.hardLimit = 1 then 1 else 0) :=
  ⟨(makeAverageIntegral_accumulates secondMinuteState 60).2.1 0 (by decide!),
    ((makeAverageIntegral_accumulates secondMinuteState 60).2.2.2 (by decide!)).1⟩

/-! ## The average of the ten integrals (C25) -/

theorem makeTimeCorrection_correct_eq (g : G) (c : ClockReadings) :
    makeTimeCorrection.correct g c
      = (savePPStime
          (if (makeTimeCorrection.acquire g).isControlling = true then
            controllingSecond (makeTimeCorrection.acquire g)
           else { makeTimeCorrection.acquire g with t_count := (makeTimeCorrection.acquire g).t_now })
          (makeTimeCorrection.acquire g).timeCorrection c.tod_sec, 0) := by
  unfold makeTimeCorrection.correct makeTimeCorrection.acquire
  simp only []
  split_ifs with h
  · have e := congrArg FrontFrame.timeCorrection (controllingSecond_front
      { (getAcquireState (adjtimex
          { { { { g with timeCorrection := Int.tdiv (-g.zeroError) g.invProportionalGain } with
            t3 := { g.t3 with status := 0 } } with
            t3 := { { g.t3 with status := 0 } with modes := ADJ_OFFSET_SINGLESHOT } } with
            t3 := { { { g.t3 with status := 0 } with modes := ADJ_OFFSET_SINGLESHOT } with
              offset := Int.tdiv (-g.zeroError) g.invProportionalGain } })).1 with
        isControlling := (getAcquireState (adjtimex
          { { { { g with timeCorrection := Int.tdiv (-g.zeroError) g.invProportionalGain } with
            t3 := { g.t3 with status := 0 } } with
            t3 := { { g.t3 with status := 0 } with modes := ADJ_OFFSET_SINGLESHOT } } with
            t3 := { { { g.t3 with status := 0 } with modes := ADJ_OFFSET_SINGLESHOT } with
              offset := Int.tdiv (-g.zeroError) g.invProportionalGain } })).2 })
    simp only [G.front] at e
    rw [e]
  · rfl

theorem makeTimeCorrection_acquire_integ (g : G) :
    (makeTimeCorrection.acquire g).integ = g.integ
    ∧ (makeTimeCorrection.acquire g).hardLimit = g.hardLimit := by
  unfold makeTimeCorrection.acquire
  simp only []
  refine ⟨?_, ?_⟩
  · show (getAcquireState _).1.integ = _
    rw [getAcquireState_integ]
    rfl
  · have e := congrArg FrontFrame.hardLimit (getAcquireState_front (adjtimex
      { { { { g with timeCorrection := Int.tdiv (-g.zeroError) g.invProportionalGain } with
        t3 := { g.t3 with status := 0 } } with
        t3 := { { g.t3 with status := 0 } with modes := ADJ_OFFSET_SINGLESHOT } } with
        t3 := { { { g.t3 with status := 0 } with modes := ADJ_OFFSET_SINGLESHOT } with
          offset := Int.tdiv (-g.zeroError) g.invProportionalGain } }))
    exact e

theorem makeTimeCorrection_correct_integ (g : G) (c : ClockReadings) :
    (makeTimeCorrection.correct g c).1.isControlling
        = (makeTimeCorrection.acquire g).isControlling
    ∧ (makeTimeCorrection.correct g c).1.hardLimit = g.hardLimit
    ∧ ((makeTimeCorrection.acquire g).isControlling = true →
        (makeTimeCorrection.correct g c).1.integ
            = (controllingSecond (makeTimeCorrection.acquire g)).integ
          ∧ (makeTimeCorrection.correct g c).1.avgCorrection
            = (controllingSecond (makeTimeCorrection.acquire g)).avgCorrection)
    ∧ ((makeTimeCorrection.acquire g).isControlling = false →
        (makeTimeCorrection.correct g c).1.integ = g.integ) := by
  obtain ⟨a1, a2⟩ := makeTimeCorrection_acquire_integ g
  rw [makeTimeCorrection_correct_eq]
  simp only []
  have hf : ∀ (x : G) (t s : Int), (savePPStime x t s).isControlling = x.isControlling
      ∧ (savePPStime x t s).hardLimit = x.hardLimit
      ∧ (savePPStime x t s).avgCorrection = x.avgCorrection := fun x t s =>
    ⟨congrArg FrontFrame.isControlling (savePPStime_front x t s),
      congrArg FrontFrame.hardLimit (savePPStime_front x t s),
      congrArg ServoFrame.avgCorrection (savePPStime_servo x t s)⟩
  have hcs : ∀ x : G, (controllingSecond x).isControlling = x.isControlling
      ∧ (controllingSecond x).hardLimit = x.hardLimit := fun x =>
    ⟨congrArg FrontFrame.isControlling (controllingSecond_front x),
      congrArg FrontFrame.hardLimit (controllingSecond_front x)⟩
  rcases Bool.eq_false_or_eq_true (makeTimeCorrection.acquire g).isControlling with h | h
  · rw [if_pos h]
    refine ⟨(hf _ _ _).1.trans (hcs _).1,
      (hf _ _ _).2.1.trans ((hcs _).2.trans a2),
      fun _ => ⟨savePPStime_integ _ _ _, (hf _ _ _).2.2⟩, fun hc => ?_⟩
    rw [h] at hc
    exact absurd hc (by decide)
  · rw [if_neg (by rw [h]; decide)]
    refine ⟨(hf _ _ _).1, (hf _ _ _).2.1.trans a2, fun hc => ?_, fun _ => ?_⟩
    · rw [h] at hc
      exact absurd hc (by decide)
    · rw [savePPStime_integ]
      exact a1

theorem makeTimeCorrection_sample_integ (g : G) (p : timeval) (c : ClockReadings) :
    (makeTimeCorrection.sample g p c).integ = g.integ := by
  have e := makeTimeCorrection_sample_servo g p c
  have e1 := congrArg ServoFrame.correctionFifo_idx e
  have e2 := congrArg ServoFrame.integralCount e
  have e3 := congrArg ServoFrame.avgIntegral e
  have e4 := congrArg ServoFrame.integral e
  simp only [G.servo] at e1 e2 e3 e4
  show (_, _, _, _) = _
  rw [e1, e2, e3, e4]
  rfl

theorem makeTimeCorrection_integ_of_spike (g : G) (p : timeval) (c : ClockReadings)
    (h : (makeTimeCorrection g p c).1.isDelaySpike = true) :
    (makeTimeCorrection g p c).1.integ = g.integ := by
  have e := makeTimeCorrection_servo_of_spike g p c h
  have e1 := congrArg ServoFrame.correctionFifo_idx e
  have e2 := congrArg ServoFrame.integralCount e
  have e3 := congrArg ServoFrame.avgIntegral e
  have e4 := congrArg ServoFrame.integral e
  simp only [G.servo] at e1 e2 e3 e4
  show (_, _, _, _) = _
  rw [e1, e2, e3, e4]
  rfl

theorem removeNoise_integ_of_not_spike (g : G) (r : Int)
    (h : (removeNoise.front g r).isDelaySpike = false) :
    (removeNoise g r).1.integ = g.integ := by
  have e := removeNoise_servo_of_not_spike g r h
  have e1 := congrArg ServoFrame.correctionFifo_idx e
  have e2 := congrArg ServoFrame.integralCount e
  have e3 := congrArg ServoFrame.avgIntegral e
  have e4 := congrArg ServoFrame.integral e
  simp only [G.servo] at e1 e2 e3 e4
  show (_, _, _, _) = _
  rw [e1, e2, e3, e4]
  rfl

/-- The integrator part after a call of `makeTimeCorrection`: that of the
controlling second of a state with the integrator part of the state before the
call and the hard limit of the state after it, when the sample is not a delay
spike and the state is controlling; unchanged otherwise. -/
theorem makeTimeCorrection_integ (g : G) (p : timeval) (c : ClockReadings) :
    ((makeTimeCorrection g p c).1.isDelaySpike = false →
      (makeTimeCorrection g p c).1.isControlling = true →
      ∃ x : G, x.integ = g.integ ∧ x.hardLimit = (makeTimeCorrection g p c).1.hardLimit
        ∧ (makeTimeCorrection g p c).1.integ = (controllingSecond x).integ
        ∧ (makeTimeCorrection g p c).1.avgCorrection = (controllingSecond x).avgCorrection)
    ∧ (((makeTimeCorrection g p c).1.isDelaySpike = true
          ∨ (makeTimeCorrection g p c).1.isControlling = false) →
        (makeTimeCorrection g p c).1.integ = g.integ) := by
  cases hs : (makeTimeCorrection g p c).1.isDelaySpike
  · have h := hs
    rw [makeTimeCorrection_isDelaySpike] at h
    have hfr := h
    rw [removeNoise_isDelaySpike] at hfr
    have hi := (removeNoise_integ_of_not_spike _ _ hfr).trans
      (makeTimeCorrection_sample_integ g p c)
    have he := makeTimeCorrection_of_not_spike g p c h
    obtain ⟨c1, c2, c3, c4⟩ := makeTimeCorrection_correct_integ
      { (removeNoise (makeTimeCorrection.sample g p c)
          (makeTimeCorrection.sample g p c).rawError).1 with
        zeroError := (removeNoise (makeTimeCorrection.sample g p c)
          (makeTimeCorrection.sample g p c).rawError).2 } c
    obtain ⟨a1, a2⟩ := makeTimeCorrection_acquire_integ
      { (removeNoise (makeTimeCorrection.sample g p c)
          (makeTimeCorrection.sample g p c).rawError).1 with
        zeroError := (removeNoise (makeTimeCorrection.sample g p c)
          (makeTimeCorrection.sample g p c).rawError).2 }
    rw [← he] at c1 c2 c3 c4
    refine ⟨fun _ hc => ⟨_, a1.trans hi, a2.trans c2.symm, (c3 (c1.symm.trans hc)).1,
      (c3 (c1.symm.trans hc)).2⟩, fun hd => ?_⟩
    rcases hd with hd | hd
    · exact absurd hd (by simp)
    · exact (c4 (c1.symm.trans hd)).trans hi
  · exact ⟨fun hc => absurd hc (by simp), fun _ => makeTimeCorrection_integ_of_spike g p c hs⟩

/-- The integrator part after `makeAverageIntegral`, in terms of the state
before the call. -/
theorem makeAverageIntegral_full (g : G) (a : double) :
    (makeAverageIntegral g a).integral
        = (if 50 ≤ g.correctionFifo_idx then
            arrSet g.integral (g.correctionFifo_idx - 50)
              (arrGet g.integral (g.correctionFifo_idx - 50) + a)
           else g.integral)
    ∧ (makeAverageIntegral g a).integralCount
        = (if 50 ≤ g.correctionFifo_idx then
            (if g.correctionFifo_idx = 50 then 0 else g.integralCount)
              + (if g.hardLimit = 1 then 1 else 0)
           else g.integralCount)
    ∧ (makeAverageIntegral g a).avgIntegral
        = (if g.correctionFifo_idx = 59 ∧ (makeAverageIntegral g a).integralCount = 10 then
            ((if g.correctionFifo_idx = 50 then 0 else g.avgIntegral)
              + (if g.hardLimit = 1 then
                  arrGet (makeAverageIntegral g a).integral (g.correctionFifo_idx - 50)
                 else 0)) * (1 / 10)
           else if 50 ≤ g.correctionFifo_idx then
            (if g.correctionFifo_idx = 50 then 0 else g.avgIntegral)
              + (if g.hardLimit = 1 then
                  arrGet (makeAverageIntegral g a).integral (g.correctionFifo_idx - 50)
                 else 0)
           else g.avgIntegral) := by
  obtain ⟨b1, b2, b3, b4⟩ := makeAverageIntegral_accumulate_spec g a
  obtain ⟨n1, n2, n3, n4, n5⟩ := makeAverageIntegral_spec g a
  refine ⟨n2.trans b2, n3.trans b3, ?_⟩
  rw [n5, ← n3, b4, n2, b2]
  by_cases h50 : 50 ≤ g.correctionFifo_idx
  · simp only [if_pos h50]
  · have h59 : ¬ (g.correctionFifo_idx = 59 ∧ (makeAverageIntegral g a).integralCount = 10) :=
      fun h => h50 (by omega)
    simp only [if_neg h50, if_neg h59]

/-- The integrator part after a controlling second, in terms of the integrator
part and the hard limit before it and of the average correction of that
second. -/
theorem controllingSecond_integ_spec (x : G) :
    (controllingSecond x).correctionFifo_idx
        = (if x.correctionFifo_idx + 1 ≥ 60 then 0 else x.correctionFifo_idx + 1)
    ∧ (controllingSecond x).integral
        = (if 50 ≤ x.correctionFifo_idx then
            arrSet x.integral (x.correctionFifo_idx - 50)
              (arrGet x.integral (x.correctionFifo_idx - 50) + (controllingSecond x).avgCorrection)
           else x.integral)
    ∧ (controllingSecond x).integralCount
        = (if 50 ≤ x.correctionFifo_idx then
            (if x.correctionFifo_idx = 50 then 0 else x.integralCount)
              + (if x.hardLimit = 1 then 1 else 0)
           else x.integralCount)
    ∧ (controllingSecond x).avgIntegral
        = (if x.correctionFifo_idx = 59 ∧ (controllingSecond x).integralCount = 10 then
            ((if x.correctionFifo_idx = 50 then 0 else x.avgIntegral)
              + (if x.hardLimit = 1 then
                  arrGet (controllingSecond x).integral (x.correctionFifo_idx - 50)
                 else 0)) * (1 / 10)
           else if 50 ≤ x.correctionFifo_idx then
            (if x.correctionFifo_idx = 50 then 0 else x.avgIntegral)
              + (if x.hardLimit = 1 then
                  arrGet (controllingSecond x).integral (x.correctionFifo_idx - 50)
                 else 0)
           else x.avgIntegral) := by
  have hc := controllingSecond_integ x
  obtain ⟨g1, g2⟩ := getMovingAverage_integ x x.timeCorrection
  have gi := congrArg Prod.fst g1
  have gc := congrArg (fun t => t.2.1) g1
  have ga := congrArg (fun t => t.2.2.1) g1
  have gl := congrArg (fun t => t.2.2.2) g1
  simp only [G.integ] at gi gc ga gl
  obtain ⟨k1, k2, k3⟩ := makeAverageIntegral_full
    { (getMovingAverage x x.timeCorrection).1 with
      avgCorrection := (getMovingAverage x x.timeCorrection).2 }
    (getMovingAverage x x.timeCorrection).2
  generalize makeAverageIntegral
    { (getMovingAverage x x.timeCorrection).1 with
      avgCorrection := (getMovingAverage x x.timeCorrection).2 }
    (getMovingAverage x x.timeCorrection).2 = M at hc k1 k2 k3
  simp only [] at k1 k2 k3
  rw [gi, gl, ← controllingSecond_avgCorrection] at k1
  rw [gi, gc, g2] at k2
  rw [gi, ga, g2] at k3
  have h1 := congrArg Prod.fst hc
  have h2 := congrArg (fun t => t.2.1) hc
  have h3 := congrArg (fun t => t.2.2.1) hc
  have h4 := congrArg (fun t => t.2.2.2) hc
  simp only [G.integ] at h1 h2 h3 h4
  rw [← h2] at k2 k3
  rw [← h3, ← h4] at k3
  rw [← h4] at k1
  exact ⟨h1, k1, k2, k3⟩

theorem integralInvariant_of_integ (g1 g2 : G) (h : g1.integ = g2.integ)
    (hi : integralInvariant g2) : integralInvariant g1 := by
  have h1 := congrArg Prod.fst h
  have h2 := congrArg (fun t => t.2.1) h
  simp only [G.integ] at h1 h2
  unfold integralInvariant at hi ⊢
  rw [h1, h2]
  exact hi

theorem controllingSecond_integralInvariant (x : G) (hi : integralInvariant x) :
    integralInvariant (controllingSecond x) := by
  obtain ⟨s1, -, s3, -⟩ := controllingSecond_integ_spec x
  unfold integralInvariant at hi ⊢
  rw [s1, s3]
  obtain ⟨i1, i2, i3, i4⟩ := hi
  split_ifs <;> refine ⟨?_, ?_, ?_, ?_⟩ <;> omega

theorem makeTimeCorrection_integralInvariant (g : G) (p : timeval) (c : ClockReadings)
    (hi : integralInvariant g) : integralInvariant (makeTimeCorrection g p c).1 := by
  obtain ⟨m1, m2⟩ := makeTimeCorrection_integ g p c
  rcases Bool.eq_false_or_eq_true (makeTimeCorrection g p c).1.isDelaySpike with hs | hs
  · exact integralInvariant_of_integ _ _ (m2 (Or.inl hs)) hi
  · rcases Bool.eq_false_or_eq_true (makeTimeCorrection g p c).1.isControlling with hc | hc
    · obtain ⟨x, x1, -, x3, -⟩ := m1 hs hc
      exact integralInvariant_of_integ _ _ x3
        (controllingSecond_integralInvariant x (integralInvariant_of_integ _ _ x1 hi))
    · exact integralInvariant_of_integ _ _ (m2 (Or.inr hc)) hi

theorem runSeconds_integralInvariant (g : G) (inputs : List (timeval × ClockReadings))
    (hi : integralInvariant g) : integralInvariant (runSeconds g inputs) := by
  induction inputs generalizing g with
  | nil => exact hi
  | cons i l ih =>
    rw [runSeconds_cons]
    exact ih _ (makeTimeCorrection_integralInvariant g i.1 i.2 hi)

theorem initializeController_integralInvariant (g : G) (c : Configs) :
    integralInvariant (initializeController g c).1 := by
  have e := initializeController_servo g c
  have e1 := congrArg ServoFrame.correctionFifo_idx e
  have e2 := congrArg ServoFrame.integralCount e
  simp only [G.servo] at e1 e2
  unfold integralInvariant
  rw [e1, e2]
  refine ⟨?_, ?_, ?_, ?_⟩ <;> omega

theorem integralSum_succ (l : List double) (k : Nat) :
    integralSum l (k + 1) = integralSum l k + arrGet l (k : Int) := by
  unfold integralSum
  rw [List.range_succ, List.map_append, List.sum_append]
  simp

theorem integralSum_arrSet (l : List double) (k : Nat) (v : double) (n : Nat) (h : n ≤ k) :
    integralSum (arrSet l (k : Int) v) n = integralSum l n := by
  unfold integralSum
  congr 1
  apply List.map_congr_left
  intro j hj
  have hj' : j < n := List.mem_range.mp hj
  exact arrGet_arrSet_ne _ _ _ _ (by omega)

/-- One of the last ten seconds of a minute with a hard limit of 1: the state
`y` carries the integrator part left by the controlling second of `x`, which
is `k` seconds after the index 50. -/
theorem lastTen_step (x y : G) (k : Nat) (hy : y.integ = (controllingSecond x).integ)
    (hk : k ≤ 9) (hh : x.hardLimit = 1) (hidx : x.correctionFifo_idx = 50 + (k : Int))
    (hP : 0 < k → x.integralCount = (k : Int) ∧ x.avgIntegral = integralSum x.integral k) :
    (k < 9 → y.correctionFifo_idx = 50 + ((k + 1 : Nat) : Int)
        ∧ y.integralCount = ((k + 1 : Nat) : Int)
        ∧ y.avgIntegral = integralSum y.integral (k + 1))
    ∧ (k = 9 → y.correctionFifo_idx = 0 ∧ y.integralCount = 10
        ∧ y.avgIntegral = integralSum y.integral 10 * (1 / 10)) := by
  obtain ⟨s1, s2, s3, s4⟩ := controllingSecond_integ_spec x
  have h1 := congrArg Prod.fst hy
  have h2 := congrArg (fun t => t.2.1) hy
  have h3 := congrArg (fun t => t.2.2.1) hy
  have h4 := congrArg (fun t => t.2.2.2) hy
  simp only [G.integ] at h1 h2 h3 h4
  rw [← h1] at s1
  rw [← h2] at s3 s4
  rw [← h3, ← h4] at s4
  rw [← h4] at s2
  have h50 : (50 : Int) ≤ x.correctionFifo_idx := by omega
  have hsub : x.correctionFifo_idx - 50 = (k : Int) := by omega
  rw [if_pos h50, hsub] at s2
  rw [if_pos h50, if_pos hh] at s3
  simp only [if_pos hh, if_pos h50, hsub] at s4
  have hsum : integralSum y.integral k = integralSum x.integral k := by
    rw [s2]
    exact integralSum_arrSet _ _ _ _ (le_refl _)
  have hA : (if x.correctionFifo_idx = 50 then 0 else x.avgIntegral)
      = integralSum y.integral k := by
    by_cases h0 : k = 0
    · rw [if_pos (by omega), h0]
      rfl
    · rw [if_neg (by omega), (hP (by omega)).2, hsum]
  have hC : y.integralCount = ((k + 1 : Nat) : Int) := by
    rw [s3]
    by_cases h0 : k = 0
    · rw [if_pos (by omega), h0]
      rfl
    · rw [if_neg (by omega), (hP (by omega)).1]
      push_cast
      rfl
  rw [hA, ← integralSum_succ] at s4
  refine ⟨fun hlt => ⟨?_, hC, ?_⟩, fun h9 => ⟨?_, ?_, ?_⟩⟩
  · rw [s1, if_neg (by omega)]
    push_cast
    omega
  · rw [s4, if_neg (fun h => by omega)]
  · rw [s1, if_pos (by omega)]
  · rw [hC, h9]
    rfl
  · rw [s4, if_pos ⟨by omega, by rw [hC, h9]; rfl⟩, h9]

theorem runSeconds_integ_of_no_controlling (inputs : List (timeval × ClockReadings)) :
    ∀ g : G, controllingCount g inputs = 0 → (runSeconds g inputs).integ = g.integ := by
  induction inputs with
  | nil => exact fun _ _ => rfl
  | cons i l ih =>
    intro g hc
    unfold controllingCount at hc
    have hz : (if !(makeTimeCorrection g i.1 i.2).1.isDelaySpike
        && (makeTimeCorrection g i.1 i.2).1.isControlling then 1 else 0) = 0 := by omega
    have hl : controllingCount (makeTimeCorrection g i.1 i.2).1 l = 0 := by omega
    have hn : (makeTimeCorrection g i.1 i.2).1.isDelaySpike = true
        ∨ (makeTimeCorrection g i.1 i.2).1.isControlling = false := by
      rcases Bool.eq_false_or_eq_true (makeTimeCorrection g i.1 i.2).1.isDelaySpike with h | h
      · exact Or.inl h
      · rcases Bool.eq_false_or_eq_true (makeTimeCorrection g i.1 i.2).1.isControlling
          with h2 | h2
        · rw [h, h2] at hz
          exact absurd hz (by decide)
        · exact Or.inr h2
    rw [runSeconds_cons, ih _ hl]
    exact (makeTimeCorrection_integ g i.1 i.2).2 hn

theorem lockedSeconds_run (inputs : List (timeval × ClockReadings)) :
    ∀ (g : G) (k : Nat), k ≤ 9 → k + controllingCount g inputs = 10 →
      g.correctionFifo_idx = 50 + (k : Int) →
      (0 < k → g.integralCount = (k : Int) ∧ g.avgIntegral = integralSum g.integral k) →
      lockedSeconds g inputs = true →
      (runSeconds g inputs).correctionFifo_idx = 0
      ∧ (runSeconds g inputs).integralCount = 10
      ∧ (runSeconds g inputs).avgIntegral
          = integralSum (runSeconds g inputs).integral 10 * (1 / 10) := by
  induction inputs with
  | nil =>
    intro g k hk hc
    unfold controllingCount at hc
    omega
  | cons i l ih =>
    intro g k hk hcnt hidx hP hl
    unfold lockedSeconds at hl
    unfold controllingCount at hcnt
    simp only [Bool.and_eq_true, Bool.or_eq_true, Bool.not_eq_true', decide_eq_true_eq] at hl
    obtain ⟨hl1, hl'⟩ := hl
    rw [runSeconds_cons]
    rcases Bool.eq_false_or_eq_true (makeTimeCorrection g i.1 i.2).1.isDelaySpike with hs | hs
    · have hi := (makeTimeCorrection_integ g i.1 i.2).2 (Or.inl hs)
      have xi := congrArg Prod.fst hi
      have xc := congrArg (fun t => t.2.1) hi
      have xa := congrArg (fun t => t.2.2.1) hi
      have xl := congrArg (fun t => t.2.2.2) hi
      simp only [G.integ] at xi xc xa xl
      rw [hs] at hcnt
      refine ih _ k hk (by simpa using hcnt) (xi.trans hidx)
        (fun h0 => by rw [xc, xa, xl]; exact hP h0) hl'
    · rcases Bool.eq_false_or_eq_true (makeTimeCorrection g i.1 i.2).1.isControlling with hc | hc
      · have hh : (makeTimeCorrection g i.1 i.2).1.hardLimit = 1 := by
          rcases hl1 with (h | h) | h
          · rw [hs] at h
            exact absurd h (by decide)
          · rw [hc] at h
            exact absurd h (by decide)
          · exact h
        obtain ⟨x, x1, x2, x3, -⟩ := (makeTimeCorrection_integ g i.1 i.2).1 hs hc
        have xi := congrArg Prod.fst x1
        have xc := congrArg (fun t => t.2.1) x1
        have xa := congrArg (fun t => t.2.2.1) x1
        have xl := congrArg (fun t => t.2.2.2) x1
        simp only [G.integ] at xi xc xa xl
        obtain ⟨t1, t2⟩ := lastTen_step x (makeTimeCorrection g i.1 i.2).1 k x3 hk
          (x2.trans hh) (xi.trans hidx) (fun h0 => by rw [xc, xa, xl]; exact hP h0)
        rw [hs, hc] at hcnt
        have hcnt2 : k + 1 + controllingCount (makeTimeCorrection g i.1 i.2).1 l = 10 := by
          simpa [add_assoc] using hcnt
        by_cases h9 : k = 9
        · obtain ⟨u1, u2, u3⟩ := t2 h9
          have hi := runSeconds_integ_of_no_controlling l (makeTimeCorrection g i.1 i.2).1
            (by omega)
          have yi := congrArg Prod.fst hi
          have yc := congrArg (fun t => t.2.1) hi
          have ya := congrArg (fun t => t.2.2.1) hi
          have yl := congrArg (fun t => t.2.2.2) hi
          simp only [G.integ] at yi yc ya yl
          rw [yi, yc, ya, yl]
          exact ⟨u1, u2, u3⟩
        · obtain ⟨u1, u2, u3⟩ := t1 (by omega)
          exact ih _ (k + 1) (by omega) hcnt2 u1 (fun _ => ⟨u2, u3⟩) hl'
      · have hi := (makeTimeCorrection_integ g i.1 i.2).2 (Or.inr hc)
        have xi := congrArg Prod.fst hi
        have xc := congrArg (fun t => t.2.1) hi
        have xa := congrArg (fun t => t.2.2.1) hi
        have xl := congrArg (fun t => t.2.2.2) hi
        simp only [G.integ] at xi xc xa xl
        rw [hc] at hcnt
        refine ih _ k hk (by simpa using hcnt) (xi.trans hidx)
          (fun h0 => by rw [xc, xa, xl]; exact hP h0) hl'

/-- C25: if `hardLimit == 1` in every one of the ten controlling seconds with
`correctionFifo_idx = 50..59` of a minute (seconds that are not controlling
seconds, such as those flagged as delay spikes, leave the index and the
integrals alone and may lie between them), then
after the second with index 59 `integralCount == 10` and `avgIntegral` is the
arithmetic mean of `integral[0..9]`; in every state reached from `initialize`
by calls of `makeTimeCorrection`, `integralCount <= 10`; and `getIntegral`
returns `avgIntegral` if `hardLimit == 1` and `integralCount == 10` at the
time of the call, and `integral[9]` otherwise. -/
theorem avgIntegral_mean_of_ten_integrals :
    (∀ (g : G) (inputs : List (timeval × ClockReadings)),
      g.correctionFifo_idx = 50 → controllingCount g inputs = 10 →
      lockedSeconds g inputs = true →
        (runSeconds g inputs).correctionFifo_idx = 0
        ∧ (runSeconds g inputs).integralCount = 10
        ∧ (runSeconds g inputs).avgIntegral = integralSum (runSeconds g inputs).integral 10 / 10)
    ∧ (∀ (g0 : G) (c : Configs) (inputs : List (timeval × ClockReadings)),
        (runSeconds (initializeController g0 c).1 inputs).integralCount ≤ 10)
    ∧ (∀ g : G, (getIntegral g).2
        = (if g.hardLimit = 1 ∧ g.integralCount = 10 then g.avgIntegral
           else arrGet g.integral 9)) := by
  refine ⟨fun g inputs hidx hcnt hl => ?_, fun g0 c inputs => ?_, fun g => ?_⟩
  · obtain ⟨r1, r2, r3⟩ := lockedSeconds_run inputs g 0 (by omega) (by omega)
      (by rw [hidx]; rfl) (fun h => absurd h (by decide)) hl
    refine ⟨r1, r2, ?_⟩
    rw [r3]
    ring
  · obtain ⟨i1, i2, i3, i4⟩ := runSeconds_integralInvariant _ inputs
      (initializeController_integralInvariant g0 c)
    by_cases h : (runSeconds (initializeController g0 c).1 inputs).correctionFifo_idx ≤ 50
    · exact i3 h
    · have := i4 (by omega)
      omega
  · unfold getIntegral
    simp only [HARD_LIMIT_1, NUM_INTEGRALS, Bool.and_eq_true, decide_eq_true_eq]

theorem avgIntegral_mean_of_ten_integrals_witness :
    controllingCount lastTenState spikedMinuteEnd = 10
    ∧ (makeTimeCorrection (runSeconds lastTenState (List.replicate 5 (⟨0, 7⟩, ⟨0, 0, 0⟩)))
        ⟨0, 107⟩ ⟨0, 0, 0⟩).1.isDelaySpike = true
    ∧ (runSeconds lastTenState spikedMinuteEnd).correctionFifo_idx = 0
    ∧ (runSeconds lastTenState spikedMinuteEnd).integralCount = 10
    ∧ (runSeconds lastTenState spikedMinuteEnd).avgIntegral
        = integralSum (runSeconds lastTenState spikedMinuteEnd).integral 10 / 10
    ∧ (runSeconds lastTenState spikedMinuteEnd).avgIntegral = 11 / 2
    ∧ (runSeconds lastTenState (List.replicate 10 (⟨0, 7⟩, ⟨0, 0, 0⟩))).integralCount = 10 :=
  have h := avgIntegral_mean_of_ten_integrals.1 lastTenState spikedMinuteEnd (by decide!)
    (by decide!) (by decide!)
  have q := avgIntegral_mean_of_ten_integrals.1 lastTenState
    (List.replicate 10 (⟨0, 7⟩, ⟨0, 0, 0⟩)) (by decide!) (by decide!) (by decide!)
  ⟨by decide!, by decide!, h.1, h.2.1, h.2.2, by decide!, q.2.1⟩

/-! ## The doubling of the hard limit while the slew is high (C26) -/

theorem hardLimitLoop_doubles (d_4 : Int) (n : Nat) (h : Int) :
    ∃ k : Nat, hardLimitLoop d_4 n h = h * 2 ^ k := by
  induction n generalizing h with
  | zero => exact ⟨0, by simp [hardLimitLoop]⟩
  | succ n ih =>
    unfold hardLimitLoop
    split_ifs with hc
    · obtain ⟨k, hk⟩ := ih (h * 2)
      exact ⟨k + 1, by rw [hk]; ring⟩
    · exact ⟨0, by simp⟩

theorem setHardLimit_high_slew (g : G) (avgCorrection : double)
    (ha : 60 ≤ g.activeCount) (hs : 300 < |g.avgSlew|) :
    (setHardLimit g avgCorrection).hardLimit
      = hardLimitLoop (toInt (|g.avgSlew| * 4)) 16 g.hardLimit := by
  unfold setHardLimit
  simp only [SECS_PER_MINUTE, SLEW_MAX, decide_eq_true_eq]
  rw [if_neg (by omega), if_pos (by push_cast; exact hs)]

theorem setHardLimit_inactive (g : G) (avgCorrection : double) (ha : g.activeCount < 60) :
    (setHardLimit g avgCorrection).hardLimit = 32768 := by
  unfold setHardLimit
  simp only [SECS_PER_MINUTE, decide_eq_true_eq]
  rw [if_pos (by omega)]
  rfl

/-- C26, as stated, fails: with 60 active seconds, an average slew of 512 and
a hard limit of 2048, `setHardLimit` leaves the hard limit at 2048, which is
neither strictly greater than `4 * |avgSlew| = 2048` nor the cap 32768: the
loop stops as soon as the hard limit is not below the integer `d_4`. -/
theorem setHardLimit_not_above_counterexample :
    slewState.activeCount ≥ 60 ∧ |slewState.avgSlew| > 300
    ∧ slewState.hardLimit ∈ hardLimitValues
    ∧ (setHardLimit slewState 0).hardLimit = 2048
    ∧ ¬ (((setHardLimit slewState 0).hardLimit : double) > 4 * |slewState.avgSlew|)
    ∧ (setHardLimit slewState 0).hardLimit ≠ 32768 := by
  decide!

/-- C26, amended: for every state with `activeCount >= 60`, `|avgSlew| > 300`
and `hardLimit` a power of two in `[1, 32768]`, `setHardLimit` only ever
doubles `hardLimit` (the result is `hardLimit * 2 ^ k`, again such a power of
two) and leaves it either at least the integer part of `4 * |avgSlew|`, so
greater than `4 * |avgSlew| - 1`, or equal to the cap 32768; for every state
with `activeCount < 60` it sets `hardLimit` to 32768. -/
theorem setHardLimit_doubles_to_slew (g : G) (avgCorrection : double) :
    (60 ≤ g.activeCount → 300 < |g.avgSlew| → g.hardLimit ∈ hardLimitValues →
      (∃ k : Nat, (setHardLimit g avgCorrection).hardLimit = g.hardLimit * 2 ^ k)
      ∧ (setHardLimit g avgCorrection).hardLimit ∈ hardLimitValues
      ∧ (toInt (|g.avgSlew| * 4) ≤ (setHardLimit g avgCorrection).hardLimit
          ∧ 4 * |g.avgSlew| - 1 < ((setHardLimit g avgCorrection).hardLimit : double)
        ∨ (setHardLimit g avgCorrection).hardLimit = 32768))
    ∧ (g.activeCount < 60 → (setHardLimit g avgCorrection).hardLimit = 32768) := by
  refine ⟨fun ha hs hm => ?_, setHardLimit_inactive g avgCorrection⟩
  have hmem := setHardLimit_mem g avgCorrection hm
  have h1 : (1 : Int) ≤ g.hardLimit := by
    simp only [hardLimitValues, List.mem_cons, List.mem_singleton, List.not_mem_nil,
      or_false] at hm
    omega
  have hex := hardLimitLoop_exits (toInt (|g.avgSlew| * 4)) g.hardLimit h1
  have hle : (setHardLimit g avgCorrection).hardLimit ≤ 32768 := by
    simp only [hardLimitValues, List.mem_cons, List.mem_singleton, List.not_mem_nil,
      or_false] at hmem
    omega
  rw [setHardLimit_high_slew g avgCorrection ha hs] at hmem hle ⊢
  refine ⟨hardLimitLoop_doubles _ _ _, hmem, ?_⟩
  by_cases hc : hardLimitLoop (toInt (|g.avgSlew| * 4)) 16 g.hardLimit < HARD_LIMIT_NONE
  · left
    have hge : toInt (|g.avgSlew| * 4) ≤ hardLimitLoop (toInt (|g.avgSlew| * 4)) 16 g.hardLimit :=
      not_lt.mp (fun hlt => hex ⟨hlt, hc⟩)
    refine ⟨hge, ?_⟩
    have hnn : (0 : double) ≤ |g.avgSlew| * 4 := by positivity
    have hfl : |g.avgSlew| * 4 - 1 < ((toInt (|g.avgSlew| * 4) : Int) : double) := by
      unfold toInt
      rw [if_pos hnn]
      exact Int.sub_one_lt_floor _
    have hcast : ((toInt (|g.avgSlew| * 4) : Int) : double)
        ≤ ((hardLimitLoop (toInt (|g.avgSlew| * 4)) 16 g.hardLimit : Int) : double) := by
      exact_mod_cast hge
    linarith
  · right
    simp only [HARD_LIMIT_NONE] at hc
    omega

theorem setHardLimit_doubles_to_slew_witness :
    (setHardLimit lostLockState 0).hardLimit ∈ hardLimitValues
    ∧ (setHardLimit startState 0).hardLimit = 32768 :=
  ⟨((setHardLimit_doubles_to_slew lostLockState 0).1 (by decide!) (by decide!) (by decide!)).2.1,
    (setHardLimit_doubles_to_slew startState 0).2 (by decide!)⟩

/-! ## The array accesses of `List::insert` (C27) -/

/-- C27, the code at a failing input: the loop of `List::insert` starts at
`i = ln` and writes `lst[i + 1]`, so every call `insert(idx, val)` with
`0 <= idx <= ln` accesses the element of index `ln + 1`.  For the sorted list
of capacity 10 that holds the nine samples 1, ..., 9 (nine entries, fewer than
10 recorded samples), `binaryInsert(10)` accesses the indices 8, 9, 10, 9, 9:
the index 10 is not in `[0, 10)`. -/
theorem binaryInsert_accesses_out_of_bounds :
    (∀ (l : OrderedList) (idx : Int), 0 ≤ idx → idx ≤ l.ln →
        l.ln + 1 ∈ OrderedList.insert.accesses l idx)
    ∧ nineSamples.wellFormed
    ∧ nineSamples.size = 10 ∧ nineSamples.count = 9 ∧ nineSamples.ln = 9
    ∧ nineSamples.entries.map intPair.val = [1, 2, 3, 4, 5, 6, 7, 8, 9]
    ∧ OrderedList.binaryInsert.accesses nineSamples 10 = [8, 9, 10, 9, 9]
    ∧ ¬ (∀ i ∈ OrderedList.binaryInsert.accesses nineSamples 10,
          0 ≤ i ∧ i < nineSamples.size) := by
  refine ⟨fun l idx h0 h1 => ?_, by decide, by decide, by decide, by decide, by decide,
    by decide, by decide⟩
  unfold OrderedList.insert.accesses
  obtain ⟨n, hn⟩ : ∃ n : Nat, (l.ln - idx + 1).toNat = n + 1 :=
    ⟨(l.ln - idx).toNat, by omega⟩
  rw [hn]
  exact List.mem_append_left _ (shiftLoop_accesses_first idx n l.ln h1)

/-! ## A lost lock restarts the controller in the same second (C28) -/

theorem setHardLimit_ge_2048 (g : G) (a : double) (hv : g.hardLimit ∈ hardLimitValues)
    (hs : 300 < |g.avgSlew|) : 2048 ≤ (setHardLimit g a).hardLimit := by
  by_cases ha : g.activeCount < 60
  · rw [setHardLimit_inactive g a ha]
    decide
  · have hmem := setHardLimit_mem g a hv
    have h1 : (1 : Int) ≤ g.hardLimit := by
      simp only [hardLimitValues, List.mem_cons, List.mem_singleton, List.not_mem_nil,
        or_false] at hv
      omega
    have hex := hardLimitLoop_exits (toInt (|g.avgSlew| * 4)) g.hardLimit h1
    rw [setHardLimit_high_slew g a (by omega) hs] at hmem ⊢
    have hd : 1200 ≤ toInt (|g.avgSlew| * 4) := by
      unfold toInt
      rw [if_pos (by positivity)]
      exact Int.le_floor.mpr (by push_cast; linarith)
    simp only [hardLimitValues, List.mem_cons, List.mem_singleton, List.not_mem_nil,
      or_false] at hmem
    simp only [HARD_LIMIT_NONE] at hex
    omega

theorem detectMissedPPS_hardLimit (g : G) (nearest : Int) (t_mono : timespec) :
    (detectMissedPPS g nearest t_mono).hardLimit = g.hardLimit := by
  unfold detectMissedPPS detectMissedPPS.advance detectMissedPPS.start detectMissedPPS.unblock
  simp only []
  split_ifs <;> rfl

theorem makeTimeCorrection_hardLimit_of_high_slew (g : G) (p : timeval) (c : ClockReadings)
    (hv : g.hardLimit ∈ hardLimitValues)
    (hns : (makeTimeCorrection g p c).1.isDelaySpike = false)
    (hs : 300 < |(makeTimeCorrection g p c).1.avgSlew|) :
    2048 ≤ (makeTimeCorrection g p c).1.hardLimit := by
  have h := hns
  rw [makeTimeCorrection_isDelaySpike] at h
  have hfr := h
  rw [removeNoise_isDelaySpike] at hfr
  have hsv := congrArg ServoFrame.hardLimit (removeNoise_servo_of_not_spike _ _ hfr)
  simp only [G.servo] at hsv
  have hav : (makeTimeCorrection g p c).1.avgSlew
      = (removeNoise.front (makeTimeCorrection.sample g p c)
          (makeTimeCorrection.sample g p c).rawError).avgSlew :=
    (congrArg FrontFrame.avgSlew (makeTimeCorrection_front_fields g p c)).trans
      (congrArg SpikeFrame.avgSlew (removeNoise_spike _ _))
  have hfl : (removeNoise.front (makeTimeCorrection.sample g p c)
      (makeTimeCorrection.sample g p c).rawError).hardLimit = g.hardLimit :=
    (congrArg ServoFrame.hardLimit (removeNoise_front_servo _ _)).trans
      (congrArg ServoFrame.hardLimit (makeTimeCorrection_sample_servo g p c))
  rw [makeTimeCorrection_hardLimit, hsv]
  rw [hav] at hs
  exact setHardLimit_ge_2048 _ _ (by rw [hfl]; exact hv) hs

/-- C28: with `startingFromRestore == 0` and a hard limit that is a power of
two from 1 to 32768 (as it is in every reachable state), in every second whose
PPS read succeeds and whose sample is not flagged as a delay spike, if
`isControlling` and `|avgSlew| > 300` hold after `makeTimeCorrection` then
`hardLimit >= 2048` also holds and `readPPS_SetTime` reinitialises the
controller and returns 1 in that same second; a second with `isControlling`
and `|avgSlew| > 300` that does not restart is one flagged as a delay spike. -/
theorem lost_lock_restarts_same_second (g : G) (c : Configs) (rv : Int) (tm : timeval)
    (nearest : Int) (t_mono : timespec) (clk : ClockReadings)
    (hv : g.hardLimit ∈ hardLimitValues) (hrv : 0 ≤ rv)
    (h0 : (readPPS_SetTime.corrected g tm nearest t_mono clk).startingFromRestore = 0)
    (hc : (readPPS_SetTime.corrected g tm nearest t_mono clk).isControlling = true)
    (hs : 300 < |(readPPS_SetTime.corrected g tm nearest t_mono clk).avgSlew|) :
    ((readPPS_SetTime.corrected g tm nearest t_mono clk).isDelaySpike = false →
      2048 ≤ (readPPS_SetTime.corrected g tm nearest t_mono clk).hardLimit
      ∧ (readPPS_SetTime g c rv tm nearest t_mono clk).2 = 1
      ∧ (readPPS_SetTime g c rv tm nearest t_mono clk).1
          = (initializeController (readPPS_SetTime.corrected g tm nearest t_mono clk) c).1)
    ∧ ((readPPS_SetTime g c rv tm nearest t_mono clk).2 ≠ 1 →
        (readPPS_SetTime.corrected g tm nearest t_mono clk).isDelaySpike = true) := by
  have key : (readPPS_SetTime.corrected g tm nearest t_mono clk).isDelaySpike = false →
      2048 ≤ (readPPS_SetTime.corrected g tm nearest t_mono clk).hardLimit
      ∧ (readPPS_SetTime g c rv tm nearest t_mono clk).2 = 1
      ∧ (readPPS_SetTime g c rv tm nearest t_mono clk).1
          = (initializeController (readPPS_SetTime.corrected g tm nearest t_mono clk) c).1 := by
    intro hns
    have hl : 2048 ≤ (readPPS_SetTime.corrected g tm nearest t_mono clk).hardLimit :=
      makeTimeCorrection_hardLimit_of_high_slew
        { detectMissedPPS g nearest t_mono with interruptLost := false } tm clk
        (by
          show (detectMissedPPS g nearest t_mono).hardLimit ∈ hardLimitValues
          rw [detectMissedPPS_hardLimit]
          exact hv) hns hs
    refine ⟨hl, ?_⟩
    rw [readPPS_SetTime_of_read g c rv tm nearest t_mono clk hrv]
    generalize readPPS_SetTime.corrected g tm nearest t_mono clk = s at h0 hc hs hl
    unfold readPPS_SetTime.restart
    have hcond : ((!s.isControlling && decide ((s.seq_num : Int) ≥ SECS_PER_MINUTE))
        || (s.isControlling && decide (s.hardLimit > HARD_LIMIT_1024)
            && decide (|s.avgSlew| > SLEW_MAX))) = true := by
      simp only [hc, HARD_LIMIT_1024, SLEW_MAX, Bool.not_true, Bool.false_and, Bool.false_or,
        Bool.true_and, Bool.and_eq_true, decide_eq_true_eq]
      exact ⟨by omega, by push_cast; exact hs⟩
    rw [if_pos (by simpa using h0), if_pos hcond]
    exact ⟨rfl, rfl⟩
  refine ⟨key, fun hne => ?_⟩
  rcases Bool.eq_false_or_eq_true
    (readPPS_SetTime.corrected g tm nearest t_mono clk).isDelaySpike with h | h
  · exact h
  · exact absurd (key h).2.1 hne

theorem lost_lock_restarts_same_second_witness :
    2048 ≤ (readPPS_SetTime.corrected lostLockState ⟨0, 7⟩ 0 ⟨0, 0⟩ ⟨0, 0, 0⟩).hardLimit
    ∧ (readPPS_SetTime lostLockState exampleConfigs 0 ⟨0, 7⟩ 0 ⟨0, 0⟩ ⟨0, 0, 0⟩).2 = 1 :=
  have h := (lost_lock_restarts_same_second lostLockState exampleConfigs 0 ⟨0, 7⟩ 0 ⟨0, 0⟩
    ⟨0, 0, 0⟩ (by decide!) (by decide!) (by decide!) (by decide!) (by decide!)).1 (by decide!)
  ⟨h.1, h.2.1⟩

/-! ## The controller before it starts controlling (C29) -/

theorem getConfigs_streak (g : G) (c : Configs) : (getConfigs g c).streak = g.streak := by
  unfold getConfigs getConfigs.values getConfigs.distribs
  simp only []
  split_ifs <;> rfl

theorem initializeController_cpu_streak (g : G) (c : Configs) :
    (initializeController.cpu g c).streak = g.streak := by
  unfold initializeController.cpu
  simp only []
  split_ifs <;> rfl

theorem initializeController_nDelaySpikes (g : G) (c : Configs) :
    (initializeController g c).1.nDelaySpikes = 0 := by
  have h : (initializeController g c).1.streak
      = { nDelaySpikes := 0, minSustainedDelay := 0, rawErrorAvg := g.rawErrorAvg,
          noiseLevel := 0 } := by
    unfold initializeController
    simp only []
    rw [initializeController_cpu_streak, getConfigs_streak]
    rfl
  exact congrArg StreakFrame.nDelaySpikes h

theorem acquiringInvariant_initializeController (g : G) (c : Configs) :
    acquiringInvariant (initializeController g c).1 := by
  have e := initializeController_servo g c
  have e1 := congrArg ServoFrame.clampAbsolute e
  have e2 := congrArg ServoFrame.activeCount e
  have e3 := congrArg ServoFrame.hardLimit e
  simp only [G.servo] at e1 e2 e3
  exact fun _ => ⟨e1, initializeController_nDelaySpikes g c, e2, e3⟩

theorem clampJitter_no_limit (g : G) (r : Int) (h : g.hardLimit = 32768) :
    (clampJitter g r).1.clampAbsolute = false
    ∧ (clampJitter g r).1.rawErrorAvg = g.rawErrorAvg
    ∧ (clampJitter g r).2
        = (if r > toInt g.rawErrorAvg + 32768 then toInt g.rawErrorAvg + 32768
           else if r < toInt g.rawErrorAvg - 32768 then toInt g.rawErrorAvg - 32768
           else r) := by
  unfold clampJitter
  simp only [h]
  have h1 : ¬ ((32768 : Int) ≤ 4) := by decide
  have h2 : (32768 : Int) ≥ 16 := by decide
  simp only [decide_eq_true_eq, h1, h2, decide_False, Bool.and_false, if_true, decide_True]
  simp

theorem removeNoise_clamp_no_limit (g : G) (r : Int) (ha : g.activeCount < 60) :
    (removeNoise.clamp g r).1.rawErrorAvg = g.rawErrorAvg
    ∧ (removeNoise.clamp g r).2
        = (if r > toInt g.rawErrorAvg + 32768 then toInt g.rawErrorAvg + 32768
           else if r < toInt g.rawErrorAvg - 32768 then toInt g.rawErrorAvg - 32768
           else r) := by
  have hl := setHardLimit_inactive g g.avgCorrection ha
  have hr : (setHardLimit g g.avgCorrection).rawErrorAvg = g.rawErrorAvg := by
    unfold setHardLimit
    simp only []
    split_ifs <;> rfl
  obtain ⟨c1, c2, c3⟩ := clampJitter_no_limit (setHardLimit g g.avgCorrection) r hl
  unfold removeNoise.clamp
  simp only []
  rw [if_neg (by rw [c1]; decide)]
  rw [hr] at c2 c3
  exact ⟨c2, c3⟩

theorem removeNoise_back_frame (g : G) (z : Int) :
    (removeNoise.back g z).2 = z ∧ (removeNoise.back g z).1.rawErrorAvg = g.rawErrorAvg := by
  unfold removeNoise.back
  simp only []
  split_ifs <;> exact ⟨rfl, rfl⟩

/-- A call of `makeTimeCorrection` on a state that is not controlling, with
relative clamping, no streak of delay spikes and no active cycle. -/
theorem makeTimeCorrection_acquiring (g : G) (p : timeval) (c : ClockReadings)
    (hc : g.isControlling = false) (hca : g.clampAbsolute = false) (hn : g.nDelaySpikes = 0)
    (ha : g.activeCount = 0) :
    (makeTimeCorrection g p c).1.isDelaySpike = false
    ∧ (makeTimeCorrection g p c).1.clampAbsolute = false
    ∧ (makeTimeCorrection g p c).1.nDelaySpikes = 0
    ∧ (makeTimeCorrection g p c).1.hardLimit = 32768
    ∧ ((makeTimeCorrection g p c).1.isControlling = false →
        (makeTimeCorrection g p c).1.activeCount = 0)
    ∧ (makeTimeCorrection g p c).1.zeroError
        = (if (makeTimeCorrection g p c).1.rawError
              > toInt (makeTimeCorrection g p c).1.rawErrorAvg + 32768 then
            toInt (makeTimeCorrection g p c).1.rawErrorAvg + 32768
           else if (makeTimeCorrection g p c).1.rawError
              < toInt (makeTimeCorrection g p c).1.rawErrorAvg - 32768 then
            toInt (makeTimeCorrection g p c).1.rawErrorAvg - 32768
           else (makeTimeCorrection g p c).1.rawError) := by
  have xs := spikeInput_servo g p c
  have x1 : (spikeInput g p c).isControlling = false :=
    (congrArg ServoFrame.isControlling xs).trans hc
  have x2 : (spikeInput g p c).clampAbsolute = false :=
    (congrArg ServoFrame.clampAbsolute xs).trans hca
  have x3 : (spikeInput g p c).nDelaySpikes = 0 :=
    (congrArg StreakFrame.nDelaySpikes (spikeInput_streak g p c)).trans hn
  have hlim : limitCondition (spikeInput g p c) (makeTimeCorrection.sample g p c).rawError
      = false := by
    unfold limitCondition
    rw [x2, x1]
    rfl
  obtain ⟨d1, d2⟩ := detectDelaySpike_of_not_limit _ _ hlim
  obtain ⟨f1, f2, -, -⟩ := makeTimeCorrection_spike_fields g p c
  have hns : (makeTimeCorrection g p c).1.isDelaySpike = false := f1.trans d1
  have hnd : (makeTimeCorrection g p c).1.nDelaySpikes = 0 := by
    rw [f2, d2, x3]
    rfl
  have h := hns
  rw [makeTimeCorrection_isDelaySpike] at h
  have hfr := h
  rw [removeNoise_isDelaySpike] at hfr
  have hsv := removeNoise_servo_of_not_spike _ _ hfr
  have hsl := congrArg ServoFrame.hardLimit hsv
  have hsc := congrArg ServoFrame.clampAbsolute hsv
  simp only [G.servo] at hsl hsc
  have hfa : (removeNoise.front (makeTimeCorrection.sample g p c)
      (makeTimeCorrection.sample g p c).rawError).activeCount < 60 := by
    have e : (removeNoise.front (makeTimeCorrection.sample g p c)
        (makeTimeCorrection.sample g p c).rawError).activeCount = g.activeCount :=
      (congrArg ServoFrame.activeCount (removeNoise_front_servo _ _)).trans
        (congrArg ServoFrame.activeCount (makeTimeCorrection_sample_servo g p c))
    rw [e, ha]
    decide
  have hset := setHardLimit_inactive (removeNoise.front (makeTimeCorrection.sample g p c)
      (makeTimeCorrection.sample g p c).rawError)
    (removeNoise.front (makeTimeCorrection.sample g p c)
      (makeTimeCorrection.sample g p c).rawError).avgCorrection hfa
  have hff := makeTimeCorrection_front_fields g p c
  have hl : (makeTimeCorrection g p c).1.hardLimit = 32768 := by
    rw [makeTimeCorrection_hardLimit, hsl]
    exact hset
  have hcl : (makeTimeCorrection g p c).1.clampAbsolute = false := by
    have e := congrArg FrontFrame.clampAbsolute hff
    simp only [G.front] at e
    rw [e, hsc]
    exact (clampJitter_no_limit _ _ hset).1
  have hcnt := (makeTimeCorrection_counts g p c).2
  obtain ⟨k1, k2⟩ := removeNoise_clamp_no_limit
    (removeNoise.front (makeTimeCorrection.sample g p c)
      (makeTimeCorrection.sample g p c).rawError)
    (makeTimeCorrection.sample g p c).rawError hfa
  obtain ⟨b1, b2⟩ := removeNoise_back_frame
    (removeNoise.clamp (removeNoise.front (makeTimeCorrection.sample g p c)
      (makeTimeCorrection.sample g p c).rawError) (makeTimeCorrection.sample g p c).rawError).1
    (removeNoise.clamp (removeNoise.front (makeTimeCorrection.sample g p c)
      (makeTimeCorrection.sample g p c).rawError) (makeTimeCorrection.sample g p c).rawError).2
  have hrn := removeNoise_of_not_spike _ _ hfr
  have hrz : (removeNoise (makeTimeCorrection.sample g p c)
        (makeTimeCorrection.sample g p c).rawError).2
      = (removeNoise.clamp (removeNoise.front (makeTimeCorrection.sample g p c)
          (makeTimeCorrection.sample g p c).rawError)
          (makeTimeCorrection.sample g p c).rawError).2 := by
    rw [hrn]
    exact b1
  have hra : (removeNoise (makeTimeCorrection.sample g p c)
        (makeTimeCorrection.sample g p c).rawError).1.rawErrorAvg
      = (removeNoise.front (makeTimeCorrection.sample g p c)
          (makeTimeCorrection.sample g p c).rawError).rawErrorAvg := by
    rw [hrn]
    exact b2.trans k1
  have hza : (makeTimeCorrection g p c).1.rawErrorAvg
      = (removeNoise.front (makeTimeCorrection.sample g p c)
          (makeTimeCorrection.sample g p c).rawError).rawErrorAvg := by
    have e := congrArg FrontFrame.rawErrorAvg hff
    simp only [G.front] at e
    exact e.trans hra
  have hzr : (makeTimeCorrection g p c).1.rawError = (makeTimeCorrection.sample g p c).rawError := by
    have e := congrArg FrontFrame.rawError hff
    simp only [G.front] at e
    rw [e, removeNoise_rawError]
  have hze : (makeTimeCorrection g p c).1.zeroError
      = (removeNoise (makeTimeCorrection.sample g p c)
          (makeTimeCorrection.sample g p c).rawError).2 := by
    have e := congrArg FrontFrame.zeroError (makeTimeCorrection_correct_front
      { (removeNoise (makeTimeCorrection.sample g p c)
          (makeTimeCorrection.sample g p c).rawError).1 with
        zeroError := (removeNoise (makeTimeCorrection.sample g p c)
          (makeTimeCorrection.sample g p c).rawError).2 } c)
    rw [← makeTimeCorrection_of_not_spike g p c h] at e
    exact e
  refine ⟨hns, hcl, hnd, hl, fun hcf => ?_, ?_⟩
  · rw [hcnt, ha, if_neg (fun hh => by rw [hcf] at hh; exact absurd hh.2 (by decide))]
  · rw [hze, hrz, k2, hza, hzr]

theorem acquiringInvariant_step (g : G) (p : timeval) (c : ClockReadings)
    (hl : lockInvariant g) (hj : acquiringInvariant g) :
    acquiringInvariant (makeTimeCorrection g p c).1 := by
  intro hr
  rcases Bool.eq_false_or_eq_true g.isControlling with hc | hc
  · obtain ⟨l1, l2⟩ := hl.1 hc
    have := (makeTimeCorrection_isControlling_mono g p c hc l1 l2).1
    rw [hr] at this
    exact absurd this (by decide)
  · obtain ⟨j1, j2, j3, -⟩ := hj hc
    obtain ⟨-, s2, s3, s4, s5, -⟩ := makeTimeCorrection_acquiring g p c hc j1 j2 j3
    exact ⟨s2, s3, s5 hr, s4⟩

theorem acquiringInvariant_run (g : G) (inputs : List (timeval × ClockReadings))
    (hl : lockInvariant g) (hj : acquiringInvariant g) :
    acquiringInvariant (runSeconds g inputs) := by
  induction inputs generalizing g with
  | nil => exact hj
  | cons i l ih =>
    rw [runSeconds_cons]
    exact ih _ (lockInvariant_step g i.1 i.2 hl) (acquiringInvariant_step g i.1 i.2 hl hj)

/-- C29: in every state reached from `initialize` by calls of
`makeTimeCorrection` in which `isControlling` is still false, `clampAbsolute`
is false, `nDelaySpikes` is 0, no cycle has been active and `hardLimit` is
32768; the sample of the next call is not flagged as a delay spike, `hardLimit`
is 32768 after it, and its zero error is its raw error clamped to within 32768
of the truncated `rawErrorAvg`. -/
theorem no_delay_spike_before_controlling (g0 : G) (c : Configs)
    (inputs : List (timeval × ClockReadings))
    (hc : (runSeconds (initializeController g0 c).1 inputs).isControlling = false) :
    ((runSeconds (initializeController g0 c).1 inputs).clampAbsolute = false
      ∧ (runSeconds (initializeController g0 c).1 inputs).nDelaySpikes = 0
      ∧ (runSeconds (initializeController g0 c).1 inputs).activeCount = 0
      ∧ (runSeconds (initializeController g0 c).1 inputs).hardLimit = 32768)
    ∧ (∀ (p : timeval) (clk : ClockReadings),
        (makeTimeCorrection (runSeconds (initializeController g0 c).1 inputs) p clk).1.isDelaySpike
            = false
        ∧ (makeTimeCorrection (runSeconds (initializeController g0 c).1 inputs) p clk).1.hardLimit
            = 32768
        ∧ (makeTimeCorrection (runSeconds (initializeController g0 c).1 inputs) p clk).1.zeroError
            = (if (makeTimeCorrection (runSeconds (initializeController g0 c).1 inputs)
                    p clk).1.rawError
                  > toInt (makeTimeCorrection (runSeconds (initializeController g0 c).1 inputs)
                      p clk).1.rawErrorAvg + 32768 then
                toInt (makeTimeCorrection (runSeconds (initializeController g0 c).1 inputs)
                  p clk).1.rawErrorAvg + 32768
               else if (makeTimeCorrection (runSeconds (initializeController g0 c).1 inputs)
                    p clk).1.rawError
                  < toInt (makeTimeCorrection (runSeconds (initializeController g0 c).1 inputs)
                      p clk).1.rawErrorAvg - 32768 then
                toInt (makeTimeCorrection (runSeconds (initializeController g0 c).1 inputs)
                  p clk).1.rawErrorAvg - 32768
               else (makeTimeCorrection (runSeconds (initializeController g0 c).1 inputs)
                  p clk).1.rawError)) := by
  have hj := acquiringInvariant_run _ inputs (lockInvariant_initializeController g0 c)
    (acquiringInvariant_initializeController g0 c) hc
  obtain ⟨j1, j2, j3, j4⟩ := hj
  refine ⟨⟨j1, j2, j3, j4⟩, fun p clk => ?_⟩
  obtain ⟨s1, -, -, s4, -, s6⟩ := makeTimeCorrection_acquiring _ p clk hc j1 j2 j3
  exact ⟨s1, s4, s6⟩

theorem no_delay_spike_before_controlling_witness :
    (runSeconds (initializeController G.startup exampleConfigs).1
        [(⟨0, 107⟩, ⟨0, 0, 0⟩)]).clampAbsolute = false
    ∧ (runSeconds (initializeController G.startup exampleConfigs).1
        [(⟨0, 107⟩, ⟨0, 0, 0⟩)]).nDelaySpikes = 0
    ∧ (makeTimeCorrection (runSeconds (initializeController G.startup exampleConfigs).1
        [(⟨0, 107⟩, ⟨0, 0, 0⟩)]) ⟨0, 400007⟩ ⟨0, 0, 0⟩).1.isDelaySpike = false
    ∧ (makeTimeCorrection (runSeconds (initializeController G.startup exampleConfigs).1
        [(⟨0, 107⟩, ⟨0, 0, 0⟩)]) ⟨0, 400007⟩ ⟨0, 0, 0⟩).1.hardLimit = 32768
    ∧ (makeTimeCorrection (runSeconds (initializeController G.startup exampleConfigs).1
        [(⟨0, 107⟩, ⟨0, 0, 0⟩)]) ⟨0, 400007⟩ ⟨0, 0, 0⟩).1.zeroError = 72777 :=
  have h := no_delay_spike_before_controlling G.startup exampleConfigs [(⟨0, 107⟩, ⟨0, 0, 0⟩)]
    (by decide!)
  ⟨h.1.1, h.1.2.1, (h.2 ⟨0, 400007⟩ ⟨0, 0, 0⟩).1, (h.2 ⟨0, 400007⟩ ⟨0, 0, 0⟩).2.1,
    (h.2 ⟨0, 400007⟩ ⟨0, 0, 0⟩).2.2.trans (by decide!)⟩

/-! ## The fractional-second correction moves the clock to the whole second (C30) -/

/-- C30: for every observed fractional second `c` in `[0, 2000000)` with
`c != 500000`, with `relC` equal to `c` if `c <= 500000` and to `c - 1000000`
otherwise, `correctFractionalSecond` issues a set-offset request iff
`|relC| >= 15`: then it returns 0, records one request and the requested
offset `dsec * 1000000 + dusec` is exactly `-relC`; else it returns 1 and
leaves the state, and so the record of requests, unchanged. -/
theorem correctFractionalSecond_moves_to_whole_second (g : G) (pps_t : timeval)
    (h0 : 0 ≤ pps_t.tv_usec) (h1 : pps_t.tv_usec < 2000000) (h2 : pps_t.tv_usec ≠ 500000) :
    (|(if pps_t.tv_usec ≤ 500000 then pps_t.tv_usec else pps_t.tv_usec - 1000000)| < 15 →
        correctFractionalSecond g pps_t = (g, pps_t, 1))
    ∧ (15 ≤ |(if pps_t.tv_usec ≤ 500000 then pps_t.tv_usec else pps_t.tv_usec - 1000000)| →
        (correctFractionalSecond g pps_t).2.2 = 0
        ∧ (correctFractionalSecond g pps_t).1.sysLog
            = g.sysLog ++ [SysCall.adjtimex (correctFractionalSecond g pps_t).1.t3]
        ∧ (correctFractionalSecond g pps_t).1.t3.modes = ADJ_SETOFFSET + ADJ_STATUS
        ∧ (correctFractionalSecond g pps_t).1.t3.time_tv_sec * 1000000
            + (correctFractionalSecond g pps_t).1.t3.time_tv_usec
          = -(if pps_t.tv_usec ≤ 500000 then pps_t.tv_usec else pps_t.tv_usec - 1000000)) := by
  have hrel : (if pps_t.tv_usec ≥ 1000000 then pps_t.tv_usec - 1000000
      else if pps_t.tv_usec > 500000 then -(1000000 - pps_t.tv_usec) else pps_t.tv_usec)
      = (if pps_t.tv_usec ≤ 500000 then pps_t.tv_usec else pps_t.tv_usec - 1000000) := by
    split_ifs <;> omega
  unfold correctFractionalSecond
  simp only [decide_eq_true_eq]
  rw [hrel]
  refine ⟨fun h => by rw [if_pos h], fun h => ?_⟩
  rw [if_neg (not_lt.mpr h)]
  refine ⟨rfl, ?_, ?_, ?_⟩
  · unfold setClockFractionalSecond adjtimex
    simp only [decide_eq_true_eq, USECS_PER_SEC]
    split_ifs <;> rfl
  · unfold setClockFractionalSecond adjtimex
    simp only [decide_eq_true_eq, USECS_PER_SEC]
    split_ifs <;> rfl
  · unfold setClockFractionalSecond adjtimex
    simp only [decide_eq_true_eq, USECS_PER_SEC]
    split_ifs <;> simp only [] <;> omega

theorem correctFractionalSecond_moves_to_whole_second_witness :
    (correctFractionalSecond startState ⟨0, 750000⟩).2.2 = 0
    ∧ (correctFractionalSecond startState ⟨0, 750000⟩).1.t3.time_tv_sec * 1000000
        + (correctFractionalSecond startState ⟨0, 750000⟩).1.t3.time_tv_usec = 250000
    ∧ correctFractionalSecond startState ⟨0, 1000010⟩ = (startState, ⟨0, 1000010⟩, 1) :=
  ⟨((correctFractionalSecond_moves_to_whole_second startState ⟨0, 750000⟩ (by decide) (by decide)
      (by decide)).2 (by decide)).1,
    ((correctFractionalSecond_moves_to_whole_second startState ⟨0, 750000⟩ (by decide) (by decide)
      (by decide)).2 (by decide)).2.2.2.trans (by decide),
    (correctFractionalSecond_moves_to_whole_second startState ⟨0, 1000010⟩ (by decide) (by decide)
      (by decide)).1 (by decide)⟩

end PPSClient
